import Mathlib

/-!
# VFC-Core: admission pipeline, transaction queue and uniqueness filter

A shallow embedding of the parts of `src/main.c` that decide how a transaction
record travels from the UDP listener to the ledger:

* `has_uid` / `add_uid`  (the uniqueness filter, `sites[]`),
* `aQue` / `gQue`        (the transaction queue, `tq[] ip[] ipo[] replay[] delta[]`),
* `rExi`                 (the recently-executed table, `uidlist[] uidtimes[]`),
* `isSubGenesisAddress`, `getBalanceLocal`, `hasbalance` (both read paths),
  `process_trans`,
* `makGenesis` and one iteration of `processThread`,
* the peer table: `addPeer`, `getPeer`, `setMasterNode`, `triBroadcast`, `getPeerHeigh`
  and the listener branches for user-agent, replay and discovery datagrams,
* `replayHead`, `truncate_at_error` and the wire format of the transaction and
  replay packets,
* `gNa`, `isSubGenesisAddressMine` and the geometric part of `isSubGenesisAddress`.

Conventions of the embedding.

* C arrays are lists whose length is the size of the array; a `for` loop over
  the array is a recursion over the list. Results are stated for every length,
  so they hold for the sizes fixed in the source (`MAX_TRANS_QUEUE = 4096`,
  `MAX_REXI_SIZE = 1024`).
* `sites[]` has 11111101 buckets and is a total map from bucket index to bucket.
* The ledger file `CHAIN_FILE` is the list of its records, the bad-blocks file
  `BADCHAIN_FILE` likewise. File operations succeed (no short read or write).
* `time(0)` is a parameter `now`; one call of a function sees one clock value.
* Unsigned machine integers are natural numbers; the 32-bit store of
  `expire_epoch` is reduced modulo `2 ^ 32`. The 64-bit balance accumulator `rv`
  is an integer: a wrap would need more than `2 ^ 31` ledger records.
* `ecdsa_verify`, `makHash`, the Base58 value of the genesis key and the
  floating-point value of a sub-genesis key are fields of `Env`.
* Where the geometry of a sub-genesis key is spelled out, the integer parts are
  computed and the results of the double-precision operations are fields of
  `FloatEnv`; a finite double stands for its rational value.
* `strtok` and `strtoul` follow ISO C.
* `filter_reachable` and `ledger_reachable` describe the filter states and the
  ledgers the program produces, for the results that hold on those only.
-/

namespace VFC

/-! ## Constants -/

/-- Byte width of a private key (`ECC_CURVE` of `ecc.h`); a public key has one byte more. -/
def ECC_CURVE : Nat := 24

def ERROR_NOFUNDS : Int := -1
def ERROR_SIGFAIL : Int := -2
def ERROR_UIDEXIST : Int := -3
def ERROR_WRITE : Int := -4

def MAX_SITES : Nat := 11111101
def MAX_TRANS_QUEUE : Nat := 4096
def MAX_REXI_SIZE : Nat := 1024
def INFLATION_TAX : Nat := 1000

/-! ## Records -/

/-- Public key, `struct addr`: `ECC_CURVE+1` bytes. `memcmp(..) == 0` is equality. -/
structure addr where
  key : List Nat
  deriving DecidableEq, Repr

/-- Signature, `struct sig`: `ECC_CURVE*2` bytes. -/
structure sig where
  key : List Nat
  deriving DecidableEq, Repr

/-- Transaction record, `struct trans`. The fields `from` and `to` of the source are `from_` and `to_` (both words are reserved). -/
structure trans where
  uid : Nat
  from_ : addr
  to_ : addr
  amount : Nat
  owner : sig
  deriving DecidableEq, Repr

/-- The all-zero key left by `memset(&t, 0, sizeof(struct trans))`. -/
def zero_addr : addr := ⟨List.replicate (ECC_CURVE + 1) 0⟩

/-- The all-zero signature left by `memset(&t, 0, sizeof(struct trans))`. -/
def zero_sig : sig := ⟨List.replicate (ECC_CURVE * 2) 0⟩

/-- What the source takes from outside `main.c`. -/
structure Env where
  /-- The global `genesis_pub`: the Base58 literal decoded by `b58tobin`. -/
  genesis_pub : addr
  /-- Value returned by the geometric part of `isSubGenesisAddress(a, 0)` (floating point). -/
  subG : addr → Nat
  /-- SHA3-256 of the bytes of a record, `makHash`. -/
  makHash : trans → List Nat
  /-- Result of `ecdsa_verify(pubkey, hash, signature)`; `true` is the non-zero result. -/
  ecdsa_verify : List Nat → List Nat → List Nat → Bool

/-! ## Uniqueness filter -/

/-- Bucket of the filter, `struct site`. -/
structure site where
  uid_high : Nat
  uid_low : Nat
  expire_epoch : Nat
  deriving DecidableEq, Repr

/-- The 16-bit projection: `(uid % (sizeof(unsigned short)-1))+1`. -/
def idfar (uid : Nat) : Nat := (uid % (2 - 1)) + 1

/-- Bucket state after the lazy reset at the head of `has_uid`. -/
def has_uid_reset (now : Nat) (b : site) : site :=
  if now ≥ b.expire_epoch then ⟨0, 0, 0⟩ else b

/-- Function `has_uid`: result and the buckets it leaves. -/
def has_uid (now uid : Nat) (sites : Nat → site) : Nat × (Nat → site) :=
  let site_index := uid % MAX_SITES
  let b := has_uid_reset now (sites site_index)
  let sites1 := Function.update sites site_index b
  if idfar uid ≥ b.uid_low ∧ idfar uid ≤ b.uid_high then (1, sites1) else (0, sites1)

/-- Function `add_uid`: the buckets it leaves (the collision message is not modelled). -/
def add_uid (now uid expire_seconds : Nat) (sites : Nat → site) : Nat → site :=
  let site_index := uid % MAX_SITES
  let b0 := sites site_index
  let b1 : site :=
    if now ≥ b0.expire_epoch then ⟨0, 0, (now + expire_seconds) % 2 ^ 32⟩ else b0
  let b2 : site :=
    if idfar uid < b1.uid_low ∨ b1.uid_low = 0 then { b1 with uid_low := idfar uid } else b1
  let b3 : site :=
    if idfar uid > b2.uid_high ∨ b2.uid_high = 0 then { b2 with uid_high := idfar uid } else b2
  Function.update sites site_index b3

/-- The buckets left by `init_sites`. -/
def init_sites : Nat → site := fun _ => ⟨0, 0, 0⟩

/-! ## Recently-executed table -/

/-- The scan of `rExi` from slot `i` on: `none` is the early `return 1`,
`some free` the value of `free` after the loop. An entry is `(uidlist[i], uidtimes[i])`. -/
def rExi_scan (now uid : Nat) : List (Nat × Nat) → Nat → Int → Option Int
  | [], _, free => some free
  | e :: rest, i, free =>
    if e.1 = uid ∧ (e.2 : Int) > (now : Int) then none
    else if (now : Int) > (e.2 : Int) - 2 ∨ e.2 = 0 then rExi_scan now uid rest (i + 1) (i : Int)
    else rExi_scan now uid rest (i + 1) free

/-- Function `rExi`: result and the table it leaves. -/
def rExi (now uid : Nat) (tbl : List (Nat × Nat)) : Nat × List (Nat × Nat) :=
  match rExi_scan now uid tbl 0 (-1) with
  | none => (1, tbl)
  | some free => if free ≠ -1 then (0, tbl.set free.toNat (uid, now + 3)) else (0, tbl)

/-! ## Ledger scans -/

/-- Byte size of a ledger record, `sizeof(struct trans)`, under the x86_64 ABI: `uid`
8 bytes, `from` and `to` `ECC_CURVE+1` bytes each, 2 bytes of padding before the
4-byte `amount`, `owner` `ECC_CURVE*2` bytes. The struct is not declared packed. -/
def sizeof_trans : Nat := 8 + (ECC_CURVE + 1) + (ECC_CURVE + 1) + 2 + 4 + ECC_CURVE * 2

/-- Byte size of the ledger file, `st.st_size` after `stat(CHAIN_FILE, &st)`. -/
def st_size (chain : List trans) : Nat := chain.length * sizeof_trans

/-- Call `isSubGenesisAddress(a, 0)` on the ledger `chain`: the inflation tax for the
genesis key (`st_size / sizeof(struct trans)` records), else the geometric value. -/
def isSubGenesisAddress (env : Env) (chain : List trans) (a : addr) : Nat :=
  if a = env.genesis_pub then
    if st_size chain > 0 then (st_size chain / sizeof_trans) * INFLATION_TAX else 0
  else env.subG a

/-- One step of the balance update of the memory-mapped scans:
`if(to == from) rv += amount; else if(from == from) rv -= amount;`. -/
def bal_step (frm : addr) (rv : Int) (t : trans) : Int :=
  if t.to_ = frm then rv + t.amount
  else if t.from_ = frm then rv - t.amount
  else rv

/-- Function `getBalanceLocal`, memory-mapped branch (`is8664 == 1`). -/
def getBalanceLocal (env : Env) (chain : List trans) (frm : addr) : Nat :=
  let rv : Int := chain.foldl (bal_step frm) (isSubGenesisAddress env chain frm : Int)
  if rv < 0 then 0 else rv.toNat

/-- The loop of `hasbalance`, memory-mapped branch. `t` is the local
`struct trans t`, compared with `uid` BEFORE the next record is copied into it.
`none` is the early `return ERROR_UIDEXIST`. -/
def hasbalance_loop (uid : Nat) (frm : addr) : trans → Int → List trans → Option Int
  | _, rv, [] => some rv
  | t, rv, r :: rest =>
    if t.uid = uid then none
    else hasbalance_loop uid frm r (bal_step frm rv r) rest

/-- Function `hasbalance`, memory-mapped branch (`is8664 == 1`). `stale` is the content of
the uninitialised local `struct trans t` on entry. -/
def hasbalance (env : Env) (chain : List trans) (stale : trans)
    (uid : Nat) (frm : addr) (amount : Nat) : Int :=
  match hasbalance_loop uid frm stale (isSubGenesisAddress env chain frm : Int) chain with
  | none => ERROR_UIDEXIST
  | some rv => if rv ≥ (amount : Int) then 1 else 0

/-- Value of `rv` when the loop of `hasbalance` runs to its end. -/
def scan_balance (env : Env) (chain : List trans) (frm : addr) : Int :=
  chain.foldl (bal_step frm) (isSubGenesisAddress env chain frm : Int)

/-! ## Node state -/

/-- Slot `i` of the queue: `tq[i]`, `ip[i]`, `ipo[i]`, `replay[i]`, `delta[i]`.
In `replay`, 1 is a live record and 0 a replayed one. -/
structure QEntry where
  tq : trans
  ip : Nat
  ipo : Nat
  replay : Nat
  delta : Nat
  deriving DecidableEq, Repr

/-- Mutable state shared by the listener and the workers. -/
structure Node where
  /-- Records of `CHAIN_FILE`. -/
  chain : List trans
  /-- Records of `BADCHAIN_FILE`. -/
  badchain : List trans
  /-- Buckets of the uniqueness filter. -/
  sites : Nat → site
  /-- The five parallel queue arrays. -/
  queue : List QEntry
  /-- The arrays `uidlist[]` and `uidtimes[]` of `rExi`. -/
  rexi : List (Nat × Nat)

/-! ## Transaction queue -/

/-- How the scan of `aQue` ends. -/
inductive AQueScan where
  /-- Double-spend branch taken at slot `i` (`return 1`). -/
  | dspend (i : Nat)
  /-- Same uid found in an occupied slot (`return 0`). -/
  | repeated
  /-- Loop completed with this value of `freeindex`. -/
  | done (freeindex : Int)
  deriving DecidableEq, Repr

/-- Slot `q` makes the loop of `aQue` take the double-spend branch: the slot is
occupied, `ir == 1 && replay[i] == 1`, same `from` key and different `to` key. -/
abbrev is_dspend (t : trans) (ir : Nat) (q : QEntry) : Prop :=
  q.tq.amount ≠ 0 ∧ (ir = 1 ∧ q.replay = 1) ∧ (q.tq.from_ = t.from_ ∧ q.tq.to_ ≠ t.to_)

/-- Slot `q` makes the loop of `aQue` take the repeat branch: occupied and same uid. -/
abbrev is_repeat (t : trans) (q : QEntry) : Prop :=
  q.tq.amount ≠ 0 ∧ q.tq.uid = t.uid

/-- The `for` loop of `aQue` from slot `i` on. Inside `if(tq[i].amount != 0)` the
double-spend test comes first, the uid test second; the `freeindex` update follows. -/
def aQue_scan (t : trans) (ir : Nat) : List QEntry → Nat → Int → AQueScan
  | [], _, freeindex => .done freeindex
  | q :: rest, i, freeindex =>
    if is_dspend t ir q then
      .dspend i
    else if is_repeat t q then
      .repeated
    else
      aQue_scan t ir rest (i + 1) (if freeindex = -1 ∧ q.tq.amount = 0 then (i : Int) else freeindex)

/-- Assignment `tq[i].amount = 0`. -/
def clear_slot (queue : List QEntry) (i : Nat) : List QEntry :=
  match queue[i]? with
  | some q => queue.set i { q with tq := { q.tq with amount := 0 } }
  | none => queue

/-- Function `aQue`: result and the node state it leaves. -/
def aQue (s : Node) (now : Nat) (t : trans) (iip iipo ir : Nat) : Nat × Node :=
  if t.amount = 0 then (0, s)
  else
    let h := has_uid now t.uid s.sites
    if h.1 = 1 then (0, { s with sites := h.2 })
    else
      match aQue_scan t ir s.queue 0 (-1) with
      | .dspend i =>
        (1, { s with
                badchain := s.badchain ++ [((s.queue[i]?).getD ⟨t, 0, 0, 0, 0⟩).tq, t]
                queue := clear_slot s.queue i
                sites := add_uid now t.uid 32400 h.2 })
      | .repeated => (0, { s with sites := h.2 })
      | .done freeindex =>
        (1, { s with
                queue := if freeindex ≠ -1 then s.queue.set freeindex.toNat ⟨t, iip, iipo, ir, now⟩
                         else s.queue
                sites := add_uid now t.uid 32400 h.2 })

/-- The test both loops of `gQue` apply to slot `q`. -/
def gQue_ready (now : Nat) (q : QEntry) : Bool :=
  q.tq.amount ≠ 0 ∧ ((now : Int) - (q.delta : Int) > 2 ∨ q.replay = 1)

/-- First loop of `gQue`: `for(uint i = mi; i > 0; i--)`. -/
def gQue_down (queue : List QEntry) (now : Nat) : Nat → Option Nat
  | 0 => none
  | i + 1 =>
    if (queue[i + 1]?).any (gQue_ready now) then some (i + 1) else gQue_down queue now i

/-- Second loop of `gQue`: `for(uint i = mi; i < MAX_TRANS_QUEUE; i++)`, on the slots from `i` on. -/
def gQue_up (now : Nat) : List QEntry → Nat → Option Nat
  | [], _ => none
  | q :: rest, i => if gQue_ready now q then some i else gQue_up now rest (i + 1)

/-- Function `gQue` with `mi` the value drawn by `qRand(0, MAX_TRANS_QUEUE-1)`;
`none` is the result -1. -/
def gQue (queue : List QEntry) (now mi : Nat) : Option Nat :=
  match gQue_down queue now mi with
  | some i => some i
  | none => gQue_up now (queue.drop mi) mi

/-! ## Admission -/

/-- Function `process_trans`, memory-mapped `hasbalance`; the append succeeds at the
first `fwrite`. `stale` is the uninitialised local of `hasbalance`; `frm` and `dst`
are the arguments `from` and `to`. -/
def process_trans (env : Env) (s : Node) (now : Nat) (stale : trans)
    (uid : Nat) (frm dst : addr) (amount : Nat) (owner : sig) : Int × Node :=
  let t : trans := ⟨uid, frm, dst, amount, zero_sig⟩
  if env.ecdsa_verify frm.key (env.makHash t) owner.key = false then (ERROR_SIGFAIL, s)
  else
    let t1 : trans := { t with owner := owner }
    let hbr := hasbalance env s.chain stale uid frm amount
    if hbr = 0 then (ERROR_NOFUNDS, s)
    else if hbr < 0 then (hbr, s)
    else if frm ≠ dst then
      let r := rExi now uid s.rexi
      if r.1 = 0 then (1, { s with chain := s.chain ++ [t1], rexi := r.2 })
      else (1, { s with rexi := r.2 })
    else (1, s)

/-- The genesis record written by `makGenesis`. -/
def makGenesis (env : Env) : List trans :=
  [⟨0, zero_addr, env.genesis_pub, 0xFFFFFFFF, zero_sig⟩]

/-- One iteration of the `while(1)` of `processThread`: the node state it leaves and
the `(origin, record)` of the packet handed to `triBroadcast`, if any. The calls
of `addPeer` act on the peer table only and are left out. -/
def processThread (env : Env) (s : Node) (now : Nat) (stale : trans) (mi : Nat) :
    Node × Option (Nat × trans) :=
  match gQue s.queue now mi with
  | none => (s, none)
  | some i =>
    match s.queue[i]? with
    | none => (s, none)
    | some q =>
      let r := process_trans env { s with queue := clear_slot s.queue i } now stale
        q.tq.uid q.tq.from_ q.tq.to_ q.tq.amount q.tq.owner
      if r.1 = 1 ∧ q.replay = 1 then (r.2, some (q.ip, q.tq)) else (r.2, none)


/-! ## Peer table -/

def MAX_PEERS : Nat := 3072
def MAX_PEER_EXPIRE_SECONDS : Nat := 10800
def PING_INTERVAL : Nat := 540
def MAX_RALLOW : Nat := 256
def REPLAY_SIZE : Nat := 6944
def RECV_BUFF_SIZE : Nat := 256

/-- IPv4 address `a.b.c.d` in network byte order, as the `uint` value a little-endian
host (x86_64) holds: the first octet is the lowest byte. -/
def ipv4 (a b c d : Nat) : Nat := a + b * 2 ^ 8 + c * 2 ^ 16 + d * 2 ^ 24

/-- Function `ntohl` on a little-endian host: the four bytes of a `uint32_t` reversed. -/
def ntohl (x : Nat) : Nat :=
  (x % 2 ^ 8) * 2 ^ 24 + (x / 2 ^ 8 % 2 ^ 8) * 2 ^ 16 + (x / 2 ^ 16 % 2 ^ 8) * 2 ^ 8
    + (x / 2 ^ 24 % 2 ^ 8)

/-- Value of `inet_addr("127.0.0.1")`, `0x0100007F`. -/
def loopback_addr : Nat := ipv4 127 0 0 1

/-- Value of `inet_aton(master_ip)` for `master_ip = "198.204.248.26"`. -/
def master_addr : Nat := ipv4 198 204 248 26

/-- Function `isPrivateAddress`: `b1 = (uint8_t)(ip >> 24)`, `b2 = (uint8_t)((ip >> 16) & 0x0ff)`. -/
def isPrivateAddress (iip : Nat) : Nat :=
  let ip := ntohl iip
  let b1 := (ip / 2 ^ 24) % 2 ^ 8
  let b2 := ((ip / 2 ^ 16) % 2 ^ 8) % 2 ^ 8
  if b1 = 10 then 1
  else if b1 = 172 ∧ b2 ≥ 16 ∧ b2 ≤ 31 then 1
  else if b1 = 192 ∧ b2 = 168 then 1
  else 0

/-- The peer arrays `peers[]`, `peer_timeouts[]`, `peer_tcount[]`, `peer_ua[]` as maps
from index to entry, and `num_peers`. A user agent is its 64-byte buffer. -/
structure Peers where
  peers : Nat → Nat
  peer_timeouts : Nat → Int
  peer_tcount : Nat → Nat
  peer_ua : Nat → List Nat
  num_peers : Nat

/-- The loop of `addPeer` over `n` further indices from `i` on: `.inl i` when
`peers[i] == ip` was met, else `.inr freeindex`. -/
def addPeer_scan (p : Peers) (now ip : Nat) : Nat → Nat → Nat → Nat ⊕ Nat
  | 0, _, freeindex => .inr freeindex
  | n + 1, i, freeindex =>
    if p.peers i = ip then .inl i
    else addPeer_scan p now ip n (i + 1)
      (if freeindex = 0 ∧ i ≠ 0 ∧ p.peer_timeouts i < (now : Int) then i else freeindex)

/-- Expiry written by `addPeer`: `time(0) + MAX_PEER_EXPIRE_SECONDS`. -/
def peer_expiry (now : Nat) : Int := (now : Int) + (MAX_PEER_EXPIRE_SECONDS : Int)

/-- Function `addPeer`: result and the peer table it leaves. -/
def addPeer (p : Peers) (now ip : Nat) : Nat × Peers :=
  if ip = loopback_addr then (0, p)
  else if isPrivateAddress ip = 1 then (0, p)
  else
    match addPeer_scan p now ip p.num_peers 0 0 with
    | .inl i =>
      (0, { p with
              peer_timeouts := Function.update p.peer_timeouts i (peer_expiry now),
              peer_tcount := Function.update p.peer_tcount i ((p.peer_tcount i + 1) % 2 ^ 32) })
    | .inr freeindex =>
      if p.num_peers < MAX_PEERS then
        (1, { p with
                peers := Function.update p.peers p.num_peers ip,
                peer_timeouts := Function.update p.peer_timeouts p.num_peers (peer_expiry now),
                peer_tcount := Function.update p.peer_tcount p.num_peers 1,
                num_peers := p.num_peers + 1 })
      else if freeindex ≠ 0 then
        (1, { p with
                peers := Function.update p.peers freeindex ip,
                peer_timeouts := Function.update p.peer_timeouts freeindex (peer_expiry now),
                peer_tcount := Function.update p.peer_tcount freeindex 1 })
      else (0, p)

/-- Bytes of the string `"VFC-MASTER"`. -/
def master_ua : List Nat := [86, 70, 67, 45, 77, 65, 83, 84, 69, 82]

/-- The C string held by a buffer: the bytes before the first NUL. -/
def cstr (buf : List Nat) : List Nat := buf.takeWhile (fun b => b ≠ 0)

/-- Function `setMasterNode`. The `memset` of `peer_timeouts` clears
`sizeof(uint)*MAX_PEERS` bytes, that is the first half of the `time_t` entries;
`sprintf` writes the ten characters and a NUL into `peer_ua[0]`. -/
def setMasterNode (p : Peers) : Peers :=
  { peers := Function.update (fun _ => 0) 0 master_addr,
    peer_timeouts := fun i => if i < (4 * MAX_PEERS) / 8 then 0 else p.peer_timeouts i,
    peer_tcount := p.peer_tcount,
    peer_ua := Function.update p.peer_ua 0 (master_ua ++ [0] ++ (p.peer_ua 0).drop 11),
    num_peers := 1 }

/-- The loop of `getPeer` and `isPeer` over `n` further indices from `i` on; -1 when
no index holds `ip`. -/
def getPeer_scan (peers : Nat → Nat) (ip : Nat) : Nat → Nat → Int
  | 0, _ => -1
  | n + 1, i => if peers i = ip then (i : Int) else getPeer_scan peers ip n (i + 1)

/-- Function `getPeer`. -/
def getPeer (p : Peers) (ip : Nat) : Int := getPeer_scan p.peers ip p.num_peers 0

/-- Listener branch `else if(rb[0] == 'a')` for a datagram `rb` from `src`: the
receive buffer is the datagram followed by the zeros of `memset(rb, 0, sizeof(rb))`;
`memcpy(&peer_ua[p], rb+1, 63); peer_ua[p][63] = 0x00;`. -/
def ua_datagram (p : Peers) (src : Nat) (rb : List Nat) : Peers :=
  let i := getPeer p src
  let ua := (((rb ++ List.replicate RECV_BUFF_SIZE 0).drop 1).take 63) ++ [0]
  if i ≠ -1 then { p with peer_ua := Function.update p.peer_ua i.toNat ua } else p

/-- What reaches the peer table: a call `addPeer(ip)` at time `now`, or a user-agent
datagram `rb` from `src`. -/
inductive PeerEvent where
  | add (now ip : Nat)
  | ua (src : Nat) (rb : List Nat)

/-- The peer table after a sequence of events. -/
def run_events : Peers → List PeerEvent → Peers
  | p, [] => p
  | p, .add now ip :: rest => run_events (addPeer p now ip).2 rest
  | p, .ua src rb :: rest => run_events (ua_datagram p src rb) rest

/-- Ping delta `const uint pd = time(0)-(peer_timeouts[i]-MAX_PEER_EXPIRE_SECONDS)`. -/
def peer_pd (p : Peers) (now i : Nat) : Int :=
  ((now : Int) - (p.peer_timeouts i - (MAX_PEER_EXPIRE_SECONDS : Int))) % 2 ^ 32

/-- Test `pd <= PING_INTERVAL*4` of `isPeerAlive` and of the searches for a living peer. -/
def peer_living (p : Peers) (now i : Nat) : Bool :=
  peer_pd p now i ≤ ((PING_INTERVAL * 4 : Nat) : Int)

/-- The `do ... while(si < num_peers)` of `triBroadcast` with at most `n` further
rounds: the index at the `break`, or `num_peers` when the loop runs out. -/
def tri_search (p : Peers) (now : Nat) : Nat → Nat → Nat
  | 0, si => si
  | n + 1, si =>
    if peer_living p now si then si
    else if si + 1 < p.num_peers then tri_search p now n (si + 1)
    else si + 1

/-- Function `triBroadcast`: the addresses handed to `csend`, in order. `r1` and `r2`
are the values of the first and second `qRand(1, num_peers-1)`. -/
def triBroadcast (p : Peers) (now r1 r2 : Nat) : List Nat :=
  if p.num_peers > 3 then
    let si := tri_search p now p.num_peers r1
    if si = p.num_peers then [p.peers r2] else [p.peers si]
  else
    (if p.num_peers > 0 then [p.peers 1] else [])
      ++ (if p.num_peers > 1 then [p.peers 2] else [])
      ++ (if p.num_peers > 2 then [p.peers 3] else [])

/-! ## Replay -/

/-- The loop of the `'p'` handler: `for(uint i = 0; replay_allow[i] != 0 && i < MAX_RALLOW; i++)
if(src == replay_allow[i]) allow = 1;` on the entries from `i` on. -/
def replay_allow_scan (src : Nat) : List Nat → Bool
  | [] => false
  | e :: rest => if e ≠ 0 then (decide (src = e) || replay_allow_scan src rest) else false

/-- Value of `allow` in the `'p'` handler for a datagram from `src`; `peers0` is
`peers[0]`, compared by `isMasterNode`. -/
def p_allow (peers0 : Nat) (replay_allow : List Nat) (src : Nat) : Nat :=
  if src = loopback_addr ∨ src = peers0 then 1
  else if replay_allow_scan src replay_allow then 1 else 0

/-- Listener branch for a well-sized `'p'` datagram from `src` that decodes to `t`:
`if(allow == 1) aQue(&t, 0, 0, 0);`. -/
def p_datagram (s : Node) (now peers0 : Nat) (replay_allow : List Nat) (src : Nat)
    (t : trans) : Node :=
  if p_allow peers0 replay_allow src = 1 then (aQue s now t 0 0 0).2 else s

/-- Packets of the replay stream: `'h'` with its 32-bit length field, `'p'` with its record. -/
inductive Packet where
  | h (height : Nat)
  | p (t : trans)
  deriving DecidableEq, Repr

/-- The `for` loop of `replayHead` with byte offset `i` (a `size_t`) and at most `n`
further rounds. A read of a whole record at offset `i` yields record `i / sizeof`;
a read past the end of the file fails for good and the function returns. -/
def replayHead_loop (chain : List trans) (end_ : Nat) : Nat → Nat → List trans
  | 0, _ => []
  | n + 1, i =>
    if i > end_ then
      if i + sizeof_trans ≤ st_size chain then
        match chain[i / sizeof_trans]? with
        | some t => t :: replayHead_loop chain end_ n ((i + 2 ^ 64 - sizeof_trans) % 2 ^ 64)
        | none => []
      else []
    else []

/-- Function `replayHead(ip, len)`: the packets sent to `ip`. Inside `if(f)` the
declaration `const size_t len = ftell(f);` hides the parameter, so `end` and the start
offset are computed from the byte length of the file in 64-bit unsigned arithmetic. -/
def replayHead (chain : List trans) (len : Nat) : List Packet :=
  let hdr : List Packet := if st_size chain > 0 then [.h (st_size chain % 2 ^ 32)] else []
  let _unused := len
  let flen := st_size chain
  let end_ := (flen + 2 ^ 64 - (flen * sizeof_trans) % 2 ^ 64) % 2 ^ 64
  hdr ++ (replayHead_loop chain end_ (chain.length + 1)
    ((flen + 2 ^ 64 - sizeof_trans) % 2 ^ 64)).map Packet.p

/-! ## Ledger repair and the positioned-read scan -/

/-- Signature test of `truncate_at_error` on record `t`: `ecdsa_verify` over the record
rebuilt with a zeroed signature field. -/
def sig_ok (env : Env) (t : trans) : Bool :=
  env.ecdsa_verify t.from_.key (env.makHash { t with owner := zero_sig }) t.owner.key

/-- The `for` loop of `truncate_at_error` with byte offset `i` (a `size_t`) and at most
`n` further rounds: the offset handed to `forceTruncate`, if any. The record read at
offset `i` is record `i / sizeof(struct trans)`. -/
def truncate_loop (env : Env) (chain : List trans) : Nat → Nat → Option Nat
  | 0, _ => none
  | n + 1, i =>
    if i < st_size chain then
      match chain[i / sizeof_trans]? with
      | some t =>
        if sig_ok env t = false then some i
        else truncate_loop env chain n ((i + sizeof_trans) % 2 ^ 64)
      | none => none
    else none

/-- Function `truncate_at_error(file, num)`: the ledger it leaves. The start offset is
`sizeof(struct trans)*((len/sizeof(struct trans))-num)` in 64-bit unsigned arithmetic;
`num` is a `uint`. -/
def truncate_at_error (env : Env) (chain : List trans) (num : Nat) : List trans :=
  let len := st_size chain
  let i0 := (sizeof_trans * ((len / sizeof_trans + 2 ^ 64 - num) % 2 ^ 64)) % 2 ^ 64
  match truncate_loop env chain (chain.length + 1) i0 with
  | some i => chain.take (i / sizeof_trans)
  | none => chain

/-- Balance update of the positioned-read scans: two independent tests,
`if(to == from) rv += amount; if(from == from) rv -= amount;`. -/
def bal_step_fread (frm : addr) (rv : Int) (t : trans) : Int :=
  let rv1 := if t.to_ = frm then rv + t.amount else rv
  if t.from_ = frm then rv1 - t.amount else rv1

/-- The loop of `hasbalance`, positioned-read branch without read failure: the record
is read first, then its uid is compared. `none` is `return ERROR_UIDEXIST`. -/
def hasbalance_fread_loop (uid : Nat) (frm : addr) : Int → List trans → Option Int
  | rv, [] => some rv
  | rv, t :: rest =>
    if t.uid = uid then none
    else hasbalance_fread_loop uid frm (bal_step_fread frm rv t) rest

/-- Function `hasbalance`, positioned-read branch (`is8664 == 0`), no read failure. -/
def hasbalance_fread (env : Env) (chain : List trans) (uid : Nat) (frm : addr)
    (amount : Nat) : Int :=
  match hasbalance_fread_loop uid frm (isSubGenesisAddress env chain frm : Int) chain with
  | none => ERROR_UIDEXIST
  | some rv => if rv ≥ (amount : Int) then 1 else 0

/-! ## Mining geometry -/

/-- Vector of three `uint16_t`, `struct vec3`. -/
structure vec3 where
  x : Nat
  y : Nat
  z : Nat
  deriving DecidableEq, Repr

/-- Dot product of two vectors as `gNa` computes it in `double`; the products are below
2^32 and the sum below 2^34, so every step is exact. -/
def vdot (a b : vec3) : Nat := a.x * b.x + a.y * b.y + a.z * b.z

/-- Results of the double-precision operations whose rounding is left open. A finite
double stands for its exact rational value. -/
structure FloatEnv where
  /-- The quotient `dot / (m1*m2)` of `gNa` with `m1 = sqrt(s1)`, `m2 = sqrt(s2)`, given the
  exact integers `dot`, `s1`, `s2`. -/
  quot : Nat → Nat → Nat → ℚ
  /-- The sum `a1+a2+a3+a4`. -/
  sum4 : ℚ → ℚ → ℚ → ℚ → ℚ
  /-- The value `(uint64_t)floor(( 1000 + ( 10000*(1-((at/4)*4.166666667)) ) )+0.5)` for
  the sum `at`. -/
  val : ℚ → Nat
  /-- The global `float network_difficulty`, widened to `double` by `getMiningDifficulty`. -/
  network_difficulty : ℚ

/-- The `double` constant `0.24`, that is 0x1.eb851eb851eb8p-3. -/
def min_024 : ℚ := 1080863910568919 / 4503599627370496

/-- Function `gNa`: `m1 == 0` holds exactly when the squared magnitude is 0. -/
def gNa (fe : FloatEnv) (a b : vec3) : ℚ :=
  if (vdot a a = 0 ∧ vdot b b = 0) ∨ vdot a b = 0 then 1
  else fe.quot (vdot a b) (vdot a a) (vdot b b)

/-- The `uint16_t` copied by `memcpy` from bytes `i` and `i+1` of the memory `m`
(little-endian host). -/
def u16_at (m : List Nat) (i : Nat) : Nat := m.getD i 0 % 256 + 256 * (m.getD (i + 1) 0 % 256)

/-- Vector `v[k]` read from the memory at the pointer `a`: bytes `6k` to `6k+5`. The
fifth vector takes bytes 24 to 29, of which only byte 24 belongs to a key of
`ECC_CURVE+1` bytes. -/
def vec_at (m : List Nat) (k : Nat) : vec3 :=
  ⟨u16_at m (6 * k), u16_at m (6 * k + 2), u16_at m (6 * k + 4)⟩

/-- The part shared by `isSubGenesisAddressMine` and `isSubGenesisAddress` after the
vectors are read: the four angles are compared with `min`, then the value is computed. -/
def subG_value (fe : FloatEnv) (a : List Nat) (min : ℚ) : Nat :=
  let a1 := gNa fe (vec_at a 0) (vec_at a 3)
  let a2 := gNa fe (vec_at a 3) (vec_at a 2)
  let a3 := gNa fe (vec_at a 2) (vec_at a 1)
  let a4 := gNa fe (vec_at a 1) (vec_at a 4)
  if a1 < min ∧ a2 < min ∧ a3 < min ∧ a4 < min then
    let at_ := fe.sum4 a1 a2 a3 a4
    if at_ ≤ 0 then 0 else fe.val at_
  else 0

/-- Function `isSubGenesisAddressMine` on the memory at the pointer `a` (the printing
is not modelled): `const double min = 0.24`. -/
def isSubGenesisAddressMine (fe : FloatEnv) (a : List Nat) : Nat :=
  subG_value fe a min_024

/-- Function `isSubGenesisAddress(a, fr)` on the memory at the pointer `a`, with the
geometric part spelled out: `min = fr == 0 ? getMiningDifficulty() : 0.24`. -/
def isSubGenesisAddress_fr (fe : FloatEnv) (genesis_pub : addr) (chain : List trans)
    (a : List Nat) (fr : Nat) : Nat :=
  if a.take (ECC_CURVE + 1) = genesis_pub.key then
    if st_size chain > 0 then (st_size chain / sizeof_trans) * INFLATION_TAX else 0
  else subG_value fe a (if fr = 0 then fe.network_difficulty else min_024)

/-! ## Peer height and advertised difficulty -/

/-- Library call `strtok(buf, ",")` of ISO C on the buffer `buf`: leading commas are
skipped; at a NUL (or the end of the buffer) there is no token; otherwise the token
runs to the next comma or NUL, and a comma that ends it is overwritten with NUL.
Result: index of the token, if any, and the buffer left. -/
def strtok_comma (buf : List Nat) : Option Nat × List Nat :=
  let start := (buf.takeWhile (fun b => b = 44)).length
  match buf[start]? with
  | none => (none, buf)
  | some b =>
    if b = 0 then (none, buf)
    else
      let e := start + ((buf.drop start).takeWhile (fun c => c ≠ 0 ∧ c ≠ 44)).length
      if buf[e]? = some 44 then (some start, buf.set e 0) else (some start, buf)

/-- Value of a run of decimal digits at the head of `s`, from the accumulator `acc`. -/
def digits_val : List Nat → Nat → Nat
  | [], acc => acc
  | c :: rest, acc => if 48 ≤ c ∧ c ≤ 57 then digits_val rest (acc * 10 + (c - 48)) else acc

/-- Library call `strtoul(s, NULL, 10)` of ISO C on the string `s`: white space is
skipped, a sign is read, the digits are converted; a value above `ULONG_MAX` gives
`ULONG_MAX`, a minus sign negates in 64-bit unsigned arithmetic. -/
def strtoul (s : List Nat) : Nat :=
  let s1 := s.dropWhile (fun c => c = 32 ∨ (9 ≤ c ∧ c ≤ 13))
  let neg := s1.head? = some 45
  let s2 := if s1.head? = some 45 ∨ s1.head? = some 43 then s1.drop 1 else s1
  let v := digits_val s2 0
  if v ≥ 2 ^ 64 then 2 ^ 64 - 1
  else if neg then (2 ^ 64 - v) % 2 ^ 64 else v

/-- Function `getPeerHeigh`: result and the peer table it leaves. -/
def getPeerHeigh (p : Peers) (id : Nat) : Nat × Peers :=
  match strtok_comma (p.peer_ua id) with
  | (some start, buf) =>
    (strtoul (cstr (buf.drop start)), { p with peer_ua := Function.update p.peer_ua id buf })
  | (none, buf) => (0, { p with peer_ua := Function.update p.peer_ua id buf })

/-- The characters `networkDifficulty` copies into `cf` for a live peer with user agent
`ua`, handed to `atof`; `none` is `continue`. -/
def networkDifficulty_cf (ua : List Nat) : Option (List Nat) :=
  let ual := (cstr ua).length % 2 ^ 32
  if ual > 6 then
    if ua.getD (ual - 5) 0 = 48 ∧ ua.getD (ual - 4) 0 = 46 then
      some [ua.getD (ual - 5) 0, ua.getD (ual - 4) 0, ua.getD (ual - 3) 0,
            ua.getD (ual - 2) 0, ua.getD (ual - 1) 0]
    else none
  else none

/-! ## Discovery datagrams -/

/-- What a discovery branch of the listener does. -/
structure Discovery where
  /-- The datagram handed to `csend` for the source, if any. -/
  reply : Option (List Nat)
  /-- The argument of the call of `addPeer`, if it is made. -/
  added : Option Nat
  /-- The peer table left. -/
  peers : Peers

/-- Listener branches `rb[0] == 0x09` and `rb[0] == 0x0D` with `read_size == sizeof(mid)`
for a datagram `rb` from `src`; `mid` is the node code of 8 bytes. -/
def discovery_datagram (p : Peers) (mid : List Nat) (now src : Nat) (rb : List Nat) :
    Discovery :=
  if rb.getD 0 0 = 9 ∧ rb.length = 8 then
    ⟨some (rb.set 0 13), some src, (addPeer p now src).2⟩
  else if rb.getD 0 0 = 13 ∧ rb.length = 8 then
    if rb.getD 1 0 = mid.getD 1 0 ∧ rb.getD 2 0 = mid.getD 2 0 ∧ rb.getD 3 0 = mid.getD 3 0 ∧
       rb.getD 4 0 = mid.getD 4 0 ∧ rb.getD 5 0 = mid.getD 5 0 ∧ rb.getD 6 0 = mid.getD 6 0 ∧
       rb.getD 7 0 = mid.getD 7 0 then
      ⟨none, some src, (addPeer p now src).2⟩
    else ⟨none, none, p⟩
  else ⟨none, none, p⟩

/-! ## Wire format -/

/-- The `k` bytes `memcpy` takes from an unsigned integer `n` (little-endian host). -/
def le_bytes : Nat → Nat → List Nat
  | 0, _ => []
  | k + 1, n => (n % 256) :: le_bytes k (n / 256)

/-- The unsigned integer `memcpy` builds from bytes (little-endian host). -/
def le_val : List Nat → Nat
  | [] => 0
  | b :: rest => b + 256 * le_val rest

/-- Packet built by `processThread`: the character 0x74, origin, uid, from, to, amount,
signature. -/
def encode_t (origin : Nat) (t : trans) : List Nat :=
  116 :: (le_bytes 4 origin ++ (le_bytes 8 t.uid ++ (t.from_.key ++ (t.to_.key ++
    (le_bytes 4 t.amount ++ t.owner.key)))))

/-- Length `trans_size` the listener asks of a transaction datagram. -/
def trans_size : Nat := 1 + 4 + 8 + (ECC_CURVE + 1) + (ECC_CURVE + 1) + 4 + ECC_CURVE + ECC_CURVE

/-- Length `replay_size` the listener asks of a replay datagram. -/
def replay_size : Nat := 1 + 8 + (ECC_CURVE + 1) + (ECC_CURVE + 1) + 4 + ECC_CURVE + ECC_CURVE

/-- Decoding in the listener branch for a transaction datagram (first byte 0x74 or 0x64 and
`read_size == trans_size`): origin and record, the pointer `ofs` advancing field by field. -/
def decode_t (rb : List Nat) : Option (Nat × trans) :=
  if (rb.getD 0 0 = 116 ∨ rb.getD 0 0 = 100) ∧ rb.length = trans_size then
    let ofs := rb.drop 1
    let origin := le_val (ofs.take 4)
    let ofs := ofs.drop 4
    let uid := le_val (ofs.take 8)
    let ofs := ofs.drop 8
    let frm := ofs.take (ECC_CURVE + 1)
    let ofs := ofs.drop (ECC_CURVE + 1)
    let dst := ofs.take (ECC_CURVE + 1)
    let ofs := ofs.drop (ECC_CURVE + 1)
    let amount := le_val (ofs.take 4)
    let ofs := ofs.drop 4
    let owner := ofs.take (ECC_CURVE * 2)
    some (origin, ⟨uid, ⟨frm⟩, ⟨dst⟩, amount, ⟨owner⟩⟩)
  else none

/-- Packet built by `replayBlocks`: the character 0x70, uid, from, to, amount, signature. -/
def encode_p (t : trans) : List Nat :=
  112 :: (le_bytes 8 t.uid ++ (t.from_.key ++ (t.to_.key ++
    (le_bytes 4 t.amount ++ t.owner.key))))

/-- Decoding in the listener branch for a replay datagram (first byte 0x70 and
`read_size == replay_size`), inside `if(allow == 1)`. -/
def decode_p (rb : List Nat) : Option trans :=
  if rb.getD 0 0 = 112 ∧ rb.length = replay_size then
    let ofs := rb.drop 1
    let uid := le_val (ofs.take 8)
    let ofs := ofs.drop 8
    let frm := ofs.take (ECC_CURVE + 1)
    let ofs := ofs.drop (ECC_CURVE + 1)
    let dst := ofs.take (ECC_CURVE + 1)
    let ofs := ofs.drop (ECC_CURVE + 1)
    let amount := le_val (ofs.take 4)
    let ofs := ofs.drop 4
    let owner := ofs.take (ECC_CURVE * 2)
    some ⟨uid, ⟨frm⟩, ⟨dst⟩, amount, ⟨owner⟩⟩
  else none

/-! ## States the program produces -/

/-- Filter states the program produces. `init_sites` runs at start-up; `has_uid` and
`add_uid` are called by `aQue` only, `add_uid` after `has_uid` returned 0 for the same
uid earlier in the same call (`t` and `now` are the two readings of the clock). -/
inductive filter_reachable : (Nat → site) → Prop
  | init : filter_reachable init_sites
  | has_uid (sites : Nat → site) (now uid : Nat) :
      filter_reachable sites → filter_reachable (has_uid now uid sites).2
  | add_uid (sites : Nat → site) (t now uid w : Nat) :
      filter_reachable sites → (has_uid t uid sites).1 = 0 →
      filter_reachable (add_uid now uid w (has_uid t uid sites).2)

/-- Ledgers the program writes: `makGenesis` creates the file, `process_trans` appends
to it, `truncate_at_error` cuts it. (The resync command copies the ledger of the
master node, which is written the same way.) -/
inductive ledger_reachable (env : Env) : List trans → Prop
  | genesis : ledger_reachable env (makGenesis env)
  | process (s : Node) (now : Nat) (stale : trans) (uid : Nat) (frm dst : addr)
      (amount : Nat) (owner : sig) :
      ledger_reachable env s.chain →
      ledger_reachable env (process_trans env s now stale uid frm dst amount owner).2.chain
  | truncate (chain : List trans) (num : Nat) :
      ledger_reachable env chain → ledger_reachable env (truncate_at_error env chain num)

/-! ## Specification-side definitions -/

/-- Repeated iterations of `processThread`; each element of the schedule is the
clock value and the random start index of one iteration. -/
def drain (env : Env) (stale : trans) : Node → List (Nat × Nat) → Node
  | s, [] => s
  | s, (now, mi) :: rest => drain env stale (processThread env s now stale mi).1 rest

/-- Stream the specification gives for `replayHead(ip, n)`: one `'h'` packet, then
the `n` most recent records from the tail towards the head. -/
def replayHead_spec (chain : List trans) (n : Nat) : List Packet :=
  [Packet.h (st_size chain % 2 ^ 32)] ++ ((chain.reverse).take n).map Packet.p

/-- First record failing the signature test among `l`, whose head is record `k` of
the ledger. -/
def first_bad (env : Env) : List trans → Nat → Option Nat
  | [], _ => none
  | t :: rest, k => if sig_ok env t = false then some k else first_bad env rest (k + 1)

/-- Ledger the specification gives for `truncate_at_error` with limit `limit`: the last
`min(limit, h)` records are examined and the file is cut at the first one whose
signature fails. -/
def truncate_spec (env : Env) (chain : List trans) (limit : Nat) : List trans :=
  let k := chain.length - min limit chain.length
  match first_bad env (chain.drop k) k with
  | some j => chain.take j
  | none => chain

/-! ## Concrete inputs -/

/-- Key whose `ECC_CURVE+1` bytes all equal `k`. -/
def key (k : Nat) : addr := ⟨List.replicate (ECC_CURVE + 1) k⟩

/-- Environment with genesis key `key 1`, the sub-genesis key `key 2` worth 5000
and a signature check that accepts. -/
def env1 : Env := ⟨key 1, fun a => if a = key 2 then 5000 else 0, fun _ => [], fun _ _ _ => true⟩

/-- Environment of `env1` with a signature check that rejects. -/
def env0 : Env := { env1 with ecdsa_verify := fun _ _ _ => false }

/-- All-zero content for the uninitialised local of `hasbalance`. -/
def stale0 : trans := ⟨0, zero_addr, zero_addr, 0, zero_sig⟩

/-- Free queue slot as left by zero initialisation. -/
def emptyQ : QEntry := ⟨⟨0, zero_addr, zero_addr, 0, zero_sig⟩, 0, 0, 0, 0⟩

/-- Transfer of 1000 with uid 7 from `key 2` to `key 3`. -/
def rec7 : trans := ⟨7, key 2, key 3, 1000, zero_sig⟩

/-- Node whose ledger is the genesis record followed by `rec7`; queue, filter and
recently-executed table are as at start-up. -/
def node1 : Node :=
  ⟨makGenesis env1 ++ [rec7], [], init_sites,
   List.replicate MAX_TRANS_QUEUE emptyQ, List.replicate MAX_REXI_SIZE (0, 0)⟩

/-- Live record of `rec7` queued at time 100 from peer address 5. -/
def slot7 : QEntry := ⟨rec7, 5, 0, 1, 100⟩

/-- Node with ledger `genesis`, `slot7` in queue slot 0 and uid 7 in the
recently-executed table until time 103. -/
def node6 : Node :=
  ⟨makGenesis env1, [], init_sites,
   slot7 :: List.replicate (MAX_TRANS_QUEUE - 1) emptyQ,
   (7, 103) :: List.replicate (MAX_REXI_SIZE - 1) (0, 0)⟩

/-- Live record with uid 5 from `key 2` to `key 3`, queued at time 100 from peer 9. -/
def slotA : QEntry := ⟨⟨5, key 2, key 3, 1000, zero_sig⟩, 9, 0, 1, 100⟩

/-- Node of `node1` with `slotA` in queue slot 0 and every other slot free. -/
def node7 : Node :=
  { node1 with queue := slotA :: List.replicate (MAX_TRANS_QUEUE - 1) emptyQ }

/-- Node of `node7` whose filter bucket 5 holds a range that expired at time 50. -/
def node9 : Node :=
  { node7 with sites := fun k => if k = 5 then ⟨1, 1, 50⟩ else ⟨0, 0, 0⟩ }

/-- Node with ledger `genesis`, empty queue and fresh filter; `key 2` holds 5000. -/
def node8 : Node := { node1 with chain := makGenesis env1 }

/-- Transfer of all 5000 of `key 2` to `key 3`, uid 11. -/
def spend1 : trans := ⟨11, key 2, key 3, 5000, zero_sig⟩

/-- Transfer of all 5000 of `key 2` to `key 4`, uid 12. -/
def spend2 : trans := ⟨12, key 2, key 4, 5000, zero_sig⟩

/-- Test of `rExi` that makes slot `e` the candidate for the next insertion:
`time(0) > uidtimes[i]-2 || uidtimes[i] == 0`. -/
abbrev rExi_free (now : Nat) (e : Nat × Nat) : Prop :=
  (now : Int) > (e.2 : Int) - 2 ∨ e.2 = 0

/-- Node of `node1` whose recently-executed table holds uid 6 until time 103. -/
def node11 : Node :=
  { node1 with rexi := (6, 103) :: List.replicate (MAX_REXI_SIZE - 1) (0, 0) }

/-- Live record with uid 6 from `key 4` to `key 3`. -/
def rec6 : trans := ⟨6, key 4, key 3, 10, zero_sig⟩

/-- Peer table after `setMasterNode` on an all-zero table. -/
def peers0 : Peers := setMasterNode ⟨fun _ => 0, fun _ => 0, fun _ => 0, fun _ => [], 0⟩

/-- Full peer table: index `i` holds the public address `8.0.(i / 256).(i % 256)`
offset by the master at index 0; every entry expires at time 1000 except index 5,
which expired at time 50. -/
def peers_full : Peers :=
  ⟨fun i => if i = 0 then master_addr else ipv4 8 0 (i / 256) (i % 256),
   fun i => if i = 5 then 50 else 1000,
   fun _ => 1, fun _ => [], MAX_PEERS⟩

/-- Table of the master and four peers `9.9.9.i`, none of them seen for hours
(all expiries 0). -/
def peers5 : Peers :=
  ⟨fun i => if i = 0 then master_addr else ipv4 9 9 9 i, fun _ => 0, fun _ => 1, fun _ => [], 5⟩

/-- Table of `peers5` in which peer 3 was seen 50 seconds before time 100. -/
def peers5b : Peers := { peers5 with peer_timeouts := fun i => if i = 3 then 10850 else 0 }

/-- Content of `replay_allow[]` with a zero entry before the address 9.9.9.9. -/
def rallow_gap : List Nat := 0 :: ipv4 9 9 9 9 :: List.replicate (MAX_RALLOW - 2) 0

/-- Content of `replay_allow[]` with the address 9.9.9.9 in its second entry. -/
def rallow_ok : List Nat := ipv4 9 9 9 8 :: ipv4 9 9 9 9 :: List.replicate (MAX_RALLOW - 2) 0

/-- Ledger of three records: genesis, `rec7`, `rec6`. -/
def chain3 : List trans := makGenesis env1 ++ [rec7, rec6]

/-- Environment of `env1` whose signature check accepts the records sent by `key 2` and
by the all-zero key of the genesis record, and no other. -/
def env2 : Env :=
  { env1 with
      ecdsa_verify := fun pub _ _ => decide (pub = (key 2).key ∨ pub = zero_addr.key) }

/-- Node of `node1` whose queue slots all hold `slotA`. -/
def node_full : Node := { node1 with queue := List.replicate MAX_TRANS_QUEUE slotA }

/-- Floating-point environment for the examples: every quotient is 1/10, sums are
exact, the value formula is evaluated exactly, the network difficulty is 1/5. -/
def fe1 : FloatEnv :=
  ⟨fun _ _ _ => 1 / 10, fun a b c d => a + b + c + d,
   fun s => (⌊1000 + 10000 * (1 - (s / 4) * (4166666667 / 1000000000)) + 1 / 2⌋).toNat,
   1 / 5⟩

/-- User agent buffer of 64 bytes holding `"12, a0.55, n, m, 0.240"`. -/
def ua12 : List Nat :=
  [49, 50, 44, 32, 97, 48, 46, 53, 53, 44, 32, 110, 44, 32, 109, 44, 32, 48, 46, 50, 52, 48]
    ++ List.replicate 42 0

/-- Peer table of `peers0` with the public address 8.8.8.8 at index 1 and `ua12` as its
user agent. -/
def peers_ua : Peers :=
  { peers0 with
      peers := Function.update peers0.peers 1 (ipv4 8 8 8 8),
      peer_ua := Function.update peers0.peer_ua 1 ua12,
      num_peers := 2 }

/-- Node code with the bytes 1 to 7 after the tab. -/
def mid1 : List Nat := [9, 1, 2, 3, 4, 5, 6, 7]

/-! ## Lemmas on the ledger scan -/

/-- The scan misses a uid held only by the last record. -/
theorem hasbalance_loop_miss (uid : Nat) (frm : addr) (pre : List trans) (last : trans) :
    ∀ (t : trans) (rv : Int), t.uid ≠ uid → (∀ r ∈ pre, r.uid ≠ uid) →
      hasbalance_loop uid frm t rv (pre ++ [last])
        = some ((pre ++ [last]).foldl (bal_step frm) rv) := by
  induction pre with
  | nil => intro t rv ht _; simp [hasbalance_loop, ht]
  | cons r rest ih =>
    intro t rv ht hpre
    have hr : r.uid ≠ uid := hpre r (by simp)
    have hrest : ∀ x ∈ rest, x.uid ≠ uid := fun x hx => hpre x (by simp [hx])
    simp only [List.cons_append, hasbalance_loop, ht, if_false, List.foldl_cons]
    exact ih r _ hr hrest

/-- The scan finds a uid held by the local `t` when at least one record follows. -/
theorem hasbalance_loop_hit_head (uid : Nat) (frm : addr) (t r : trans) (rv : Int)
    (rest : List trans) (h : t.uid = uid) :
    hasbalance_loop uid frm t rv (r :: rest) = none := by
  simp [hasbalance_loop, h]

/-- The scan finds a uid held by a record that is not the last one. -/
theorem hasbalance_loop_hit (uid : Nat) (frm : addr) (x y : trans) (hx : x.uid = uid) :
    ∀ (pre post : List trans) (t : trans) (rv : Int),
      hasbalance_loop uid frm t rv (pre ++ x :: y :: post) = none := by
  intro pre
  induction pre with
  | nil =>
    intro post t rv
    simp only [List.nil_append, hasbalance_loop]
    split
    · rfl
    · simp [hx]
  | cons r rest ih =>
    intro post t rv
    simp only [List.cons_append, hasbalance_loop]
    split
    · rfl
    · exact ih post r _

theorem rExi_scan_none_iff (now uid : Nat) (tbl : List (Nat × Nat)) :
    ∀ (i : Nat) (free : Int),
      rExi_scan now uid tbl i free = none ↔ ∃ e ∈ tbl, e.1 = uid ∧ now < e.2 := by
  induction tbl with
  | nil => intro i free; simp [rExi_scan]
  | cons e rest ih =>
    intro i free
    unfold rExi_scan
    by_cases h : e.1 = uid ∧ (e.2 : Int) > (now : Int)
    · rw [if_pos h]
      simp only [true_iff]
      exact ⟨e, by simp, h.1, by omega⟩
    · rw [if_neg h]
      have hne : ¬ (e.1 = uid ∧ now < e.2) := fun hh => h ⟨hh.1, by omega⟩
      split
      · rw [ih]; simp [hne]
      · rw [ih]; simp [hne]

theorem rExi_hit_iff (now uid : Nat) (tbl : List (Nat × Nat)) :
    (rExi now uid tbl).1 = 1 ↔ ∃ e ∈ tbl, e.1 = uid ∧ now < e.2 := by
  rw [← rExi_scan_none_iff now uid tbl 0 (-1)]
  unfold rExi
  cases h : rExi_scan now uid tbl 0 (-1) with
  | none => simp
  | some free => by_cases hf : free = -1 <;> simp [hf]

theorem rExi_result (now uid : Nat) (tbl : List (Nat × Nat)) :
    (rExi now uid tbl).1 = 0 ∨ (rExi now uid tbl).1 = 1 := by
  unfold rExi
  cases h : rExi_scan now uid tbl 0 (-1) with
  | none => simp
  | some free => by_cases hf : free = -1 <;> simp [hf]

theorem rExi_miss_replicate (now uid n : Nat) :
    (rExi now uid (List.replicate n (0, 0))).1 = 0 := by
  rcases rExi_result now uid (List.replicate n (0, 0)) with h | h
  · exact h
  · rw [rExi_hit_iff] at h
    obtain ⟨e, he, _, h2⟩ := h
    rw [(List.mem_replicate.mp he).2] at h2
    exact absurd h2 (by simp)

/-! ## Lemmas on `hasbalance` and `process_trans` -/

theorem hasbalance_values (env : Env) (chain : List trans) (stale : trans)
    (uid : Nat) (frm : addr) (amount : Nat) :
    hasbalance env chain stale uid frm amount = ERROR_UIDEXIST ∨
    hasbalance env chain stale uid frm amount = 0 ∨
    hasbalance env chain stale uid frm amount = 1 := by
  unfold hasbalance
  cases hasbalance_loop uid frm stale (isSubGenesisAddress env chain frm : Int) chain with
  | none => simp
  | some rv => by_cases h : rv ≥ (amount : Int) <;> simp [h]

/-- The four ways `process_trans` ends. -/
theorem process_trans_cases (env : Env) (s : Node) (now : Nat) (stale : trans)
    (uid : Nat) (frm dst : addr) (amount : Nat) (owner : sig) :
    process_trans env s now stale uid frm dst amount owner =
      if env.ecdsa_verify frm.key (env.makHash ⟨uid, frm, dst, amount, zero_sig⟩) owner.key
          = false then (ERROR_SIGFAIL, s)
      else if hasbalance env s.chain stale uid frm amount = 0 then (ERROR_NOFUNDS, s)
      else if hasbalance env s.chain stale uid frm amount = ERROR_UIDEXIST then
        (ERROR_UIDEXIST, s)
      else if frm = dst then (1, s)
      else if (rExi now uid s.rexi).1 = 0 then
        (1, { s with chain := s.chain ++ [⟨uid, frm, dst, amount, owner⟩],
                     rexi := (rExi now uid s.rexi).2 })
      else (1, { s with rexi := (rExi now uid s.rexi).2 }) := by
  unfold process_trans
  rcases hasbalance_values env s.chain stale uid frm amount with h | h | h
  · simp [h, ERROR_UIDEXIST]
  · simp [h]
  · by_cases hv : env.ecdsa_verify frm.key (env.makHash ⟨uid, frm, dst, amount, zero_sig⟩)
        owner.key = false
    · simp [hv]
    · by_cases hft : frm = dst
      · subst hft
        simp [h, hv, ERROR_UIDEXIST]
      · by_cases hr : (rExi now uid s.rexi).1 = 0
        · simp [h, hv, hft, hr, ERROR_UIDEXIST]
        · simp [h, hv, hft, hr, ERROR_UIDEXIST]

/-- The scan runs to its end when neither the local `t` nor any record holds the uid. -/
theorem hasbalance_loop_clean (uid : Nat) (frm : addr) (chain : List trans) (t : trans)
    (rv : Int) (ht : t.uid ≠ uid) (hc : ∀ r ∈ chain, r.uid ≠ uid) :
    hasbalance_loop uid frm t rv chain = some (chain.foldl (bal_step frm) rv) := by
  rcases List.eq_nil_or_concat chain with h | ⟨pre, last, h⟩
  · subst h; simp [hasbalance_loop]
  · subst h
    rw [List.concat_eq_append]
    rw [List.concat_eq_append] at hc
    exact hasbalance_loop_miss uid frm pre last t rv ht (fun r hr => hc r (by simp [hr]))

theorem hasbalance_clean (env : Env) (chain : List trans) (stale : trans)
    (uid : Nat) (frm : addr) (amount : Nat) (ht : stale.uid ≠ uid)
    (hc : ∀ r ∈ chain, r.uid ≠ uid) :
    hasbalance env chain stale uid frm amount
      = if scan_balance env chain frm ≥ (amount : Int) then 1 else 0 := by
  unfold hasbalance scan_balance
  rw [hasbalance_loop_clean uid frm chain stale _ ht hc]

/-- On a ledger whose only record with the uid is the last one the scan of
`hasbalance` does not report the uid. -/
theorem hasbalance_last (env : Env) (pre : List trans) (last stale : trans)
    (uid : Nat) (frm : addr) (amount : Nat) (ht : stale.uid ≠ uid)
    (hc : ∀ r ∈ pre, r.uid ≠ uid) :
    hasbalance env (pre ++ [last]) stale uid frm amount
      = if scan_balance env (pre ++ [last]) frm ≥ (amount : Int) then 1 else 0 := by
  unfold hasbalance scan_balance
  rw [hasbalance_loop_miss uid frm pre last stale _ ht hc]

theorem node1_rexi_miss (now uid : Nat) : (rExi now uid node1.rexi).1 = 0 :=
  rExi_miss_replicate now uid MAX_REXI_SIZE

theorem hasbalance_node1 : hasbalance env1 node1.chain stale0 7 (key 2) 1000 = 1 := by
  decide

theorem process_trans_node1 :
    process_trans env1 node1 100 stale0 7 (key 2) (key 3) 1000 zero_sig
      = (1, { node1 with chain := node1.chain ++ [rec7],
                         rexi := (rExi 100 7 node1.rexi).2 }) := by
  rw [process_trans_cases]
  have h1 : env1.ecdsa_verify (key 2).key (env1.makHash ⟨7, key 2, key 3, 1000, zero_sig⟩)
      zero_sig.key ≠ false := by decide
  have h2 : key 2 ≠ key 3 := by decide
  rw [if_neg h1, hasbalance_node1, node1_rexi_miss]
  simp [ERROR_UIDEXIST, h2, rec7]

/-! ## Ledger claims -/

/-- The ledger `genesis, rec7` is one the program writes. -/
theorem node1_chain_reachable : ledger_reachable env1 node1.chain := by
  have h : ledger_reachable env1
      (process_trans env1 node8 100 stale0 7 (key 2) (key 3) 1000 zero_sig).2.chain :=
    ledger_reachable.process node8 100 stale0 7 (key 2) (key 3) 1000 zero_sig
      ledger_reachable.genesis
  have hp : (process_trans env1 node8 100 stale0 7 (key 2) (key 3) 1000 zero_sig).2.chain
      = node1.chain := by
    rw [process_trans_cases]
    have h1 : env1.ecdsa_verify (key 2).key (env1.makHash ⟨7, key 2, key 3, 1000, zero_sig⟩)
        zero_sig.key ≠ false := by decide
    have h2 : key 2 ≠ key 3 := by decide
    have h3 : hasbalance env1 node8.chain stale0 7 (key 2) 1000 = 1 := by decide
    have h4 : (rExi 100 7 node8.rexi).1 = 0 := rExi_miss_replicate 100 7 MAX_REXI_SIZE
    rw [if_neg h1, h3, h4]
    simp [ERROR_UIDEXIST, h2, node8, node1, rec7]
  rw [hp] at h
  exact h

/-- C1 (fails on the code): on the ledger `genesis, rec7`, whose uids are pairwise
distinct, `process_trans` accepts a record whose uid 7 is the uid of the last ledger
record and appends it, so the ledger it leaves holds uid 7 twice. -/
theorem process_trans_breaks_uid_uniqueness :
    (node1.chain.map (fun r => r.uid)).Nodup ∧
    ¬ ((process_trans env1 node1 100 stale0 7 (key 2) (key 3) 1000 zero_sig).2.chain.map
        (fun r => r.uid)).Nodup := by
  rw [process_trans_node1]
  constructor <;> decide

/-- C2 (fails on the code): the candidate with uid 7 has a valid signature and the
last ledger record has uid 7, yet `hasbalance` returns 1, `process_trans` returns 1
and the ledger grows by the candidate. -/
theorem hasbalance_misses_last_uid :
    rec7 ∈ node1.chain ∧
    hasbalance env1 node1.chain stale0 7 (key 2) 1000 = 1 ∧
    (process_trans env1 node1 100 stale0 7 (key 2) (key 3) 1000 zero_sig).1 = 1 ∧
    (process_trans env1 node1 100 stale0 7 (key 2) (key 3) 1000 zero_sig).2.chain
      = node1.chain ++ [⟨7, key 2, key 3, 1000, zero_sig⟩] := by
  rw [process_trans_node1]
  exact ⟨by decide, hasbalance_node1, rfl, rfl⟩

theorem scan_balance_genesis (env : Env) :
    scan_balance env (makGenesis env) env.genesis_pub = 4294968295 := by
  unfold scan_balance makGenesis isSubGenesisAddress st_size sizeof_trans
  simp only [List.foldl_cons, List.foldl_nil, List.length_singleton, bal_step, if_true,
    INFLATION_TAX, ECC_CURVE]
  norm_num

/-- C4 (as the claim states it, refuted): on the ledger holding only the genesis
record, `getBalanceLocal(genesis_pub)` is 4294968295, not
`INFLATION_TAX * (records - 1) = 0`. -/
theorem getBalanceLocal_genesis_counterexample :
    getBalanceLocal env1 (makGenesis env1) env1.genesis_pub = 4294968295 ∧
    getBalanceLocal env1 (makGenesis env1) env1.genesis_pub
      ≠ INFLATION_TAX * ((makGenesis env1).length - 1) := by
  constructor <;> decide

/-- C4 (amended): on the ledger holding only the genesis record written by
`makGenesis`, `getBalanceLocal(genesis_pub)` is `INFLATION_TAX * records` plus the
amount `0xFFFFFFFF` of the genesis record, that is 4294968295. -/
theorem getBalanceLocal_genesis (env : Env) :
    getBalanceLocal env (makGenesis env) env.genesis_pub
        = INFLATION_TAX * (makGenesis env).length + 0xFFFFFFFF ∧
    getBalanceLocal env (makGenesis env) env.genesis_pub = 4294968295 := by
  have h : getBalanceLocal env (makGenesis env) env.genesis_pub = 4294968295 := by
    have hs := scan_balance_genesis env
    unfold scan_balance at hs
    unfold getBalanceLocal
    simp only [hs]
    rfl
  exact ⟨by rw [h]; simp [makGenesis, INFLATION_TAX], h⟩

/-- A record with `from == to` never changes the node state, hence never the ledger,
and a failed signature check gives `ERROR_SIGFAIL`. -/
theorem process_trans_self_frame (env : Env) (s : Node) (now : Nat) (stale : trans)
    (uid : Nat) (frm : addr) (amount : Nat) (owner : sig) :
    (process_trans env s now stale uid frm frm amount owner).2 = s ∧
    (env.ecdsa_verify frm.key (env.makHash ⟨uid, frm, frm, amount, zero_sig⟩) owner.key = false →
      (process_trans env s now stale uid frm frm amount owner).1 = ERROR_SIGFAIL) := by
  rw [process_trans_cases]
  refine ⟨?_, ?_⟩
  · split
    · rfl
    · split
      · rfl
      · split
        · rfl
        · simp
  · intro hv; simp [hv]

/-- C5 (fails on the code): on the ledger `genesis, rec7`, which the program writes, a
record from `key 2` to itself with a valid signature and uid 7, the uid of the last
ledger record, makes `process_trans` return 1 and not `ERROR_UIDEXIST`; the ledger is
left unchanged. -/
theorem process_trans_self_transfer_uid :
    ledger_reachable env1 node1.chain ∧ rec7 ∈ node1.chain ∧ rec7.uid = 7 ∧
    env1.ecdsa_verify (key 2).key (env1.makHash ⟨7, key 2, key 2, 1000, zero_sig⟩)
      zero_sig.key = true ∧
    (process_trans env1 node1 100 stale0 7 (key 2) (key 2) 1000 zero_sig).1 = 1 ∧
    (process_trans env1 node1 100 stale0 7 (key 2) (key 2) 1000 zero_sig).1 ≠ ERROR_UIDEXIST ∧
    (process_trans env1 node1 100 stale0 7 (key 2) (key 2) 1000 zero_sig).2 = node1 := by
  have h1 : env1.ecdsa_verify (key 2).key (env1.makHash ⟨7, key 2, key 2, 1000, zero_sig⟩)
      zero_sig.key ≠ false := by decide
  have hp : process_trans env1 node1 100 stale0 7 (key 2) (key 2) 1000 zero_sig
      = (1, node1) := by
    rw [process_trans_cases, if_neg h1, hasbalance_node1]
    simp [ERROR_UIDEXIST]
  rw [hp]
  exact ⟨node1_chain_reachable, by decide, rfl, by decide, rfl, by decide, rfl⟩

/-! ## Recently-executed table and propagation -/

/-- A hit of `rExi` leaves the table as it was. -/
theorem rExi_hit_table (now uid : Nat) (tbl : List (Nat × Nat))
    (h : (rExi now uid tbl).1 = 1) : (rExi now uid tbl).2 = tbl := by
  unfold rExi at h ⊢
  cases hs : rExi_scan now uid tbl 0 (-1) with
  | none => simp
  | some free => rw [hs] at h; by_cases hf : free = -1 <;> simp [hf] at h

/-- With the uid in the recently-executed table `process_trans` changes nothing and
returns 1 exactly when the signature and the balance scan accept. -/
theorem process_trans_rExi_hit (env : Env) (s : Node) (now : Nat) (stale : trans)
    (uid : Nat) (frm dst : addr) (amount : Nat) (owner : sig)
    (hr : (rExi now uid s.rexi).1 = 1) :
    (process_trans env s now stale uid frm dst amount owner).2 = s ∧
    ((process_trans env s now stale uid frm dst amount owner).1 = 1 ↔
      (env.ecdsa_verify frm.key (env.makHash ⟨uid, frm, dst, amount, zero_sig⟩) owner.key = true ∧
       hasbalance env s.chain stale uid frm amount = 1)) := by
  rw [process_trans_cases]
  have hne : ¬ (rExi now uid s.rexi).1 = 0 := by omega
  have htbl : ({ s with rexi := (rExi now uid s.rexi).2 } : Node) = s := by
    rw [rExi_hit_table now uid s.rexi hr]
  by_cases hv : env.ecdsa_verify frm.key (env.makHash ⟨uid, frm, dst, amount, zero_sig⟩)
      owner.key = false
  · simp [hv, ERROR_SIGFAIL]
  · have hv1 : env.ecdsa_verify frm.key (env.makHash ⟨uid, frm, dst, amount, zero_sig⟩)
        owner.key = true := by simpa using hv
    rcases hasbalance_values env s.chain stale uid frm amount with h | h | h
    · simp [hv1, h, ERROR_UIDEXIST, ERROR_NOFUNDS]
    · simp [hv1, h, ERROR_NOFUNDS]
    · by_cases hft : frm = dst
      · subst hft; simp [hv1, h, ERROR_UIDEXIST]
      · simp [hv1, h, hft, hne, htbl, ERROR_UIDEXIST]

/-- One worker iteration on a record whose uid is in the recently-executed table. -/
theorem processThread_step_rExi (env : Env) (s : Node) (now : Nat) (stale : trans)
    (mi i : Nat) (q : QEntry)
    (hg : gQue s.queue now mi = some i) (hq : s.queue[i]? = some q)
    (hr : (rExi now q.tq.uid s.rexi).1 = 1) :
    (processThread env s now stale mi).1 = { s with queue := clear_slot s.queue i } ∧
    (processThread env s now stale mi).1.chain = s.chain ∧
    (processThread env s now stale mi).2 =
      (if env.ecdsa_verify q.tq.from_.key
            (env.makHash ⟨q.tq.uid, q.tq.from_, q.tq.to_, q.tq.amount, zero_sig⟩)
            q.tq.owner.key = true ∧
          hasbalance env s.chain stale q.tq.uid q.tq.from_ q.tq.amount = 1 ∧
          q.replay = 1
        then some (q.ip, q.tq) else none) := by
  have hp := process_trans_rExi_hit env { s with queue := clear_slot s.queue i } now stale
    q.tq.uid q.tq.from_ q.tq.to_ q.tq.amount q.tq.owner hr
  obtain ⟨hp1, hp2⟩ := hp
  unfold processThread
  simp only [hg, hq]
  by_cases hc : (process_trans env { s with queue := clear_slot s.queue i } now stale
      q.tq.uid q.tq.from_ q.tq.to_ q.tq.amount q.tq.owner).1 = 1 ∧ q.replay = 1
  · rw [if_pos hc, hp1]
    have := hp2.mp hc.1
    simp [this.1, this.2, hc.2]
  · rw [if_neg hc, hp1]
    refine ⟨rfl, rfl, ?_⟩
    rw [if_neg]
    intro h
    exact hc ⟨hp2.mpr ⟨h.1, h.2.1⟩, h.2.2⟩

theorem gQue_node6 : gQue node6.queue 101 0 = some 0 := by
  simp [gQue, gQue_down, gQue_up, node6, gQue_ready, slot7, rec7]

theorem node6_slot0 : node6.queue[0]? = some slot7 := by
  simp [node6]

/-- C6 (as the claim states it, refuted): uid 7 is in the recently-executed table,
the worker takes the live record `rec7` from slot 0, `process_trans` does not
append, and the worker still hands `rec7` to `triBroadcast`. -/
theorem processThread_rExi_counterexample :
    (rExi 101 7 node6.rexi).1 = 1 ∧
    (processThread env1 node6 101 stale0 0).1.chain = node6.chain ∧
    (processThread env1 node6 101 stale0 0).2 = some (5, rec7) := by
  have hr : (rExi 101 slot7.tq.uid node6.rexi).1 = 1 := by decide
  have h := processThread_step_rExi env1 node6 101 stale0 0 0 slot7 gQue_node6 node6_slot0 hr
  refine ⟨hr, h.2.1, ?_⟩
  rw [h.2.2, if_pos ⟨by decide, by decide, by decide⟩]
  rfl

/-- C6 (amended): when `rExi` reports the uid of the record the worker dequeued,
`process_trans` does not append (the worker only frees the queue slot), and
`process_trans` still returns 1 if the signature and the balance scan accept, so the
worker calls `triBroadcast` for the record exactly when they accept and the record
is live (`replay == 1`). -/
theorem processThread_rExi_hit (env : Env) (s : Node) (now : Nat) (stale : trans)
    (mi i : Nat) (q : QEntry)
    (hg : gQue s.queue now mi = some i) (hq : s.queue[i]? = some q)
    (hr : (rExi now q.tq.uid s.rexi).1 = 1) :
    (processThread env s now stale mi).1 = { s with queue := clear_slot s.queue i } ∧
    (processThread env s now stale mi).1.chain = s.chain ∧
    (processThread env s now stale mi).2 =
      (if env.ecdsa_verify q.tq.from_.key
            (env.makHash ⟨q.tq.uid, q.tq.from_, q.tq.to_, q.tq.amount, zero_sig⟩)
            q.tq.owner.key = true ∧
          hasbalance env s.chain stale q.tq.uid q.tq.from_ q.tq.amount = 1 ∧
          q.replay = 1
        then some (q.ip, q.tq) else none) :=
  processThread_step_rExi env s now stale mi i q hg hq hr

/-- Witness for C6 on `node6`: the worker dequeues `slot7` while uid 7 is in the table. -/
theorem processThread_rExi_hit_witness :
    (processThread env1 node6 101 stale0 0).1
        = { node6 with queue := clear_slot node6.queue 0 } ∧
    (processThread env1 node6 101 stale0 0).1.chain = node6.chain ∧
    (processThread env1 node6 101 stale0 0).2 =
      (if env1.ecdsa_verify slot7.tq.from_.key
            (env1.makHash ⟨slot7.tq.uid, slot7.tq.from_, slot7.tq.to_, slot7.tq.amount, zero_sig⟩)
            slot7.tq.owner.key = true ∧
          hasbalance env1 node6.chain stale0 slot7.tq.uid slot7.tq.from_ slot7.tq.amount = 1 ∧
          slot7.replay = 1
        then some (slot7.ip, slot7.tq) else none) :=
  processThread_rExi_hit env1 node6 101 stale0 0 0 slot7 gQue_node6 node6_slot0 (by decide)

/-! ## Lemmas on the uniqueness filter -/

theorem idfar_eq (uid : Nat) : idfar uid = 1 := by
  simp [idfar, Nat.mod_one]

theorem has_uid_snd_other (now uid k : Nat) (sites : Nat → site) (hk : k ≠ uid % MAX_SITES) :
    (has_uid now uid sites).2 k = sites k := by
  simp only [has_uid]
  split <;> simp [Function.update_noteq hk]

theorem has_uid_snd_self (now uid : Nat) (sites : Nat → site) :
    (has_uid now uid sites).2 (uid % MAX_SITES) = has_uid_reset now (sites (uid % MAX_SITES)) := by
  simp only [has_uid]
  split <;> simp

theorem add_uid_other (now uid w k : Nat) (sites : Nat → site) (hk : k ≠ uid % MAX_SITES) :
    add_uid now uid w sites k = sites k := by
  simp only [add_uid]
  simp [Function.update_noteq hk]

/-- The answer of `has_uid` depends on the bucket of the uid only. -/
theorem has_uid_congr (now uid : Nat) (sites sites1 : Nat → site)
    (h : sites (uid % MAX_SITES) = sites1 (uid % MAX_SITES)) :
    (has_uid now uid sites).1 = (has_uid now uid sites1).1 := by
  simp only [has_uid, h]
  split <;> rfl

theorem has_uid_result (now uid : Nat) (sites : Nat → site) :
    (has_uid now uid sites).1 = 0 ∨ (has_uid now uid sites).1 = 1 := by
  simp only [has_uid]
  split <;> simp

/-- The answer of `has_uid` read off the bucket of the uid. -/
theorem has_uid_eq_one_iff (now uid : Nat) (sites : Nat → site) :
    (has_uid now uid sites).1 = 1 ↔
      (now < (sites (uid % MAX_SITES)).expire_epoch ∧
       (sites (uid % MAX_SITES)).uid_low ≤ 1 ∧ 1 ≤ (sites (uid % MAX_SITES)).uid_high) := by
  simp only [has_uid, has_uid_reset, idfar_eq]
  by_cases hexp : now ≥ (sites (uid % MAX_SITES)).expire_epoch
  · simp only [hexp, if_true]
    constructor
    · intro h; simp at h
    · intro h; omega
  · simp only [hexp, if_false]
    constructor
    · intro h
      by_cases hc : (sites (uid % MAX_SITES)).uid_low ≤ 1 ∧ 1 ≤ (sites (uid % MAX_SITES)).uid_high
      · exact ⟨by omega, hc⟩
      · simp [hc] at h
    · intro h
      simp [h.2.1, h.2.2]

/-- The bucket `add_uid` leaves for the uid: range around 1, and a fresh expiry
exactly when the old bucket had expired. -/
theorem add_uid_bucket (now uid w : Nat) (sites : Nat → site) :
    (add_uid now uid w sites (uid % MAX_SITES)).uid_low = 1 ∧
    1 ≤ (add_uid now uid w sites (uid % MAX_SITES)).uid_high ∧
    (add_uid now uid w sites (uid % MAX_SITES)).expire_epoch
      = (if now ≥ (sites (uid % MAX_SITES)).expire_epoch then (now + w) % 2 ^ 32
         else (sites (uid % MAX_SITES)).expire_epoch) ∧
    (now ≥ (sites (uid % MAX_SITES)).expire_epoch →
      (add_uid now uid w sites (uid % MAX_SITES)).uid_high = 1) := by
  simp only [add_uid, idfar_eq, Function.update_same]
  rcases sites (uid % MAX_SITES) with ⟨hi, lo, ex⟩
  simp only
  by_cases hexp : now ≥ ex
  · simp [hexp]
  · simp only [hexp, if_false]
    by_cases h1 : 1 < lo ∨ lo = 0
    · by_cases h2 : hi = 0
      · simp [h1, h2]
      · simp [h1, h2]; omega
    · have hlo : lo = 1 := by omega
      by_cases h2 : hi = 0
      · simp [hlo, h2]
      · simp [hlo, h2]; omega

/-- Right after `add_uid` the filter reports the uid. -/
theorem has_uid_after_add_uid (now uid w : Nat) (sites : Nat → site)
    (hw : 0 < w) (hnow : now + w < 2 ^ 32) :
    (has_uid now uid (add_uid now uid w sites)).1 = 1 := by
  rw [has_uid_eq_one_iff]
  obtain ⟨h1, h2, h3, _⟩ := add_uid_bucket now uid w sites
  refine ⟨?_, by omega, h2⟩
  rw [h3]
  split
  · rw [Nat.mod_eq_of_lt hnow]; omega
  · omega

/-- A bucket that had expired at `now` reports the uid during the whole window opened
by `add_uid`. -/
theorem has_uid_window (now uid w now1 : Nat) (sites : Nat → site)
    (hexp : now ≥ (sites (uid % MAX_SITES)).expire_epoch) (hnow : now + w < 2 ^ 32)
    (h1 : now1 < now + w) :
    (has_uid now1 uid (add_uid now uid w sites)).1 = 1 := by
  rw [has_uid_eq_one_iff]
  obtain ⟨h2, h3, h4, _⟩ := add_uid_bucket now uid w sites
  refine ⟨?_, by omega, h3⟩
  rw [h4, if_pos hexp, Nat.mod_eq_of_lt hnow]
  exact h1

/-- When the window opened by `add_uid` on an expired bucket is over, the filter
no longer reports the uid. -/
theorem has_uid_window_over (now uid w now1 : Nat) (sites : Nat → site)
    (hexp : now ≥ (sites (uid % MAX_SITES)).expire_epoch) (hnow : now + w < 2 ^ 32)
    (h1 : now + w ≤ now1) :
    (has_uid now1 uid (add_uid now uid w sites)).1 = 0 := by
  rcases has_uid_result now1 uid (add_uid now uid w sites) with h | h
  · exact h
  · rw [has_uid_eq_one_iff] at h
    obtain ⟨_, _, h4, _⟩ := add_uid_bucket now uid w sites
    rw [h4, if_pos hexp, Nat.mod_eq_of_lt hnow] at h
    omega

/-! ## Lemmas on the scan of `aQue` -/

/-- The scan returns at the first slot that meets the double-spend test when no
slot before it makes the loop return. -/
theorem aQue_scan_dspend (t : trans) (ir : Nat) :
    ∀ (l : List QEntry) (k i : Nat) (fi : Int) (q : QEntry),
      l[k]? = some q → is_dspend t ir q →
      (∀ j qj, j < k → l[j]? = some qj → ¬ is_dspend t ir qj ∧ ¬ is_repeat t qj) →
      aQue_scan t ir l i fi = .dspend (i + k) := by
  intro l
  induction l with
  | nil => intro k i fi q hq; simp at hq
  | cons x xs ih =>
    intro k i fi q hq hd hlow
    cases k with
    | zero =>
      have hx : x = q := by simpa using hq
      subst hx
      simp [aQue_scan, hd]
    | succ k =>
      have h0 := hlow 0 x (by omega) (by simp)
      have hq1 : xs[k]? = some q := by simpa using hq
      have hlow1 : ∀ j qj, j < k → xs[j]? = some qj → ¬ is_dspend t ir qj ∧ ¬ is_repeat t qj :=
        fun j qj hj hqj => hlow (j + 1) qj (by omega) (by simpa using hqj)
      unfold aQue_scan
      rw [if_neg h0.1, if_neg h0.2, ih k (i + 1) _ q hq1 hd hlow1]
      congr 1
      omega

/-- The scan ends in the repeat branch when an occupied slot holds the uid and no
slot up to it meets the double-spend test. -/
theorem aQue_scan_repeated (t : trans) (ir : Nat) :
    ∀ (l : List QEntry) (k i : Nat) (fi : Int) (q : QEntry),
      l[k]? = some q → is_repeat t q →
      (∀ j qj, j ≤ k → l[j]? = some qj → ¬ is_dspend t ir qj) →
      aQue_scan t ir l i fi = .repeated := by
  intro l
  induction l with
  | nil => intro k i fi q hq; simp at hq
  | cons x xs ih =>
    intro k i fi q hq hr hnd
    have h0 := hnd 0 x (by omega) (by simp)
    unfold aQue_scan
    rw [if_neg h0]
    by_cases hx : is_repeat t x
    · rw [if_pos hx]
    · rw [if_neg hx]
      cases k with
      | zero =>
        have hxq : x = q := by simpa using hq
        subst hxq
        exact absurd hr hx
      | succ k =>
        have hq1 : xs[k]? = some q := by simpa using hq
        exact ih k (i + 1) _ q hq1 hr
          (fun j qj hj hqj => hnd (j + 1) qj (by omega) (by simpa using hqj))

/-- Once set, `freeindex` is kept to the end of a scan on which no slot returns. -/
theorem aQue_scan_done_keep (t : trans) (ir : Nat) :
    ∀ (l : List QEntry) (i : Nat) (fi : Int), fi ≠ -1 →
      (∀ q ∈ l, ¬ is_dspend t ir q ∧ ¬ is_repeat t q) →
      aQue_scan t ir l i fi = .done fi := by
  intro l
  induction l with
  | nil => intro i fi _ _; rfl
  | cons x xs ih =>
    intro i fi hfi hq
    have h0 := hq x (by simp)
    unfold aQue_scan
    rw [if_neg h0.1, if_neg h0.2]
    have : (if fi = -1 ∧ x.tq.amount = 0 then (i : Int) else fi) = fi := by simp [hfi]
    rw [this]
    exact ih (i + 1) fi hfi (fun q hq1 => hq q (by simp [hq1]))

/-- A scan on which no slot returns ends with the lowest free index. -/
theorem aQue_scan_done_free (t : trans) (ir : Nat) :
    ∀ (l : List QEntry) (k i : Nat) (qk : QEntry),
      (∀ q ∈ l, ¬ is_dspend t ir q ∧ ¬ is_repeat t q) →
      l[k]? = some qk → qk.tq.amount = 0 →
      (∀ j qj, j < k → l[j]? = some qj → qj.tq.amount ≠ 0) →
      aQue_scan t ir l i (-1) = .done ((i + k : Nat) : Int) := by
  intro l
  induction l with
  | nil => intro k i qk _ hk; simp at hk
  | cons x xs ih =>
    intro k i qk hq hk hfree hlow
    have h0 := hq x (by simp)
    have hq1 : ∀ q ∈ xs, ¬ is_dspend t ir q ∧ ¬ is_repeat t q :=
      fun q hq1 => hq q (by simp [hq1])
    unfold aQue_scan
    rw [if_neg h0.1, if_neg h0.2]
    cases k with
    | zero =>
      have hx : x = qk := by simpa using hk
      subst hx
      simp only [hfree, and_self, if_true, Nat.add_zero]
      exact aQue_scan_done_keep t ir xs (i + 1) (i : Int) (by omega) hq1
    | succ k =>
      have hx : x.tq.amount ≠ 0 := hlow 0 x (by omega) (by simp)
      have hk1 : xs[k]? = some qk := by simpa using hk
      simp only [hx, and_false, if_false]
      rw [ih k (i + 1) qk hq1 hk1 hfree
        (fun j qj hj hqj => hlow (j + 1) qj (by omega) (by simpa using hqj))]
      congr 2
      omega

/-- A scan of a queue without free slot on which no slot returns ends with
`freeindex == -1`. -/
theorem aQue_scan_done_full (t : trans) (ir : Nat) :
    ∀ (l : List QEntry) (i : Nat),
      (∀ q ∈ l, ¬ is_dspend t ir q ∧ ¬ is_repeat t q) →
      (∀ q ∈ l, q.tq.amount ≠ 0) →
      aQue_scan t ir l i (-1) = .done (-1) := by
  intro l
  induction l with
  | nil => intro i _ _; rfl
  | cons x xs ih =>
    intro i hq hocc
    have h0 := hq x (by simp)
    have hx : x.tq.amount ≠ 0 := hocc x (by simp)
    unfold aQue_scan
    rw [if_neg h0.1, if_neg h0.2]
    simp only [hx, and_false, if_false]
    exact ih (i + 1) (fun q hq1 => hq q (by simp [hq1])) (fun q hq1 => hocc q (by simp [hq1]))

/-- Past the amount test and the filter, `aQue` is decided by its scan. -/
theorem aQue_past_filter (s : Node) (now : Nat) (t : trans) (iip iipo ir : Nat)
    (hamt : t.amount ≠ 0) (hfil : (has_uid now t.uid s.sites).1 ≠ 1) :
    aQue s now t iip iipo ir =
      match aQue_scan t ir s.queue 0 (-1) with
      | .dspend i =>
        (1, { s with
                badchain := s.badchain ++ [((s.queue[i]?).getD ⟨t, 0, 0, 0, 0⟩).tq, t]
                queue := clear_slot s.queue i
                sites := add_uid now t.uid 32400 (has_uid now t.uid s.sites).2 })
      | .repeated => (0, { s with sites := (has_uid now t.uid s.sites).2 })
      | .done freeindex =>
        (1, { s with
                queue := if freeindex ≠ -1 then s.queue.set freeindex.toNat ⟨t, iip, iipo, ir, now⟩
                         else s.queue
                sites := add_uid now t.uid 32400 (has_uid now t.uid s.sites).2 }) := by
  unfold aQue
  simp only [hamt, hfil, if_false]

/-- State left by `aQue` when the scan returns in the double-spend branch at slot `i`. -/
theorem aQue_dspend_result (s : Node) (now : Nat) (t : trans) (iip iipo ir i : Nat)
    (q : QEntry) (hamt : t.amount ≠ 0) (hfil : (has_uid now t.uid s.sites).1 ≠ 1)
    (hq : s.queue[i]? = some q) (hd : is_dspend t ir q)
    (hlow : ∀ j qj, j < i → s.queue[j]? = some qj → ¬ is_dspend t ir qj ∧ ¬ is_repeat t qj) :
    aQue s now t iip iipo ir =
      (1, { s with
              badchain := s.badchain ++ [q.tq, t]
              queue := s.queue.set i { q with tq := { q.tq with amount := 0 } }
              sites := add_uid now t.uid 32400 (has_uid now t.uid s.sites).2 }) := by
  rw [aQue_past_filter s now t iip iipo ir hamt hfil,
    aQue_scan_dspend t ir s.queue i 0 (-1) q hq hd hlow]
  simp [clear_slot, hq]

/-- State left by `aQue` when the scan returns in the repeat branch. -/
theorem aQue_repeated_result (s : Node) (now : Nat) (t : trans) (iip iipo ir i : Nat)
    (q : QEntry) (hamt : t.amount ≠ 0) (hfil : (has_uid now t.uid s.sites).1 ≠ 1)
    (hq : s.queue[i]? = some q) (hr : is_repeat t q)
    (hnd : ∀ j qj, j ≤ i → s.queue[j]? = some qj → ¬ is_dspend t ir qj) :
    aQue s now t iip iipo ir = (0, { s with sites := (has_uid now t.uid s.sites).2 }) := by
  rw [aQue_past_filter s now t iip iipo ir hamt hfil,
    aQue_scan_repeated t ir s.queue i 0 (-1) q hq hr hnd]

/-- State left by `aQue` when the scan completes and slot `k` is the lowest free one. -/
theorem aQue_install_result (s : Node) (now : Nat) (t : trans) (iip iipo ir k : Nat)
    (qk : QEntry) (hamt : t.amount ≠ 0) (hfil : (has_uid now t.uid s.sites).1 ≠ 1)
    (hquiet : ∀ q ∈ s.queue, ¬ is_dspend t ir q ∧ ¬ is_repeat t q)
    (hk : s.queue[k]? = some qk) (hfree : qk.tq.amount = 0)
    (hlow : ∀ j qj, j < k → s.queue[j]? = some qj → qj.tq.amount ≠ 0) :
    aQue s now t iip iipo ir =
      (1, { s with
              queue := s.queue.set k ⟨t, iip, iipo, ir, now⟩
              sites := add_uid now t.uid 32400 (has_uid now t.uid s.sites).2 }) := by
  rw [aQue_past_filter s now t iip iipo ir hamt hfil,
    aQue_scan_done_free t ir s.queue k 0 qk hquiet hk hfree hlow]
  have h1 : ¬ ((k : Nat) : Int) = -1 := by omega
  simp only [ne_eq, Nat.zero_add, Int.toNat_ofNat, h1, not_false_eq_true, if_true]

theorem lookup_set_other {α : Type} (l : List α) (i j : Nat) (a : α) (h : j ≠ i) :
    (l.set i a)[j]? = l[j]? := by
  rw [List.getElem?_set]
  simp [Ne.symm h]

theorem lookup_set_self {α : Type} (l : List α) (i : Nat) (a b : α) (h : l[i]? = some b) :
    (l.set i a)[i]? = some a := by
  have hi : i < l.length := by
    by_contra hc
    rw [List.getElem?_eq_none (by omega)] at h
    exact absurd h (by simp)
  rw [List.getElem?_set]
  simp [hi]

/-! ## Queue claims -/

/-- C7: a record enqueued with `ir = 1` reaches the scan (amount not 0, uid not
reported by the filter); if the lowest-indexed occupied slot that makes the loop
return is a slot `i` with `replay[i] = 1`, the same `from` key and a different `to`
key, then `aQue` returns 1, sets `tq[i].amount` to 0 and changes no other slot (the
record is installed nowhere), logs both records to the bad-blocks file and calls
`add_uid(t.uid, 32400)`, after which the filter reports the uid. -/
theorem aQue_double_spend (s : Node) (now : Nat) (t : trans) (iip iipo i : Nat) (q : QEntry)
    (hamt : t.amount ≠ 0) (hfil : (has_uid now t.uid s.sites).1 ≠ 1)
    (hq : s.queue[i]? = some q) (hocc : q.tq.amount ≠ 0) (hrep : q.replay = 1)
    (hfrom : q.tq.from_ = t.from_) (hto : q.tq.to_ ≠ t.to_)
    (hlow : ∀ j qj, j < i → s.queue[j]? = some qj → ¬ is_dspend t 1 qj ∧ ¬ is_repeat t qj) :
    (aQue s now t iip iipo 1).1 = 1 ∧
    (aQue s now t iip iipo 1).2.queue[i]? = some { q with tq := { q.tq with amount := 0 } } ∧
    (∀ j, j ≠ i → (aQue s now t iip iipo 1).2.queue[j]? = s.queue[j]?) ∧
    (aQue s now t iip iipo 1).2.sites = add_uid now t.uid 32400 (has_uid now t.uid s.sites).2 ∧
    (now + 32400 < 2 ^ 32 → (has_uid now t.uid (aQue s now t iip iipo 1).2.sites).1 = 1) ∧
    (aQue s now t iip iipo 1).2.badchain = s.badchain ++ [q.tq, t] ∧
    (aQue s now t iip iipo 1).2.chain = s.chain := by
  rw [aQue_dspend_result s now t iip iipo 1 i q hamt hfil hq ⟨hocc, ⟨rfl, hrep⟩, hfrom, hto⟩ hlow]
  refine ⟨rfl, lookup_set_self _ _ _ _ hq, fun j hj => lookup_set_other _ _ _ _ hj, rfl,
    fun hnow => has_uid_after_add_uid now t.uid 32400 _ (by omega) hnow, rfl, rfl⟩

/-- Witness for C7: `slotA` is queued, a live record from the same key to another
key arrives. -/
theorem aQue_double_spend_witness :
    (aQue node7 101 ⟨6, key 2, key 4, 1000, zero_sig⟩ 8 0 1).1 = 1 ∧
    (aQue node7 101 ⟨6, key 2, key 4, 1000, zero_sig⟩ 8 0 1).2.queue[0]?
      = some { slotA with tq := { slotA.tq with amount := 0 } } ∧
    (∀ j, j ≠ 0 →
      (aQue node7 101 ⟨6, key 2, key 4, 1000, zero_sig⟩ 8 0 1).2.queue[j]? = node7.queue[j]?) ∧
    (aQue node7 101 ⟨6, key 2, key 4, 1000, zero_sig⟩ 8 0 1).2.sites
      = add_uid 101 6 32400 (has_uid 101 6 node7.sites).2 ∧
    (101 + 32400 < 2 ^ 32 →
      (has_uid 101 6 (aQue node7 101 ⟨6, key 2, key 4, 1000, zero_sig⟩ 8 0 1).2.sites).1 = 1) ∧
    (aQue node7 101 ⟨6, key 2, key 4, 1000, zero_sig⟩ 8 0 1).2.badchain
      = node7.badchain ++ [slotA.tq, ⟨6, key 2, key 4, 1000, zero_sig⟩] ∧
    (aQue node7 101 ⟨6, key 2, key 4, 1000, zero_sig⟩ 8 0 1).2.chain = node7.chain :=
  aQue_double_spend node7 101 ⟨6, key 2, key 4, 1000, zero_sig⟩ 8 0 0 slotA
    (by decide) (by decide) (by simp [node7]) (by decide) (by decide) (by decide) (by decide)
    (fun j qj hj _ => absurd hj (by omega))

theorem node7_slot0 : node7.queue[0]? = some slotA := by
  simp [node7]

theorem lookup_cons_replicate {α : Type} (a e : α) (n j : Nat) (h : j < n) :
    (a :: List.replicate n e)[j + 1]? = some e := by
  rw [List.getElem?_cons_succ, List.getElem?_replicate, if_pos h]

theorem node7_slot1 : node7.queue[1]? = some emptyQ :=
  lookup_cons_replicate slotA emptyQ (MAX_TRANS_QUEUE - 1) 0 (by decide)

theorem node9_slot0 : node9.queue[0]? = some slotA := by
  simp [node9, node7]

/-- C9 (as the claim states it, refuted). First: slot 0 holds uid 5 and a record
with uid 5, amount 1000, the same `from` key and another `to` key arrives live;
`aQue` returns 1 and clears slot 0. Second: a replayed repeat of uid 5 returns 0 but
the expired filter bucket of uid 5 is cleared by `has_uid`. -/
theorem aQue_repeat_counterexample :
    ((has_uid 101 5 node7.sites).1 = 0 ∧
     (aQue node7 101 ⟨5, key 2, key 4, 1000, zero_sig⟩ 8 0 1).1 = 1 ∧
     (aQue node7 101 ⟨5, key 2, key 4, 1000, zero_sig⟩ 8 0 1).2.queue[0]? ≠ node7.queue[0]?) ∧
    ((has_uid 101 5 node9.sites).1 = 0 ∧
     (aQue node9 101 ⟨5, key 2, key 3, 1000, zero_sig⟩ 0 0 0).1 = 0 ∧
     (aQue node9 101 ⟨5, key 2, key 3, 1000, zero_sig⟩ 0 0 0).2.sites 5 ≠ node9.sites 5) := by
  constructor
  · rw [aQue_dspend_result node7 101 ⟨5, key 2, key 4, 1000, zero_sig⟩ 8 0 1 0 slotA
      (by decide) (by decide) node7_slot0 (by decide) (fun j qj hj _ => absurd hj (by omega))]
    refine ⟨by decide, rfl, ?_⟩
    rw [lookup_set_self _ _ _ _ node7_slot0, node7_slot0]
    decide
  · rw [aQue_repeated_result node9 101 ⟨5, key 2, key 3, 1000, zero_sig⟩ 0 0 0 0 slotA
      (by decide) (by decide) node9_slot0 (by decide)
      (fun j qj hj hq => by
        have hj0 : j = 0 := by omega
        subst hj0
        rw [node9_slot0] at hq
        cases hq
        decide)]
    exact ⟨by decide, rfl, by decide⟩

/-- C9 (amended): for a record with amount > 0 whose uid the filter does not report,
if an occupied slot holds the same uid and no slot up to it meets the double-spend
test (`ir == 1`, `replay == 1`, same `from`, different `to`), then `aQue` returns 0
and leaves queue, ledger, bad-blocks file and recently-executed table unchanged; in
the filter only the bucket of the uid can change, by the lazy reset of `has_uid`,
and it does not change when it has not expired. -/
theorem aQue_repeat (s : Node) (now : Nat) (t : trans) (iip iipo ir i : Nat) (q : QEntry)
    (hamt : t.amount > 0) (hfil : (has_uid now t.uid s.sites).1 ≠ 1)
    (hq : s.queue[i]? = some q) (hocc : q.tq.amount ≠ 0) (huid : q.tq.uid = t.uid)
    (hnd : ∀ j qj, j ≤ i → s.queue[j]? = some qj → ¬ is_dspend t ir qj) :
    (aQue s now t iip iipo ir).1 = 0 ∧
    (aQue s now t iip iipo ir).2.queue = s.queue ∧
    (aQue s now t iip iipo ir).2.chain = s.chain ∧
    (aQue s now t iip iipo ir).2.badchain = s.badchain ∧
    (aQue s now t iip iipo ir).2.rexi = s.rexi ∧
    (∀ k, k ≠ t.uid % MAX_SITES → (aQue s now t iip iipo ir).2.sites k = s.sites k) ∧
    (aQue s now t iip iipo ir).2.sites (t.uid % MAX_SITES)
      = has_uid_reset now (s.sites (t.uid % MAX_SITES)) ∧
    (now < (s.sites (t.uid % MAX_SITES)).expire_epoch →
      (aQue s now t iip iipo ir).2.sites = s.sites) := by
  rw [aQue_repeated_result s now t iip iipo ir i q (by omega) hfil hq ⟨hocc, huid⟩ hnd]
  refine ⟨rfl, rfl, rfl, rfl, rfl, fun k hk => has_uid_snd_other now t.uid k s.sites hk,
    has_uid_snd_self now t.uid s.sites, fun hexp => ?_⟩
  funext k
  by_cases hk : k = t.uid % MAX_SITES
  · subst hk
    show (has_uid now t.uid s.sites).2 (t.uid % MAX_SITES) = _
    rw [has_uid_snd_self]
    unfold has_uid_reset
    rw [if_neg (by omega)]
  · exact has_uid_snd_other now t.uid k s.sites hk

/-- Witness for C9: the record of `slotA` arrives a second time. -/
theorem aQue_repeat_witness :
    (aQue node7 101 slotA.tq 8 0 1).1 = 0 ∧
    (aQue node7 101 slotA.tq 8 0 1).2.queue = node7.queue ∧
    (aQue node7 101 slotA.tq 8 0 1).2.chain = node7.chain ∧
    (aQue node7 101 slotA.tq 8 0 1).2.badchain = node7.badchain ∧
    (aQue node7 101 slotA.tq 8 0 1).2.rexi = node7.rexi ∧
    (∀ k, k ≠ slotA.tq.uid % MAX_SITES →
      (aQue node7 101 slotA.tq 8 0 1).2.sites k = node7.sites k) ∧
    (aQue node7 101 slotA.tq 8 0 1).2.sites (slotA.tq.uid % MAX_SITES)
      = has_uid_reset 101 (node7.sites (slotA.tq.uid % MAX_SITES)) ∧
    (101 < (node7.sites (slotA.tq.uid % MAX_SITES)).expire_epoch →
      (aQue node7 101 slotA.tq 8 0 1).2.sites = node7.sites) :=
  aQue_repeat node7 101 slotA.tq 8 0 1 0 slotA (by decide) (by decide) node7_slot0
    (by decide) rfl
    (fun j qj hj hq => by
      have hj0 : j = 0 := by omega
      subst hj0
      rw [node7_slot0] at hq
      cases hq
      decide)

/-- C10: for a queue with a free slot and a record with amount > 0 that passes the
filter and on which no occupied slot meets the double-spend or the repeat test,
`aQue` returns 1, writes the record with `(iip, iipo, ir, now)` into the lowest slot
whose amount is 0, leaves every other slot unchanged, and afterwards `has_uid`
reports the uid (the clock being below `2 ^ 32 - 32400`, so that the 32-bit
`expire_epoch` does not wrap). -/
theorem aQue_install (s : Node) (now : Nat) (t : trans) (iip iipo ir k : Nat) (qk : QEntry)
    (hamt : t.amount > 0) (hfil : (has_uid now t.uid s.sites).1 ≠ 1)
    (hquiet : ∀ q ∈ s.queue, ¬ is_dspend t ir q ∧ ¬ is_repeat t q)
    (hk : s.queue[k]? = some qk) (hfree : qk.tq.amount = 0)
    (hlow : ∀ j qj, j < k → s.queue[j]? = some qj → qj.tq.amount ≠ 0)
    (hnow : now + 32400 < 2 ^ 32) :
    (aQue s now t iip iipo ir).1 = 1 ∧
    (aQue s now t iip iipo ir).2.queue = s.queue.set k ⟨t, iip, iipo, ir, now⟩ ∧
    (aQue s now t iip iipo ir).2.queue[k]? = some ⟨t, iip, iipo, ir, now⟩ ∧
    (∀ j, j ≠ k → (aQue s now t iip iipo ir).2.queue[j]? = s.queue[j]?) ∧
    (has_uid now t.uid (aQue s now t iip iipo ir).2.sites).1 = 1 := by
  rw [aQue_install_result s now t iip iipo ir k qk (by omega) hfil hquiet hk hfree hlow]
  exact ⟨rfl, rfl, lookup_set_self _ _ _ _ hk, fun j hj => lookup_set_other _ _ _ _ hj,
    has_uid_after_add_uid now t.uid 32400 _ (by omega) hnow⟩

/-- Witness for C10: a live record arrives at a node whose slot 0 is taken by a
record of another sender; it goes to slot 1. -/
theorem aQue_install_witness :
    (aQue node7 101 ⟨6, key 4, key 3, 10, zero_sig⟩ 8 3 1).1 = 1 ∧
    (aQue node7 101 ⟨6, key 4, key 3, 10, zero_sig⟩ 8 3 1).2.queue
      = node7.queue.set 1 ⟨⟨6, key 4, key 3, 10, zero_sig⟩, 8, 3, 1, 101⟩ ∧
    (aQue node7 101 ⟨6, key 4, key 3, 10, zero_sig⟩ 8 3 1).2.queue[1]?
      = some ⟨⟨6, key 4, key 3, 10, zero_sig⟩, 8, 3, 1, 101⟩ ∧
    (∀ j, j ≠ 1 →
      (aQue node7 101 ⟨6, key 4, key 3, 10, zero_sig⟩ 8 3 1).2.queue[j]? = node7.queue[j]?) ∧
    (has_uid 101 6 (aQue node7 101 ⟨6, key 4, key 3, 10, zero_sig⟩ 8 3 1).2.sites).1 = 1 :=
  aQue_install node7 101 ⟨6, key 4, key 3, 10, zero_sig⟩ 8 3 1 1 emptyQ
    (by decide) (by decide)
    (fun q hq => by
      simp only [node7, List.mem_cons, List.mem_replicate] at hq
      rcases hq with h | ⟨_, h⟩ <;> subst h <;> decide)
    node7_slot1 rfl
    (fun j qj hj hq => by
      have hj0 : j = 0 := by omega
      subst hj0
      rw [node7_slot0] at hq
      cases hq
      decide)
    (by decide)

/-! ## Double-spend scenario -/

theorem gQue_down_none (queue : List QEntry) (now : Nat)
    (h : ∀ q ∈ queue, gQue_ready now q = false) :
    ∀ mi, gQue_down queue now mi = none := by
  intro mi
  induction mi with
  | zero => rfl
  | succ i ih =>
    unfold gQue_down
    have : (queue[i + 1]?).any (gQue_ready now) = false := by
      cases hq : queue[i + 1]? with
      | none => rfl
      | some q => simpa using h q (List.getElem?_mem hq)
    rw [this]
    simpa using ih

theorem gQue_up_none (now : Nat) :
    ∀ (l : List QEntry) (i : Nat), (∀ q ∈ l, gQue_ready now q = false) →
      gQue_up now l i = none := by
  intro l
  induction l with
  | nil => intro i _; rfl
  | cons x xs ih =>
    intro i h
    unfold gQue_up
    rw [h x (by simp)]
    simpa using ih (i + 1) (fun q hq => h q (by simp [hq]))

/-- On a queue without occupied slot `gQue` returns -1. -/
theorem gQue_none_of_free (queue : List QEntry) (now mi : Nat)
    (h : ∀ q ∈ queue, q.tq.amount = 0) : gQue queue now mi = none := by
  have hr : ∀ q ∈ queue, gQue_ready now q = false := by
    intro q hq
    simp [gQue_ready, h q hq]
  unfold gQue
  rw [gQue_down_none queue now hr mi]
  exact gQue_up_none now _ mi (fun q hq => hr q (List.mem_of_mem_drop hq))

/-- Workers change nothing on a queue without occupied slot. -/
theorem drain_of_free (env : Env) (stale : trans) (sched : List (Nat × Nat)) :
    ∀ s : Node, (∀ q ∈ s.queue, q.tq.amount = 0) → drain env stale s sched = s := by
  induction sched with
  | nil => intro s _; rfl
  | cons x rest ih =>
    intro s h
    obtain ⟨now, mi⟩ := x
    unfold drain
    have : processThread env s now stale mi = (s, none) := by
      unfold processThread
      rw [gQue_none_of_free s.queue now mi h]
    rw [this]
    exact ih s h

theorem has_uid_init (now uid : Nat) : (has_uid now uid init_sites).1 = 0 := by
  rcases has_uid_result now uid init_sites with h | h
  · exact h
  · rw [has_uid_eq_one_iff] at h
    simp [init_sites] at h

/-- Two live records of one sender to two recipients, enqueued one after the other
on an empty queue and a fresh filter, with uids in different filter buckets. -/
theorem aQue_two_live (s : Node) (q0 : QEntry) (rest : List QEntry) (t1 t2 : trans)
    (now1 now2 ip1 ipo1 ip2 ipo2 : Nat)
    (hqueue : s.queue = q0 :: rest) (hempty : ∀ q ∈ s.queue, q.tq.amount = 0)
    (hfresh : s.sites = init_sites)
    (hfrom : t1.from_ = t2.from_) (hto : t1.to_ ≠ t2.to_)
    (h1 : t1.amount ≠ 0) (h2 : t2.amount ≠ 0)
    (hbucket : t1.uid % MAX_SITES ≠ t2.uid % MAX_SITES) :
    aQue s now1 t1 ip1 ipo1 1 =
      (1, { s with queue := ⟨t1, ip1, ipo1, 1, now1⟩ :: rest
                   sites := add_uid now1 t1.uid 32400 (has_uid now1 t1.uid init_sites).2 }) ∧
    aQue (aQue s now1 t1 ip1 ipo1 1).2 now2 t2 ip2 ipo2 1 =
      (1, { s with
              badchain := s.badchain ++ [t1, t2]
              queue := ⟨{ t1 with amount := 0 }, ip1, ipo1, 1, now1⟩ :: rest
              sites := add_uid now2 t2.uid 32400
                (has_uid now2 t2.uid
                  (add_uid now1 t1.uid 32400 (has_uid now1 t1.uid init_sites).2)).2 }) := by
  have hq0 : q0.tq.amount = 0 := hempty q0 (by rw [hqueue]; simp)
  have hfil1 : (has_uid now1 t1.uid s.sites).1 ≠ 1 := by
    rw [hfresh, has_uid_init]; omega
  have hquiet : ∀ q ∈ s.queue, ¬ is_dspend t1 1 q ∧ ¬ is_repeat t1 q := by
    intro q hq
    have := hempty q hq
    exact ⟨fun hd => hd.1 this, fun hr => hr.1 this⟩
  have hfirst : aQue s now1 t1 ip1 ipo1 1 =
      (1, { s with queue := ⟨t1, ip1, ipo1, 1, now1⟩ :: rest
                   sites := add_uid now1 t1.uid 32400 (has_uid now1 t1.uid init_sites).2 }) := by
    rw [aQue_install_result s now1 t1 ip1 ipo1 1 0 q0 h1 hfil1 hquiet (by rw [hqueue]; simp) hq0
      (fun j qj hj _ => absurd hj (by omega))]
    rw [hqueue, hfresh]
    rfl
  refine ⟨hfirst, ?_⟩
  rw [hfirst]
  have hb2 : (add_uid now1 t1.uid 32400 (has_uid now1 t1.uid init_sites).2) (t2.uid % MAX_SITES)
      = init_sites (t2.uid % MAX_SITES) := by
    rw [add_uid_other now1 t1.uid 32400 _ _ (Ne.symm hbucket),
      has_uid_snd_other now1 t1.uid _ _ (Ne.symm hbucket)]
  have hfil2 : (has_uid now2 t2.uid
      (add_uid now1 t1.uid 32400 (has_uid now1 t1.uid init_sites).2)).1 ≠ 1 := by
    rw [has_uid_congr now2 t2.uid _ init_sites hb2, has_uid_init]; omega
  rw [aQue_dspend_result _ now2 t2 ip2 ipo2 1 0 ⟨t1, ip1, ipo1, 1, now1⟩ h2 hfil2 (by simp)
    ⟨h1, ⟨rfl, rfl⟩, hfrom, hto⟩ (fun j qj hj _ => absurd hj (by omega))]
  simp

/-- What the two enqueues of `aQue_two_live` leave behind: no occupied slot, an
unchanged ledger after any number of worker iterations, both records in the
bad-blocks file, and the first uid reported by the filter during 32400 seconds. -/
theorem aQue_two_live_outcome (env : Env) (stale : trans) (s : Node) (q0 : QEntry)
    (rest : List QEntry) (t1 t2 : trans) (now1 now2 ip1 ipo1 ip2 ipo2 : Nat)
    (sched : List (Nat × Nat))
    (hqueue : s.queue = q0 :: rest) (hempty : ∀ q ∈ s.queue, q.tq.amount = 0)
    (hfresh : s.sites = init_sites)
    (hfrom : t1.from_ = t2.from_) (hto : t1.to_ ≠ t2.to_)
    (h1 : t1.amount ≠ 0) (h2 : t2.amount ≠ 0)
    (hbucket : t1.uid % MAX_SITES ≠ t2.uid % MAX_SITES)
    (hnow : now1 + 32400 < 2 ^ 32) :
    (aQue s now1 t1 ip1 ipo1 1).1 = 1 ∧
    (aQue (aQue s now1 t1 ip1 ipo1 1).2 now2 t2 ip2 ipo2 1).1 = 1 ∧
    (aQue (aQue s now1 t1 ip1 ipo1 1).2 now2 t2 ip2 ipo2 1).2.badchain
      = s.badchain ++ [t1, t2] ∧
    (∀ q ∈ (aQue (aQue s now1 t1 ip1 ipo1 1).2 now2 t2 ip2 ipo2 1).2.queue, q.tq.amount = 0) ∧
    (drain env stale (aQue (aQue s now1 t1 ip1 ipo1 1).2 now2 t2 ip2 ipo2 1).2 sched).chain
      = s.chain ∧
    (∀ now, now < now1 + 32400 →
      (has_uid now t1.uid (aQue (aQue s now1 t1 ip1 ipo1 1).2 now2 t2 ip2 ipo2 1).2.sites).1
        = 1) := by
  obtain ⟨ha, hb⟩ := aQue_two_live s q0 rest t1 t2 now1 now2 ip1 ipo1 ip2 ipo2 hqueue hempty
    hfresh hfrom hto h1 h2 hbucket
  have hfree : ∀ q ∈ (aQue (aQue s now1 t1 ip1 ipo1 1).2 now2 t2 ip2 ipo2 1).2.queue,
      q.tq.amount = 0 := by
    rw [hb]
    intro q hq
    simp only [List.mem_cons] at hq
    rcases hq with h | h
    · subst h; rfl
    · exact hempty q (by rw [hqueue]; simp [h])
  refine ⟨by rw [ha], by rw [hb], by rw [hb], hfree, ?_, ?_⟩
  · rw [drain_of_free env stale sched _ hfree, hb]
  · intro now hlt
    rw [hb]
    have hbk : (add_uid now2 t2.uid 32400
        (has_uid now2 t2.uid
          (add_uid now1 t1.uid 32400 (has_uid now1 t1.uid init_sites).2)).2) (t1.uid % MAX_SITES)
        = (add_uid now1 t1.uid 32400 (has_uid now1 t1.uid init_sites).2) (t1.uid % MAX_SITES) := by
      rw [add_uid_other now2 t2.uid 32400 _ _ hbucket,
        has_uid_snd_other now2 t2.uid _ _ hbucket]
    show (has_uid now t1.uid _).1 = 1
    rw [has_uid_congr now t1.uid _ _ hbk]
    refine has_uid_window now1 t1.uid 32400 now _ ?_ hnow hlt
    rw [has_uid_snd_self]
    simp [has_uid_reset, init_sites]

theorem node8_queue :
    node8.queue = emptyQ :: List.replicate (MAX_TRANS_QUEUE - 1) emptyQ :=
  List.replicate_succ emptyQ (MAX_TRANS_QUEUE - 1)

theorem node8_empty : ∀ q ∈ node8.queue, q.tq.amount = 0 := by
  intro q hq
  have : q = emptyQ := (List.mem_replicate.mp hq).2
  subst this
  rfl

/-- C8 (as the claim states it, refuted): `key 2` holds 5000; `spend1` and `spend2`
are enqueued live at times 100 and 101 on the empty queue and fresh filter of
`node8`. Both calls of `aQue` return 1, no slot is occupied afterwards, and after
worker iterations the ledger is the genesis ledger: neither record is appended. -/
theorem double_spend_counterexample :
    (aQue node8 100 spend1 8 0 1).1 = 1 ∧
    (aQue (aQue node8 100 spend1 8 0 1).2 101 spend2 9 0 1).1 = 1 ∧
    (∀ q ∈ (aQue (aQue node8 100 spend1 8 0 1).2 101 spend2 9 0 1).2.queue, q.tq.amount = 0) ∧
    (drain env1 stale0 (aQue (aQue node8 100 spend1 8 0 1).2 101 spend2 9 0 1).2
        [(104, 0), (104, 2048), (105, 4095)]).chain = makGenesis env1 ∧
    spend1 ∉ (drain env1 stale0 (aQue (aQue node8 100 spend1 8 0 1).2 101 spend2 9 0 1).2
        [(104, 0), (104, 2048), (105, 4095)]).chain ∧
    spend2 ∉ (drain env1 stale0 (aQue (aQue node8 100 spend1 8 0 1).2 101 spend2 9 0 1).2
        [(104, 0), (104, 2048), (105, 4095)]).chain := by
  have h := aQue_two_live_outcome env1 stale0 node8 emptyQ
    (List.replicate (MAX_TRANS_QUEUE - 1) emptyQ) spend1 spend2 100 101 8 0 9 0
    [(104, 0), (104, 2048), (105, 4095)] node8_queue node8_empty rfl rfl
    (by decide) (by decide) (by decide) (by decide) (by decide)
  refine ⟨h.1, h.2.1, h.2.2.2.1, h.2.2.2.2.1, ?_, ?_⟩
  · rw [h.2.2.2.2.1]; decide
  · rw [h.2.2.2.2.1]; decide

/-- C8 (amended): starting from an empty queue and a fresh filter, enqueuing
`(u1, S, T1, v)` and then `(u2, S, T2, v)` as live records with no dequeue in
between, the uids falling in different filter buckets, both calls of `aQue` return
1, both records are written to the bad-blocks file, the second call invalidates the
queued first record and installs nothing, so draining the queue through
`process_trans` appends neither record; uid `u1` is reported by `has_uid` during the
following 32400 seconds. -/
theorem double_spend_scenario (env : Env) (stale : trans) (s : Node) (q0 : QEntry)
    (rest : List QEntry) (t1 t2 : trans) (now1 now2 ip1 ipo1 ip2 ipo2 : Nat)
    (sched : List (Nat × Nat))
    (hqueue : s.queue = q0 :: rest) (hempty : ∀ q ∈ s.queue, q.tq.amount = 0)
    (hfresh : s.sites = init_sites)
    (hfrom : t1.from_ = t2.from_) (hto : t1.to_ ≠ t2.to_)
    (h1 : t1.amount > 0) (h2 : t2.amount > 0)
    (hbucket : t1.uid % MAX_SITES ≠ t2.uid % MAX_SITES)
    (hnow : now1 + 32400 < 2 ^ 32) :
    (aQue s now1 t1 ip1 ipo1 1).1 = 1 ∧
    (aQue (aQue s now1 t1 ip1 ipo1 1).2 now2 t2 ip2 ipo2 1).1 = 1 ∧
    (aQue (aQue s now1 t1 ip1 ipo1 1).2 now2 t2 ip2 ipo2 1).2.badchain
      = s.badchain ++ [t1, t2] ∧
    (∀ q ∈ (aQue (aQue s now1 t1 ip1 ipo1 1).2 now2 t2 ip2 ipo2 1).2.queue, q.tq.amount = 0) ∧
    (drain env stale (aQue (aQue s now1 t1 ip1 ipo1 1).2 now2 t2 ip2 ipo2 1).2 sched).chain
      = s.chain ∧
    (∀ now, now < now1 + 32400 →
      (has_uid now t1.uid (aQue (aQue s now1 t1 ip1 ipo1 1).2 now2 t2 ip2 ipo2 1).2.sites).1
        = 1) :=
  aQue_two_live_outcome env stale s q0 rest t1 t2 now1 now2 ip1 ipo1 ip2 ipo2 sched hqueue
    hempty hfresh hfrom hto (by omega) (by omega) hbucket hnow

/-- Witness for C8 on `node8` with `spend1` and `spend2`. -/
theorem double_spend_scenario_witness :
    (aQue node8 100 spend1 8 0 1).1 = 1 ∧
    (aQue (aQue node8 100 spend1 8 0 1).2 101 spend2 9 0 1).1 = 1 ∧
    (aQue (aQue node8 100 spend1 8 0 1).2 101 spend2 9 0 1).2.badchain
      = node8.badchain ++ [spend1, spend2] ∧
    (∀ q ∈ (aQue (aQue node8 100 spend1 8 0 1).2 101 spend2 9 0 1).2.queue, q.tq.amount = 0) ∧
    (drain env1 stale0 (aQue (aQue node8 100 spend1 8 0 1).2 101 spend2 9 0 1).2
        [(104, 0), (105, 4095)]).chain = node8.chain ∧
    (∀ now, now < 100 + 32400 →
      (has_uid now spend1.uid
        (aQue (aQue node8 100 spend1 8 0 1).2 101 spend2 9 0 1).2.sites).1 = 1) :=
  double_spend_scenario env1 stale0 node8 emptyQ (List.replicate (MAX_TRANS_QUEUE - 1) emptyQ)
    spend1 spend2 100 101 8 0 9 0 [(104, 0), (105, 4095)] node8_queue node8_empty rfl rfl
    (by decide) (by decide) (by decide) (by decide) (by decide)

/-! ## Queue admission and the two uid tables -/

theorem lookup_replicate {α : Type} (e : α) (n j : Nat) (h : j < n) :
    (List.replicate n e)[j]? = some e := by
  rw [List.getElem?_replicate, if_pos h]

theorem node1_slot0 : node1.queue[0]? = some emptyQ :=
  lookup_replicate emptyQ MAX_TRANS_QUEUE 0 (by decide)

theorem node1_quiet (t : trans) (ir : Nat) :
    ∀ q ∈ node1.queue, ¬ is_dspend t ir q ∧ ¬ is_repeat t q := by
  intro q hq
  have : q = emptyQ := (List.mem_replicate.mp hq).2
  subst this
  exact ⟨fun h => h.1 rfl, fun h => h.1 rfl⟩

/-- A call of `aQue` that ends before the scan leaves the queue as it was. -/
theorem aQue_queue_of_reject (s : Node) (now : Nat) (t : trans) (iip iipo ir : Nat)
    (h : t.amount = 0 ∨ (has_uid now t.uid s.sites).1 = 1) :
    (aQue s now t iip iipo ir).2.queue = s.queue := by
  unfold aQue
  by_cases ha : t.amount = 0
  · simp [ha]
  · rcases h with h | h
    · exact absurd h ha
    · simp [ha, h]

/-- C11 (as the claim states it, refuted): the recently-executed table of `node11`
holds uid 6 until time 103, and at time 101 `aQue` installs `rec6`, whose uid is 6, in
the free slot 0. -/
theorem aQue_ring_counterexample :
    (rExi 101 rec6.uid node11.rexi).1 = 1 ∧
    node11.queue[0]? = some emptyQ ∧
    (aQue node11 101 rec6 8 3 1).1 = 1 ∧
    (aQue node11 101 rec6 8 3 1).2.queue[0]? = some ⟨rec6, 8, 3, 1, 101⟩ := by
  have h := aQue_install_result node11 101 rec6 8 3 1 0 emptyQ (by decide) (by decide)
    (node1_quiet rec6 1) node1_slot0 rfl (fun j qj hj _ => absurd hj (by omega))
  rw [h]
  exact ⟨by decide, node1_slot0, rfl, lookup_set_self _ _ _ _ node1_slot0⟩

/-- C11 (amended): if `aQue` installs the record in a queue slot (slot `k` did not
hold the entry of the record before the call and holds it after), then the record
has amount > 0 and `has_uid` did not report its uid at the call. The
recently-executed table is not read by `aQue`. -/
theorem aQue_installs_only_fresh (s : Node) (now : Nat) (t : trans) (iip iipo ir k : Nat)
    (hnew : (aQue s now t iip iipo ir).2.queue[k]? = some ⟨t, iip, iipo, ir, now⟩)
    (hold : s.queue[k]? ≠ some ⟨t, iip, iipo, ir, now⟩) :
    t.amount > 0 ∧ (has_uid now t.uid s.sites).1 = 0 ∧
    (aQue s now t iip iipo ir).2.rexi = s.rexi := by
  have hrej : ¬ (t.amount = 0 ∨ (has_uid now t.uid s.sites).1 = 1) := by
    intro h
    rw [aQue_queue_of_reject s now t iip iipo ir h] at hnew
    exact hold hnew
  have ha : t.amount ≠ 0 := fun h => hrej (Or.inl h)
  have hf : (has_uid now t.uid s.sites).1 ≠ 1 := fun h => hrej (Or.inr h)
  refine ⟨by omega, ?_, ?_⟩
  · rcases has_uid_result now t.uid s.sites with h | h
    · exact h
    · exact absurd h hf
  · rw [aQue_past_filter s now t iip iipo ir ha hf]
    cases aQue_scan t ir s.queue 0 (-1) <;> rfl

/-- Witness for C11: `rec6` is installed in slot 0 of `node11`. -/
theorem aQue_installs_only_fresh_witness :
    rec6.amount > 0 ∧ (has_uid 101 rec6.uid node11.sites).1 = 0 ∧
    (aQue node11 101 rec6 8 3 1).2.rexi = node11.rexi :=
  aQue_installs_only_fresh node11 101 rec6 8 3 1 0
    (by
      rw [aQue_install_result node11 101 rec6 8 3 1 0 emptyQ (by decide) (by decide)
        (node1_quiet rec6 1) node1_slot0 rfl (fun j qj hj _ => absurd hj (by omega))]
      exact lookup_set_self _ _ _ _ node1_slot0)
    (by
      have h : node11.queue[0]? = some emptyQ := node1_slot0
      rw [h]
      decide)

/-- Every bucket of a filter state the program produces is empty or holds the range
`[1, 1]`. -/
theorem filter_reachable_bucket (sites : Nat → site) (h : filter_reachable sites) :
    ∀ k, sites k = ⟨0, 0, 0⟩ ∨ ((sites k).uid_low = 1 ∧ (sites k).uid_high = 1) := by
  induction h with
  | init => intro k; exact Or.inl rfl
  | has_uid sites now uid _ ih =>
    intro k
    by_cases hk : k = uid % MAX_SITES
    · rw [hk, has_uid_snd_self]
      unfold has_uid_reset
      split
      · exact Or.inl rfl
      · exact ih _
    · rw [has_uid_snd_other now uid k sites hk]
      exact ih k
  | add_uid sites t now uid w _ hfresh ih =>
    intro k
    by_cases hk : k = uid % MAX_SITES
    · right
      have hb : (has_uid t uid sites).2 (uid % MAX_SITES) = ⟨0, 0, 0⟩ := by
        rw [has_uid_snd_self]
        unfold has_uid_reset
        split
        · rfl
        · rename_i hexp
          exfalso
          have h1 := (has_uid_eq_one_iff t uid sites).2
          rcases ih (uid % MAX_SITES) with h0 | h0
          · rw [h0] at hexp
            exact hexp (Nat.zero_le _)
          · have := h1 ⟨by omega, by omega, by omega⟩
            omega
      obtain ⟨h1, _, _, h4⟩ := add_uid_bucket now uid w (has_uid t uid sites).2
      rw [hk]
      refine ⟨h1, h4 ?_⟩
      rw [hb]
      exact Nat.zero_le _
    · rw [add_uid_other now uid w k _ hk, has_uid_snd_other t uid k sites hk]
      exact ih k

/-- A call of `aQue` leads from a filter state the program produces to another one. -/
theorem filter_reachable_aQue (s : Node) (now : Nat) (t : trans) (iip iipo ir : Nat)
    (h : filter_reachable s.sites) : filter_reachable (aQue s now t iip iipo ir).2.sites := by
  unfold aQue
  by_cases hamt : t.amount = 0
  · rw [if_pos hamt]; exact h
  · rw [if_neg hamt]
    simp only
    by_cases hf : (has_uid now t.uid s.sites).1 = 1
    · rw [if_pos hf]
      exact filter_reachable.has_uid s.sites now t.uid h
    · rw [if_neg hf]
      have h0 : (has_uid now t.uid s.sites).1 = 0 := by
        rcases has_uid_result now t.uid s.sites with h0 | h0
        · exact h0
        · exact absurd h0 hf
      cases aQue_scan t ir s.queue 0 (-1) with
      | dspend i => exact filter_reachable.add_uid s.sites now now t.uid 32400 h h0
      | repeated => exact filter_reachable.has_uid s.sites now t.uid h
      | done freeindex => exact filter_reachable.add_uid s.sites now now t.uid 32400 h h0

/-- When `has_uid` returns 0 on a filter state the program produces, it leaves the
bucket of the uid empty and expired. -/
theorem has_uid_zero_bucket (sites : Nat → site) (t uid : Nat)
    (hreach : filter_reachable sites) (hfresh : (has_uid t uid sites).1 = 0) :
    (has_uid t uid sites).2 (uid % MAX_SITES) = ⟨0, 0, 0⟩ := by
  rw [has_uid_snd_self]
  unfold has_uid_reset
  split
  · rfl
  · rename_i hexp
    exfalso
    have h1 := (has_uid_eq_one_iff t uid sites).2
    rcases filter_reachable_bucket sites hreach (uid % MAX_SITES) with h0 | h0
    · rw [h0] at hexp
      exact hexp (Nat.zero_le _)
    · have := h1 ⟨by omega, by omega, by omega⟩
      omega

/-- C12: in every filter state the program produces, `add_uid(uid, 32400)` runs after
`has_uid(uid)` returned 0 (at clock reading `t`), so the bucket of the uid is empty;
called at a time `t0` below `2 ^ 32 - 32400` it opens the full window: afterwards
`has_uid(uid)` returns 1 at every time below `t0 + 32400`, returns 0 at every time from
`t0 + 32400` on, and returns 0 only at such times. -/
theorem add_uid_window (sites : Nat → site) (uid t t0 now1 : Nat)
    (hreach : filter_reachable sites) (hfresh : (has_uid t uid sites).1 = 0)
    (hnow : t0 + 32400 < 2 ^ 32) :
    (now1 < t0 + 32400 →
      (has_uid now1 uid (add_uid t0 uid 32400 (has_uid t uid sites).2)).1 = 1) ∧
    (t0 + 32400 ≤ now1 →
      (has_uid now1 uid (add_uid t0 uid 32400 (has_uid t uid sites).2)).1 = 0) ∧
    ((has_uid now1 uid (add_uid t0 uid 32400 (has_uid t uid sites).2)).1 = 0 →
      t0 + 32400 ≤ now1) := by
  have hexp : t0 ≥ ((has_uid t uid sites).2 (uid % MAX_SITES)).expire_epoch := by
    rw [has_uid_zero_bucket sites t uid hreach hfresh]
    exact Nat.zero_le _
  refine ⟨fun h => has_uid_window t0 uid 32400 now1 _ hexp hnow h,
    fun h => has_uid_window_over t0 uid 32400 now1 _ hexp hnow h, fun h => ?_⟩
  by_contra hc
  have := has_uid_window t0 uid 32400 now1 (has_uid t uid sites).2 hexp hnow (by omega)
  omega

/-- Witness for C12: on the fresh filter uid 7 is tested and added at time 100; its
window is over at time 40000, when the colliding uid 11111108 is tested and added;
the filter is asked at time 40100. -/
theorem add_uid_window_witness :
    (40100 < 40000 + 32400 →
      (has_uid 40100 11111108 (add_uid 40000 11111108 32400
        (has_uid 40000 11111108
          (add_uid 100 7 32400 (has_uid 100 7 init_sites).2)).2)).1 = 1) ∧
    (40000 + 32400 ≤ 40100 →
      (has_uid 40100 11111108 (add_uid 40000 11111108 32400
        (has_uid 40000 11111108
          (add_uid 100 7 32400 (has_uid 100 7 init_sites).2)).2)).1 = 0) ∧
    ((has_uid 40100 11111108 (add_uid 40000 11111108 32400
        (has_uid 40000 11111108
          (add_uid 100 7 32400 (has_uid 100 7 init_sites).2)).2)).1 = 0 →
      40000 + 32400 ≤ 40100) :=
  add_uid_window (add_uid 100 7 32400 (has_uid 100 7 init_sites).2) 11111108 40000 40000 40100
    (filter_reachable.add_uid init_sites 100 100 7 32400 filter_reachable.init (by decide))
    (by decide) (by decide)

/-! ## The slot `rExi` overwrites -/

/-- Without a hit and without a slot passing the test, the scan keeps `free`. -/
theorem rExi_scan_keep (now uid : Nat) :
    ∀ (tbl : List (Nat × Nat)) (i : Nat) (free : Int),
      (∀ e ∈ tbl, ¬ (e.1 = uid ∧ now < e.2)) → (∀ e ∈ tbl, ¬ rExi_free now e) →
      rExi_scan now uid tbl i free = some free := by
  intro tbl
  induction tbl with
  | nil => intro i free _ _; rfl
  | cons x xs ih =>
    intro i free hmiss hfull
    have hx : ¬ (x.1 = uid ∧ (x.2 : Int) > (now : Int)) :=
      fun h => hmiss x (by simp) ⟨h.1, by omega⟩
    have hf : ¬ rExi_free now x := hfull x (by simp)
    unfold rExi_scan
    rw [if_neg hx, if_neg hf]
    exact ih (i + 1) free (fun e he => hmiss e (by simp [he])) (fun e he => hfull e (by simp [he]))

/-- Without a hit the scan ends with the highest index whose slot passes the test. -/
theorem rExi_scan_last (now uid : Nat) :
    ∀ (tbl : List (Nat × Nat)) (k i : Nat) (free : Int) (e : Nat × Nat),
      (∀ x ∈ tbl, ¬ (x.1 = uid ∧ now < x.2)) →
      tbl[k]? = some e → rExi_free now e →
      (∀ j ej, k < j → tbl[j]? = some ej → ¬ rExi_free now ej) →
      rExi_scan now uid tbl i free = some ((i + k : Nat) : Int) := by
  intro tbl
  induction tbl with
  | nil => intro k i free e _ hk; simp at hk
  | cons x xs ih =>
    intro k i free e hmiss hk hfree hlast
    have hx : ¬ (x.1 = uid ∧ (x.2 : Int) > (now : Int)) :=
      fun h => hmiss x (by simp) ⟨h.1, by omega⟩
    have hmiss1 : ∀ y ∈ xs, ¬ (y.1 = uid ∧ now < y.2) := fun y hy => hmiss y (by simp [hy])
    unfold rExi_scan
    rw [if_neg hx]
    cases k with
    | zero =>
      have hxe : x = e := by simpa using hk
      subst hxe
      rw [if_pos hfree]
      have hfull : ∀ y ∈ xs, ¬ rExi_free now y := by
        intro y hy
        obtain ⟨j, hj, hjy⟩ := List.getElem_of_mem hy
        exact hlast (j + 1) y (by omega) (by simp [List.getElem?_eq_getElem hj, hjy])
      rw [rExi_scan_keep now uid xs (i + 1) (i : Int) hmiss1 hfull]
      simp
    | succ k =>
      have hk1 : xs[k]? = some e := by simpa using hk
      have hlast1 : ∀ j ej, k < j → xs[j]? = some ej → ¬ rExi_free now ej :=
        fun j ej hj hej => hlast (j + 1) ej (by omega) (by simpa using hej)
      split
      · rw [ih k (i + 1) _ e hmiss1 hk1 hfree hlast1]
        congr 2; omega
      · rw [ih k (i + 1) _ e hmiss1 hk1 hfree hlast1]
        congr 2; omega

theorem rExi_miss_iff (now uid : Nat) (tbl : List (Nat × Nat)) :
    (rExi now uid tbl).1 = 0 ↔ ∀ e ∈ tbl, ¬ (e.1 = uid ∧ now < e.2) := by
  constructor
  · intro h e he hc
    have := (rExi_hit_iff now uid tbl).mpr ⟨e, he, hc⟩
    omega
  · intro h
    rcases rExi_result now uid tbl with h0 | h1
    · exact h0
    · obtain ⟨e, he, hc⟩ := (rExi_hit_iff now uid tbl).mp h1
      exact absurd hc (h e he)

/-- On a miss `rExi` writes `(uid, now + 3)` into the highest slot passing the test. -/
theorem rExi_miss_table (now uid : Nat) (tbl : List (Nat × Nat)) (k : Nat) (e : Nat × Nat)
    (hmiss : (rExi now uid tbl).1 = 0) (hk : tbl[k]? = some e) (hfree : rExi_free now e)
    (hlast : ∀ j ej, k < j → tbl[j]? = some ej → ¬ rExi_free now ej) :
    (rExi now uid tbl).2 = tbl.set k (uid, now + 3) := by
  have hm := (rExi_miss_iff now uid tbl).mp hmiss
  unfold rExi
  rw [rExi_scan_last now uid tbl k 0 (-1) e hm hk hfree hlast]
  have h1 : ¬ ((k : Nat) : Int) = -1 := by omega
  simp only [ne_eq, Nat.zero_add, Int.toNat_ofNat, h1, not_false_eq_true, if_true]

/-- On a miss with no slot passing the test `rExi` leaves the table as it was. -/
theorem rExi_miss_full (now uid : Nat) (tbl : List (Nat × Nat))
    (hmiss : (rExi now uid tbl).1 = 0) (hfull : ∀ e ∈ tbl, ¬ rExi_free now e) :
    (rExi now uid tbl).2 = tbl := by
  have hm := (rExi_miss_iff now uid tbl).mp hmiss
  unfold rExi
  rw [rExi_scan_keep now uid tbl 0 (-1) hm hfull]
  simp

/-- A table that holds `(uid, now + 3)` answers 1 before time `now + 3`. -/
theorem rExi_hit_after_set (now now1 uid : Nat) (tbl : List (Nat × Nat)) (k : Nat)
    (e : Nat × Nat) (hk : tbl[k]? = some e) (hlt : now1 < now + 3) :
    (rExi now1 uid (tbl.set k (uid, now + 3))).1 = 1 := by
  rw [rExi_hit_iff]
  exact ⟨(uid, now + 3), List.getElem?_mem (lookup_set_self tbl k _ e hk), rfl, hlt⟩

theorem node1_rexi_last :
    node1.rexi[MAX_REXI_SIZE - 1]? = some (0, 0) ∧ rExi_free 100 ((0, 0) : Nat × Nat) ∧
    (∀ j ej, MAX_REXI_SIZE - 1 < j → node1.rexi[j]? = some ej → ¬ rExi_free 100 ej) := by
  refine ⟨lookup_replicate (0, 0) MAX_REXI_SIZE (MAX_REXI_SIZE - 1) (by decide),
    Or.inr rfl, fun j ej hj hej => ?_⟩
  have hnone : node1.rexi[j]? = none := by
    show (List.replicate MAX_REXI_SIZE ((0, 0) : Nat × Nat))[j]? = none
    rw [List.getElem?_replicate, if_neg]
    simp only [MAX_REXI_SIZE] at hj ⊢
    omega
  rw [hnone] at hej
  exact absurd hej (by simp)

/-- C13 (as the claim states it, refuted): on the all-zero table every slot counts as
expired; after the miss of `rExi(7)` at time 100 the lowest slot still holds `(0, 0)`
and the pair `(7, 103)` sits in the last slot, 1023. -/
theorem rExi_first_slot_counterexample :
    (rExi 100 7 node1.rexi).1 = 0 ∧
    (rExi 100 7 node1.rexi).2[0]? = some (0, 0) ∧
    (rExi 100 7 node1.rexi).2[MAX_REXI_SIZE - 1]? = some (7, 103) := by
  have hmiss := node1_rexi_miss 100 7
  obtain ⟨h1, h2, h3⟩ := node1_rexi_last
  rw [rExi_miss_table 100 7 node1.rexi (MAX_REXI_SIZE - 1) (0, 0) hmiss h1 h2 h3]
  refine ⟨hmiss, ?_, lookup_set_self _ _ _ _ h1⟩
  rw [lookup_set_other _ _ _ _ (by decide)]
  exact lookup_replicate (0, 0) MAX_REXI_SIZE 0 (by decide)

/-- C13 (amended): `rExi` returns 1 iff some slot holds `(uid, expiry)` with
`expiry > now`, and then leaves the table unchanged. On a miss it overwrites the
last (highest-indexed) slot that passes `now > uidtimes[i]-2 || uidtimes[i] == 0` with
`(uid, now + 3)`, so that a repeated `rExi(uid)` before time `now + 3` returns 1; when
no slot passes the test the table is left unchanged. -/
theorem rExi_contract (now uid : Nat) (tbl : List (Nat × Nat)) :
    ((rExi now uid tbl).1 = 1 ↔ ∃ e ∈ tbl, e.1 = uid ∧ e.2 > now) ∧
    ((rExi now uid tbl).1 = 1 → (rExi now uid tbl).2 = tbl) ∧
    (∀ k e, (rExi now uid tbl).1 = 0 → tbl[k]? = some e → rExi_free now e →
      (∀ j ej, k < j → tbl[j]? = some ej → ¬ rExi_free now ej) →
      (rExi now uid tbl).2 = tbl.set k (uid, now + 3) ∧
      ∀ now1, now1 < now + 3 → (rExi now1 uid (rExi now uid tbl).2).1 = 1) ∧
    ((rExi now uid tbl).1 = 0 → (∀ e ∈ tbl, ¬ rExi_free now e) →
      (rExi now uid tbl).2 = tbl) := by
  refine ⟨rExi_hit_iff now uid tbl, rExi_hit_table now uid tbl, ?_,
    rExi_miss_full now uid tbl⟩
  intro k e hmiss hk hfree hlast
  have h := rExi_miss_table now uid tbl k e hmiss hk hfree hlast
  refine ⟨h, fun now1 hlt => ?_⟩
  rw [h]
  exact rExi_hit_after_set now now1 uid tbl k e hk hlt

/-- Witness for C13 on the all-zero table: uid 7 at time 100, asked again at time 102. -/
theorem rExi_contract_witness :
    (rExi 100 7 node1.rexi).2 = node1.rexi.set (MAX_REXI_SIZE - 1) (7, 100 + 3) ∧
    (rExi 102 7 (rExi 100 7 node1.rexi).2).1 = 1 :=
  ⟨((rExi_contract 100 7 node1.rexi).2.2.1 (MAX_REXI_SIZE - 1) (0, 0) (node1_rexi_miss 100 7)
      node1_rexi_last.1 node1_rexi_last.2.1 node1_rexi_last.2.2).1,
   ((rExi_contract 100 7 node1.rexi).2.2.1 (MAX_REXI_SIZE - 1) (0, 0) (node1_rexi_miss 100 7)
      node1_rexi_last.1 node1_rexi_last.2.1 node1_rexi_last.2.2).2 102 (by decide)⟩

/-! ## Peer table claims -/

/-- Octets of `ntohl` applied to the address `a.b.c.d`. -/
theorem ntohl_ipv4 (a b c d : Nat) (ha : a < 256) (hb : b < 256) (hc : c < 256)
    (hd : d < 256) :
    (ntohl (ipv4 a b c d) / 2 ^ 24) % 2 ^ 8 = a ∧
    ((ntohl (ipv4 a b c d) / 2 ^ 16) % 2 ^ 8) % 2 ^ 8 = b := by
  have e0 : ipv4 a b c d % 2 ^ 8 = a := by simp only [ipv4]; omega
  have e1 : ipv4 a b c d / 2 ^ 8 % 2 ^ 8 = b := by simp only [ipv4]; omega
  have e2 : ipv4 a b c d / 2 ^ 16 % 2 ^ 8 = c := by simp only [ipv4]; omega
  have e3 : ipv4 a b c d / 2 ^ 24 % 2 ^ 8 = d := by simp only [ipv4]; omega
  simp only [ntohl, e0, e1, e2, e3]
  clear e0 e1 e2 e3
  constructor <;> omega

theorem isPrivateAddress_iff (a b c d : Nat) (ha : a < 256) (hb : b < 256) (hc : c < 256)
    (hd : d < 256) :
    isPrivateAddress (ipv4 a b c d) = 1 ↔
      (a = 10 ∨ (a = 172 ∧ 16 ≤ b ∧ b ≤ 31) ∨ (a = 192 ∧ b = 168)) := by
  obtain ⟨h1, h2⟩ := ntohl_ipv4 a b c d ha hb hc hd
  simp only [isPrivateAddress, h1, h2]
  by_cases e1 : a = 10
  · simp [e1]
  · by_cases e2 : a = 172 ∧ b ≥ 16 ∧ b ≤ 31
    · simp [e1, e2]
    · by_cases e3 : a = 192 ∧ b = 168
      · simp [e3]
      · simp only [e1, e2, e3, if_false]
        simp

theorem isPrivateAddress_values (iip : Nat) :
    isPrivateAddress iip = 0 ∨ isPrivateAddress iip = 1 := by
  simp only [isPrivateAddress]
  split
  · right; rfl
  · split
    · right; rfl
    · split
      · right; rfl
      · left; rfl

/-- C14: for every peer table and every address `a.b.c.d` (network byte order) that is
127.0.0.1 or lies in 10.0.0.0/8, 172.16.0.0/12 or 192.168.0.0/16, `addPeer` returns 0
and leaves `peers`, `peer_timeouts`, `peer_tcount`, `peer_ua` and `num_peers`
unchanged; and `isPrivateAddress` returns 1 exactly for the addresses of those three
ranges (0 for all others). -/
theorem addPeer_private (p : Peers) (now a b c d : Nat)
    (ha : a < 256) (hb : b < 256) (hc : c < 256) (hd : d < 256) :
    (isPrivateAddress (ipv4 a b c d) = 1 ↔
      (a = 10 ∨ (a = 172 ∧ 16 ≤ b ∧ b ≤ 31) ∨ (a = 192 ∧ b = 168))) ∧
    (isPrivateAddress (ipv4 a b c d) = 0 ↔
      ¬ (a = 10 ∨ (a = 172 ∧ 16 ≤ b ∧ b ≤ 31) ∨ (a = 192 ∧ b = 168))) ∧
    (((a = 127 ∧ b = 0 ∧ c = 0 ∧ d = 1) ∨
        a = 10 ∨ (a = 172 ∧ 16 ≤ b ∧ b ≤ 31) ∨ (a = 192 ∧ b = 168)) →
      addPeer p now (ipv4 a b c d) = (0, p)) := by
  have hiff := isPrivateAddress_iff a b c d ha hb hc hd
  refine ⟨hiff, ?_, ?_⟩
  · rw [← hiff]
    rcases isPrivateAddress_values (ipv4 a b c d) with h | h <;> simp [h]
  · intro h
    unfold addPeer
    rcases h with ⟨h1, h2, h3, h4⟩ | h
    · subst h1 h2 h3 h4
      simp [loopback_addr]
    · have hp := hiff.mpr h
      by_cases hl : ipv4 a b c d = loopback_addr
      · simp [hl]
      · simp [hl, hp]

/-- Witness for C14: 192.168.1.7 is refused on the table left by `setMasterNode`. -/
theorem addPeer_private_witness :
    isPrivateAddress (ipv4 192 168 1 7) = 1 ∧ addPeer peers0 100 (ipv4 192 168 1 7) = (0, peers0) :=
  ⟨(addPeer_private peers0 100 192 168 1 7 (by decide) (by decide) (by decide) (by decide)).1.mpr
      (Or.inr (Or.inr ⟨rfl, rfl⟩)),
   (addPeer_private peers0 100 192 168 1 7 (by decide) (by decide) (by decide) (by decide)).2.2
      (Or.inr (Or.inr (Or.inr ⟨rfl, rfl⟩)))⟩

/-- The scan of `addPeer` keeps a `freeindex` that is already set. -/
theorem addPeer_scan_keep (p : Peers) (now ip : Nat) :
    ∀ (n i fi : Nat), fi ≠ 0 → (∀ j, i ≤ j → j < i + n → p.peers j ≠ ip) →
      addPeer_scan p now ip n i fi = .inr fi := by
  intro n
  induction n with
  | zero => intro i fi _ _; rfl
  | succ n ih =>
    intro i fi hfi hnew
    unfold addPeer_scan
    rw [if_neg (hnew i (by omega) (by omega))]
    have : (if fi = 0 ∧ i ≠ 0 ∧ p.peer_timeouts i < (now : Int) then i else fi) = fi := by
      simp [hfi]
    rw [this]
    exact ih (i + 1) fi hfi (fun j h1 h2 => hnew j (by omega) (by omega))

/-- The scan of `addPeer` ends with `freeindex == 0` when no index other than 0 has
expired. -/
theorem addPeer_scan_none (p : Peers) (now ip : Nat) :
    ∀ (n i : Nat), (∀ j, i ≤ j → j < i + n → p.peers j ≠ ip) →
      (∀ j, i ≤ j → j < i + n → j ≠ 0 → ¬ p.peer_timeouts j < (now : Int)) →
      addPeer_scan p now ip n i 0 = .inr 0 := by
  intro n
  induction n with
  | zero => intro i _ _; rfl
  | succ n ih =>
    intro i hnew hlive
    unfold addPeer_scan
    rw [if_neg (hnew i (by omega) (by omega))]
    have : (if (0 : Nat) = 0 ∧ i ≠ 0 ∧ p.peer_timeouts i < (now : Int) then i else 0) = 0 := by
      by_cases h0 : i = 0
      · simp [h0]
      · have := hlive i (by omega) (by omega) h0
        simp [this]
    rw [this]
    exact ih (i + 1) (fun j h1 h2 => hnew j (by omega) (by omega))
      (fun j h1 h2 => hlive j (by omega) (by omega))

/-- The scan of `addPeer` ends with the lowest expired index other than 0. -/
theorem addPeer_scan_first (p : Peers) (now ip : Nat) :
    ∀ (n i k : Nat), (∀ j, i ≤ j → j < i + n → p.peers j ≠ ip) →
      i ≤ k → k < i + n → k ≠ 0 → p.peer_timeouts k < (now : Int) →
      (∀ j, i ≤ j → j < k → j ≠ 0 → ¬ p.peer_timeouts j < (now : Int)) →
      addPeer_scan p now ip n i 0 = .inr k := by
  intro n
  induction n with
  | zero => intro i k _ h1 h2; omega
  | succ n ih =>
    intro i k hnew h1 h2 hk hexp hlow
    unfold addPeer_scan
    rw [if_neg (hnew i (by omega) (by omega))]
    by_cases hik : i = k
    · subst hik
      have : (if (0 : Nat) = 0 ∧ i ≠ 0 ∧ p.peer_timeouts i < (now : Int) then i else 0) = i := by
        simp [hk, hexp]
      rw [this]
      exact addPeer_scan_keep p now ip n (i + 1) i hk
        (fun j h1 h2 => hnew j (by omega) (by omega))
    · have : (if (0 : Nat) = 0 ∧ i ≠ 0 ∧ p.peer_timeouts i < (now : Int) then i else 0) = 0 := by
        by_cases h0 : i = 0
        · simp [h0]
        · have := hlow i (by omega) (by omega) h0
          simp [this]
      rw [this]
      exact ih (i + 1) k (fun j h1 h2 => hnew j (by omega) (by omega)) (by omega) (by omega)
        hk hexp (fun j h1 h2 => hlow j (by omega) h2)

/-- On a full table `addPeer` of a new public address replaces the lowest expired
index other than 0. -/
theorem addPeer_full_replace (p : Peers) (now ip k : Nat) (hfull : p.num_peers = MAX_PEERS)
    (hl : ip ≠ loopback_addr) (hp : isPrivateAddress ip = 0)
    (hnew : ∀ i, i < p.num_peers → p.peers i ≠ ip)
    (h1 : 1 ≤ k) (h2 : k < MAX_PEERS) (hexp : p.peer_timeouts k < (now : Int))
    (hlow : ∀ j, 1 ≤ j → j < k → ¬ p.peer_timeouts j < (now : Int)) :
    addPeer p now ip =
      (1, { p with
              peers := Function.update p.peers k ip,
              peer_timeouts := Function.update p.peer_timeouts k (peer_expiry now),
              peer_tcount := Function.update p.peer_tcount k 1 }) := by
  unfold addPeer
  rw [if_neg hl, if_neg (by omega),
    addPeer_scan_first p now ip p.num_peers 0 k (fun j _ hj => hnew j (by omega)) (by omega)
      (by omega) (by omega) hexp (fun j _ hj hj0 => hlow j (by omega) hj)]
  have hk : k ≠ 0 := by omega
  simp [hfull, hk]

/-- On a full table without expired index other than 0 `addPeer` of a new public
address changes nothing. -/
theorem addPeer_full_refuse (p : Peers) (now ip : Nat) (hfull : p.num_peers = MAX_PEERS)
    (hl : ip ≠ loopback_addr) (hp : isPrivateAddress ip = 0)
    (hnew : ∀ i, i < p.num_peers → p.peers i ≠ ip)
    (hlive : ∀ j, 1 ≤ j → j < MAX_PEERS → ¬ p.peer_timeouts j < (now : Int)) :
    addPeer p now ip = (0, p) := by
  unfold addPeer
  rw [if_neg hl, if_neg (by omega),
    addPeer_scan_none p now ip p.num_peers 0 (fun j _ hj => hnew j (by omega))
      (fun j _ hj hj0 => hlive j (by omega) (by omega))]
  simp [hfull]

/-- C15: for every full peer table (`num_peers = 3072`) and every public address not
in the table, `addPeer` returns 1 iff some index `i` with `1 <= i < 3072` has
`peer_timeouts[i] < now`; when it succeeds the address replaces the entry at the
lowest such index (expiry `now + 10800`, count 1); `num_peers` stays 3072, and on
failure the table is unchanged. -/
theorem addPeer_full (p : Peers) (now ip : Nat) (hfull : p.num_peers = MAX_PEERS)
    (hl : ip ≠ loopback_addr) (hp : isPrivateAddress ip = 0)
    (hnew : ∀ i, i < p.num_peers → p.peers i ≠ ip) :
    ((addPeer p now ip).1 = 1 ↔
      ∃ i, 1 ≤ i ∧ i < MAX_PEERS ∧ p.peer_timeouts i < (now : Int)) ∧
    (∀ k, 1 ≤ k → k < MAX_PEERS → p.peer_timeouts k < (now : Int) →
      (∀ j, 1 ≤ j → j < k → ¬ p.peer_timeouts j < (now : Int)) →
      (addPeer p now ip).2.peers = Function.update p.peers k ip ∧
      (addPeer p now ip).2.peer_timeouts = Function.update p.peer_timeouts k (peer_expiry now) ∧
      (addPeer p now ip).2.peer_tcount = Function.update p.peer_tcount k 1) ∧
    ((addPeer p now ip).1 ≠ 1 → (addPeer p now ip).2 = p) ∧
    (addPeer p now ip).2.num_peers = MAX_PEERS := by
  by_cases hex : ∃ i, 1 ≤ i ∧ i < MAX_PEERS ∧ p.peer_timeouts i < (now : Int)
  · obtain ⟨k1, k2, k3⟩ := Nat.find_spec hex
    have kmin : ∀ j, 1 ≤ j → j < Nat.find hex → ¬ p.peer_timeouts j < (now : Int) := by
      intro j hj1 hj2 hj3
      exact Nat.find_min hex hj2 ⟨hj1, by omega, hj3⟩
    have hr := addPeer_full_replace p now ip (Nat.find hex) hfull hl hp hnew k1 k2 k3 kmin
    refine ⟨⟨fun _ => hex, fun _ => by rw [hr]⟩, ?_, fun h => absurd (by rw [hr]) h,
      by rw [hr]; exact hfull⟩
    intro k hk1 hk2 hk3 hklow
    rw [addPeer_full_replace p now ip k hfull hl hp hnew hk1 hk2 hk3 hklow]
    exact ⟨rfl, rfl, rfl⟩
  · have hlive : ∀ j, 1 ≤ j → j < MAX_PEERS → ¬ p.peer_timeouts j < (now : Int) :=
      fun j h1 h2 h3 => hex ⟨j, h1, h2, h3⟩
    have hr := addPeer_full_refuse p now ip hfull hl hp hnew hlive
    refine ⟨⟨fun h => ?_, fun h => absurd h hex⟩, ?_, fun _ => by rw [hr],
      by rw [hr]; exact hfull⟩
    · rw [hr] at h
      exact absurd h (by simp)
    · intro k hk1 hk2 hk3 _
      exact absurd hk3 (hlive k hk1 hk2)

theorem peers_full_new : ∀ i, i < peers_full.num_peers → peers_full.peers i ≠ ipv4 9 9 9 9 := by
  intro i _
  show (if i = 0 then master_addr else ipv4 8 0 (i / 256) (i % 256)) ≠ ipv4 9 9 9 9
  split
  · decide
  · simp only [ipv4]
    omega

/-- Witness for C15: on `peers_full` only index 5 has expired at time 100, and the
new address 9.9.9.9 replaces it. -/
theorem addPeer_full_witness :
    (addPeer peers_full 100 (ipv4 9 9 9 9)).1 = 1 ∧
    (addPeer peers_full 100 (ipv4 9 9 9 9)).2.peers
      = Function.update peers_full.peers 5 (ipv4 9 9 9 9) ∧
    (addPeer peers_full 100 (ipv4 9 9 9 9)).2.num_peers = MAX_PEERS :=
  ⟨(addPeer_full peers_full 100 (ipv4 9 9 9 9) rfl (by decide) (by decide) peers_full_new).1.mpr
      ⟨5, by decide, by decide, by decide⟩,
   ((addPeer_full peers_full 100 (ipv4 9 9 9 9) rfl (by decide) (by decide) peers_full_new).2.1
      5 (by decide) (by decide) (by decide)
      (fun j h1 h2 => by
        show ¬ (if j = 5 then (50 : Int) else 1000) < ((100 : Nat) : Int)
        rw [if_neg (by omega)]
        decide)).1,
   (addPeer_full peers_full 100 (ipv4 9 9 9 9) rfl (by decide) (by decide) peers_full_new).2.2.2⟩

/-! ## Master slot -/

/-- Function `addPeer` never writes index 0 of `peers`, never lowers `num_peers` and
never writes `peer_ua`. -/
theorem addPeer_master (p : Peers) (now ip : Nat) (h1 : 1 ≤ p.num_peers) :
    (addPeer p now ip).2.peers 0 = p.peers 0 ∧ 1 ≤ (addPeer p now ip).2.num_peers ∧
    (addPeer p now ip).2.peer_ua = p.peer_ua := by
  unfold addPeer
  by_cases hl : ip = loopback_addr
  · simp [hl, h1]
  · by_cases hp : isPrivateAddress ip = 1
    · simp [hl, hp, h1]
    · simp only [hl, hp, if_false]
      cases addPeer_scan p now ip p.num_peers 0 0 with
      | inl i => exact ⟨rfl, h1, rfl⟩
      | inr fi =>
        show ((if p.num_peers < MAX_PEERS then _ else _ : Nat × Peers)).2.peers 0 = _ ∧
          1 ≤ ((if p.num_peers < MAX_PEERS then _ else _ : Nat × Peers)).2.num_peers ∧
          ((if p.num_peers < MAX_PEERS then _ else _ : Nat × Peers)).2.peer_ua = _
        by_cases hn : p.num_peers < MAX_PEERS
        · rw [if_pos hn]
          refine ⟨?_, Nat.le_succ_of_le h1, rfl⟩
          exact Function.update_noteq (by omega) _ _
        · rw [if_neg hn]
          by_cases hf : fi ≠ 0
          · rw [if_pos hf]
            refine ⟨?_, h1, rfl⟩
            exact Function.update_noteq (Ne.symm hf) _ _
          · rw [if_neg hf]
            exact ⟨rfl, h1, rfl⟩

/-- What the scan of `getPeer` returns: -1, or an index from `i` on that holds `ip`. -/
theorem getPeer_scan_cases (peers : Nat → Nat) (ip : Nat) :
    ∀ (n i : Nat), getPeer_scan peers ip n i = -1 ∨
      ∃ j, i ≤ j ∧ peers j = ip ∧ getPeer_scan peers ip n i = (j : Int) := by
  intro n
  induction n with
  | zero => intro i; left; rfl
  | succ n ih =>
    intro i
    unfold getPeer_scan
    by_cases h : peers i = ip
    · right; exact ⟨i, le_refl i, h, by rw [if_pos h]⟩
    · rw [if_neg h]
      rcases ih (i + 1) with h1 | ⟨j, hj1, hj2, hj3⟩
      · left; exact h1
      · right; exact ⟨j, by omega, hj2, hj3⟩

/-- A user-agent datagram leaves `peers` and `num_peers` alone, and `peer_ua[0]` too
unless its source address is `peers[0]`. -/
theorem ua_datagram_master (p : Peers) (src : Nat) (rb : List Nat) :
    (ua_datagram p src rb).peers = p.peers ∧
    (ua_datagram p src rb).num_peers = p.num_peers ∧
    (src ≠ p.peers 0 → (ua_datagram p src rb).peer_ua 0 = p.peer_ua 0) := by
  unfold ua_datagram
  by_cases hi : getPeer p src ≠ -1
  · simp only [hi, if_true, ne_eq, not_false_eq_true, true_and]
    intro hsrc
    rcases getPeer_scan_cases p.peers src p.num_peers 0 with h | ⟨j, _, hj2, hj3⟩
    · exact absurd h hi
    · have hj0 : j ≠ 0 := by
        intro h0
        subst h0
        exact hsrc hj2.symm
      have : (getPeer p src).toNat = j := by
        unfold getPeer
        rw [hj3]
        simp
      rw [this]
      exact Function.update_noteq (Ne.symm hj0) _ _
  · simp only [hi, if_false, true_and]
    intro _
    trivial

/-- Index 0 of `peers` survives every sequence of events; `peer_ua[0]` survives
every sequence without a user-agent datagram from the address in `peers[0]`. -/
theorem run_events_master (evs : List PeerEvent) :
    ∀ p : Peers, 1 ≤ p.num_peers →
      (run_events p evs).peers 0 = p.peers 0 ∧
      ((∀ src rb, PeerEvent.ua src rb ∈ evs → src ≠ p.peers 0) →
        (run_events p evs).peer_ua 0 = p.peer_ua 0) := by
  induction evs with
  | nil => intro p _; exact ⟨rfl, fun _ => rfl⟩
  | cons ev rest ih =>
    intro p h1
    cases ev with
    | add now ip =>
      obtain ⟨a1, a2, a3⟩ := addPeer_master p now ip h1
      obtain ⟨i1, i2⟩ := ih (addPeer p now ip).2 a2
      refine ⟨by rw [run_events, i1, a1], fun hsrc => ?_⟩
      rw [run_events, i2 (fun src rb hm => by rw [a1]; exact hsrc src rb (by simp [hm])), a3]
    | ua src rb =>
      obtain ⟨u1, u2, u3⟩ := ua_datagram_master p src rb
      obtain ⟨i1, i2⟩ := ih (ua_datagram p src rb) (by rw [u2]; exact h1)
      refine ⟨by rw [run_events, i1, u1], fun hsrc => ?_⟩
      rw [run_events, i2 (fun s r hm => by rw [u1]; exact hsrc s r (by simp [hm])),
        u3 (hsrc src rb (by simp))]

theorem setMasterNode_slot (p : Peers) :
    (setMasterNode p).peers 0 = master_addr ∧ (setMasterNode p).num_peers = 1 ∧
    cstr ((setMasterNode p).peer_ua 0) = master_ua := by
  refine ⟨by simp [setMasterNode], rfl, ?_⟩
  simp [setMasterNode, cstr, master_ua, List.takeWhile]

/-- C16 (as the claim states it, refuted): after `setMasterNode`, one user-agent
datagram `"ax"` whose source address is the master address leaves `"x"` in
`peer_ua[0]`. -/
theorem master_ua_counterexample :
    (run_events peers0 [PeerEvent.ua master_addr [97, 120]]).peers 0 = master_addr ∧
    cstr ((run_events peers0 [PeerEvent.ua master_addr [97, 120]]).peer_ua 0) = [120] ∧
    cstr ((run_events peers0 [PeerEvent.ua master_addr [97, 120]]).peer_ua 0) ≠ master_ua := by
  have hg : getPeer peers0 master_addr = 0 := by
    simp [getPeer, getPeer_scan, peers0, setMasterNode]
  have hua : (run_events peers0 [PeerEvent.ua master_addr [97, 120]]).peer_ua 0
      = (([97, 120] ++ List.replicate RECV_BUFF_SIZE 0).drop 1).take 63 ++ [0] := by
    simp only [run_events, ua_datagram, hg]
    simp
  have hp : (run_events peers0 [PeerEvent.ua master_addr [97, 120]]).peers 0 = master_addr := by
    simp only [run_events, ua_datagram, hg]
    simp [peers0, setMasterNode]
  refine ⟨hp, ?_, ?_⟩
  · rw [hua]
    simp [cstr, List.takeWhile]
  · rw [hua]
    simp [cstr, List.takeWhile, master_ua]

/-- C16 (amended): starting from the state produced by `setMasterNode`, after any
sequence of `addPeer` calls and user-agent datagrams, `peers[0]` equals the master
address; `peer_ua[0]` equals `"VFC-MASTER"` provided no user-agent datagram of the
sequence has the master address as its source. -/
theorem master_slot (p : Peers) (evs : List PeerEvent) :
    (run_events (setMasterNode p) evs).peers 0 = master_addr ∧
    ((∀ src rb, PeerEvent.ua src rb ∈ evs → src ≠ master_addr) →
      cstr ((run_events (setMasterNode p) evs).peer_ua 0) = master_ua) := by
  obtain ⟨s1, s2, s3⟩ := setMasterNode_slot p
  obtain ⟨r1, r2⟩ := run_events_master evs (setMasterNode p) (by omega)
  refine ⟨by rw [r1, s1], fun h => ?_⟩
  rw [r2 (fun src rb hm => by rw [s1]; exact h src rb hm), s3]

/-- Witness for C16: a peer is added and sends its user agent. -/
theorem master_slot_witness :
    (run_events (setMasterNode peers0)
      [PeerEvent.add 100 (ipv4 9 9 9 9), PeerEvent.ua (ipv4 9 9 9 9) [97, 120]]).peers 0
        = master_addr ∧
    cstr ((run_events (setMasterNode peers0)
      [PeerEvent.add 100 (ipv4 9 9 9 9), PeerEvent.ua (ipv4 9 9 9 9) [97, 120]]).peer_ua 0)
        = master_ua :=
  ⟨(master_slot peers0
      [PeerEvent.add 100 (ipv4 9 9 9 9), PeerEvent.ua (ipv4 9 9 9 9) [97, 120]]).1,
   (master_slot peers0
      [PeerEvent.add 100 (ipv4 9 9 9 9), PeerEvent.ua (ipv4 9 9 9 9) [97, 120]]).2
      (fun src rb hm => by
        simp only [List.mem_cons, List.mem_singleton, reduceCtorEq, false_or,
          PeerEvent.ua.injEq, List.not_mem_nil, or_false] at hm
        rw [hm.1]
        decide)⟩

/-! ## Fan-out of `triBroadcast` -/

/-- The search for a living peer, given enough rounds, stops at the first living
index from `si` on or runs to `num_peers` past dead peers only. -/
theorem tri_search_spec (p : Peers) (now : Nat) :
    ∀ (n si : Nat), si < p.num_peers → p.num_peers ≤ si + n →
      si ≤ tri_search p now n si ∧ tri_search p now n si ≤ p.num_peers ∧
      (tri_search p now n si < p.num_peers → peer_living p now (tri_search p now n si) = true) ∧
      (∀ j, si ≤ j → j < tri_search p now n si → peer_living p now j = false) := by
  intro n
  induction n with
  | zero => intro si h1 h2; omega
  | succ n ih =>
    intro si h1 h2
    unfold tri_search
    by_cases hl : peer_living p now si = true
    · rw [if_pos hl]
      exact ⟨le_refl si, by omega, fun _ => hl, fun j a b => by omega⟩
    · rw [if_neg hl]
      have hdead : peer_living p now si = false := by simpa using hl
      by_cases hs : si + 1 < p.num_peers
      · rw [if_pos hs]
        obtain ⟨i1, i2, i3, i4⟩ := ih (si + 1) hs (by omega)
        refine ⟨by omega, i2, i3, fun j a b => ?_⟩
        by_cases hj : j = si
        · rw [hj]; exact hdead
        · exact i4 j (by omega) b
      · rw [if_neg hs]
        refine ⟨by omega, by omega, fun h => by omega, fun j a b => ?_⟩
        have hj : j = si := by omega
        rw [hj]; exact hdead

/-- With at most three peers `triBroadcast` also sends to `peers[num_peers]`, the slot
after the last registered one. -/
theorem triBroadcast_small (p : Peers) (now r1 r2 : Nat) (h : p.num_peers ≤ 3) :
    triBroadcast p now r1 r2 = (List.range p.num_peers).map (fun i => p.peers (i + 1)) := by
  unfold triBroadcast
  have h3 : ¬ p.num_peers > 3 := by omega
  rw [if_neg h3]
  have : p.num_peers = 0 ∨ p.num_peers = 1 ∨ p.num_peers = 2 ∨ p.num_peers = 3 := by omega
  rcases this with e | e | e | e <;> rw [e] <;> rfl

/-- C17 (as the claim states it, refuted): `peers5` holds more than three peers, none
of them living at time 100; `triBroadcast` sends the packet to `peers[2]`, which is
not a living peer. -/
theorem triBroadcast_counterexample :
    peers5.num_peers > 3 ∧
    triBroadcast peers5 100 1 2 = [peers5.peers 2] ∧
    peer_living peers5 100 2 = false := by
  refine ⟨by decide, by decide, by decide⟩

/-- C17 (amended): with at most three peers `triBroadcast` sends the packet to each
registered peer other than the master (indices `1 .. num_peers-1`); with more than
three peers it sends exactly one packet, to a registered peer other than the master:
the first living peer at or after the random start index, or, when no peer from there
on is living, the peer at a second random index, living or not. -/
theorem triBroadcast_targets (p : Peers) (now r1 r2 : Nat) :
    (p.num_peers ≤ 3 →
      ∀ i, 1 ≤ i → i < p.num_peers → p.peers i ∈ triBroadcast p now r1 r2) ∧
    (p.num_peers > 3 → 1 ≤ r1 → r1 < p.num_peers → 1 ≤ r2 → r2 < p.num_peers →
      ∃ j, 1 ≤ j ∧ j < p.num_peers ∧ triBroadcast p now r1 r2 = [p.peers j] ∧
        (∀ i, r1 ≤ i → i < p.num_peers → peer_living p now i = true →
          peer_living p now j = true ∧ r1 ≤ j ∧ j ≤ i) ∧
        ((∀ i, r1 ≤ i → i < p.num_peers → peer_living p now i = false) → j = r2)) := by
  constructor
  · intro h i h1 h2
    rw [triBroadcast_small p now r1 r2 h, List.mem_map]
    exact ⟨i - 1, List.mem_range.mpr (by omega), by congr 1; omega⟩
  · intro h a1 a2 b1 b2
    obtain ⟨s1, s2, s3, s4⟩ := tri_search_spec p now p.num_peers r1 a2 (by omega)
    unfold triBroadcast
    rw [if_pos h]
    by_cases he : tri_search p now p.num_peers r1 = p.num_peers
    · refine ⟨r2, b1, b2, by simp [he], fun i c1 c2 c3 => ?_, fun _ => rfl⟩
      have := s4 i c1 (by omega)
      rw [this] at c3
      exact absurd c3 (by decide)
    · have hlt : tri_search p now p.num_peers r1 < p.num_peers := by omega
      refine ⟨tri_search p now p.num_peers r1, by omega, hlt, by simp [he],
        fun i c1 c2 c3 => ⟨s3 hlt, s1, ?_⟩, fun hall => ?_⟩
      · by_contra hc
        have := s4 i c1 (by omega)
        rw [this] at c3
        exact absurd c3 (by decide)
      · have := hall _ s1 hlt
        rw [s3 hlt] at this
        exact absurd this (by decide)

/-- Witness for C17: on `peers5b` the search from index 2 finds the living peer 3. -/
theorem triBroadcast_targets_witness :
    ∃ j, 1 ≤ j ∧ j < peers5b.num_peers ∧ triBroadcast peers5b 100 2 1 = [peers5b.peers j] ∧
      (∀ i, 2 ≤ i → i < peers5b.num_peers → peer_living peers5b 100 i = true →
        peer_living peers5b 100 j = true ∧ 2 ≤ j ∧ j ≤ i) ∧
      ((∀ i, 2 ≤ i → i < peers5b.num_peers → peer_living peers5b 100 i = false) → j = 1) :=
  (triBroadcast_targets peers5b 100 2 1).2 (by decide) (by decide) (by decide) (by decide)
    (by decide)

/-! ## Dequeue -/

theorem gQue_down_sound (queue : List QEntry) (now : Nat) :
    ∀ (mi i : Nat), gQue_down queue now mi = some i →
      ∃ q, queue[i]? = some q ∧ gQue_ready now q = true := by
  intro mi
  induction mi with
  | zero => intro i h; simp [gQue_down] at h
  | succ m ih =>
    intro i h
    unfold gQue_down at h
    by_cases hr : (queue[m + 1]?).any (gQue_ready now) = true
    · rw [if_pos hr] at h
      cases h
      cases hq : queue[m + 1]? with
      | none => rw [hq] at hr; simp at hr
      | some q => rw [hq] at hr; exact ⟨q, rfl, by simpa using hr⟩
    · rw [if_neg hr] at h
      exact ih i h

theorem gQue_up_sound (now : Nat) :
    ∀ (l : List QEntry) (k i : Nat), gQue_up now l k = some i →
      ∃ j q, i = k + j ∧ l[j]? = some q ∧ gQue_ready now q = true := by
  intro l
  induction l with
  | nil => intro k i h; simp [gQue_up] at h
  | cons x xs ih =>
    intro k i h
    unfold gQue_up at h
    by_cases hr : gQue_ready now x = true
    · rw [if_pos hr] at h
      cases h
      exact ⟨0, x, rfl, by simp, hr⟩
    · rw [if_neg hr] at h
      obtain ⟨j, q, h1, h2, h3⟩ := ih (k + 1) i h
      exact ⟨j + 1, q, by omega, by simpa using h2, h3⟩

/-- An index returned by `gQue` is that of an occupied slot that is flagged
`replay == 1` or older than two seconds. -/
theorem gQue_sound (queue : List QEntry) (now mi i : Nat) (h : gQue queue now mi = some i) :
    ∃ q, queue[i]? = some q ∧ q.tq.amount ≠ 0 ∧
      ((now : Int) - (q.delta : Int) > 2 ∨ q.replay = 1) := by
  have key : ∃ q, queue[i]? = some q ∧ gQue_ready now q = true := by
    unfold gQue at h
    cases hd : gQue_down queue now mi with
    | some k =>
      rw [hd] at h
      have hk : k = i := by simpa using h
      rw [hk] at hd
      exact gQue_down_sound queue now mi i hd
    | none =>
      rw [hd] at h
      obtain ⟨j, q, h1, h2, h3⟩ := gQue_up_sound now _ mi i h
      refine ⟨q, ?_, h3⟩
      rw [List.getElem?_drop] at h2
      rw [h1]; exact h2
  obtain ⟨q, h1, h2⟩ := key
  refine ⟨q, h1, ?_⟩
  simpa [gQue_ready] using h2

/-- C18 (fails on the code): slot 0 of `node7` holds a live record (`amount != 0`,
`replay == 1`), so it meets the condition, and every other slot is free; with the
start index 1 `gQue` returns -1. -/
theorem gQue_skips_slot_zero :
    node7.queue[0]? = some slotA ∧ slotA.tq.amount ≠ 0 ∧ slotA.replay = 1 ∧
    gQue node7.queue 101 1 = none := by
  refine ⟨node7_slot0, by decide, rfl, ?_⟩
  have hrest : ∀ q ∈ List.replicate (MAX_TRANS_QUEUE - 1) emptyQ, gQue_ready 101 q = false := by
    intro q hq
    rw [(List.mem_replicate.mp hq).2]
    rfl
  have hdown : gQue_down node7.queue 101 1 = none := by
    unfold gQue_down
    rw [node7_slot1]
    simp [gQue_ready, emptyQ, gQue_down]
  unfold gQue
  rw [hdown]
  exact gQue_up_none 101 _ 1 hrest

/-! ## Replay authorisation -/

/-- The loop of the `'p'` handler finds the source exactly among the entries before
the first zero entry. -/
theorem replay_allow_scan_iff (src : Nat) :
    ∀ l : List Nat, replay_allow_scan src l = true ↔
      ∃ i : Nat, l[i]? = some src ∧ ∀ (j : Nat) (e : Nat), j ≤ i → l[j]? = some e → e ≠ 0 := by
  intro l
  induction l with
  | nil => simp [replay_allow_scan]
  | cons x xs ih =>
    unfold replay_allow_scan
    by_cases hx : x ≠ 0
    · rw [if_pos hx]
      simp only [Bool.or_eq_true, decide_eq_true_eq, ih]
      constructor
      · rintro (h | ⟨i, h1, h2⟩)
        · refine ⟨0, by simp [h], fun j e hj he => ?_⟩
          have hj0 : j = 0 := by omega
          subst hj0
          have : x = e := by simpa using he
          rw [← this]; exact hx
        · refine ⟨i + 1, by simpa using h1, fun j e hj he => ?_⟩
          cases j with
          | zero =>
            have : x = e := by simpa using he
            rw [← this]; exact hx
          | succ j => exact h2 j e (by omega) (by simpa using he)
      · rintro ⟨i, h1, h2⟩
        cases i with
        | zero => left; simpa using h1.symm
        | succ i =>
          right
          exact ⟨i, by simpa using h1, fun j e hj he => h2 (j + 1) e (by omega) (by simpa using he)⟩
    · rw [if_neg hx]
      have hx0 : x = 0 := by simpa using hx
      constructor
      · intro h; exact absurd h (by simp)
      · rintro ⟨i, _, h2⟩
        exact absurd hx0 (h2 0 x (by omega) (by simp))

/-- C19 (as the claim states it, refuted): 9.9.9.9 is the second entry of
`replay_allow[]`, after a zero entry; it is neither the master nor 127.0.0.1; the
handler leaves `allow` at 0 and the node state is untouched. -/
theorem p_allow_counterexample :
    rallow_gap.length = MAX_RALLOW ∧ rallow_gap[1]? = some (ipv4 9 9 9 9) ∧
    p_allow master_addr rallow_gap (ipv4 9 9 9 9) = 0 := by
  refine ⟨?_, by simp [rallow_gap], by decide⟩
  simp only [rallow_gap, List.length_cons, List.length_replicate, MAX_RALLOW]

/-- C19 (amended): for every content of `replay_allow[]` and every source address,
the listener passes a well-sized `'p'` datagram to `aQue` iff the source is 127.0.0.1,
is the master (`peers[0]`), or equals an entry of `replay_allow[]` that has no zero
entry at or before it; otherwise the node state is untouched. -/
theorem p_allow_iff (s : Node) (now peers0 : Nat) (replay_allow : List Nat) (src : Nat)
    (t : trans) :
    (p_allow peers0 replay_allow src = 1 ↔
      (src = loopback_addr ∨ src = peers0 ∨
        ∃ i : Nat, replay_allow[i]? = some src ∧
          ∀ (j : Nat) (e : Nat), j ≤ i → replay_allow[j]? = some e → e ≠ 0)) ∧
    (p_allow peers0 replay_allow src = 1 →
      p_datagram s now peers0 replay_allow src t = (aQue s now t 0 0 0).2) ∧
    (p_allow peers0 replay_allow src ≠ 1 →
      p_datagram s now peers0 replay_allow src t = s) := by
  refine ⟨?_, fun h => by simp [p_datagram, h], fun h => by simp [p_datagram, h]⟩
  unfold p_allow
  by_cases h1 : src = loopback_addr ∨ src = peers0
  · rw [if_pos h1]
    simp only [true_iff]
    rcases h1 with h | h
    · exact Or.inl h
    · exact Or.inr (Or.inl h)
  · rw [if_neg h1]
    have hn1 : ¬ src = loopback_addr := fun h => h1 (Or.inl h)
    have hn2 : ¬ src = peers0 := fun h => h1 (Or.inr h)
    by_cases hs : replay_allow_scan src replay_allow = true
    · rw [if_pos hs]
      simp only [true_iff]
      exact Or.inr (Or.inr ((replay_allow_scan_iff src replay_allow).mp hs))
    · rw [if_neg hs]
      constructor
      · intro h; exact absurd h (by decide)
      · rintro (h | h | h)
        · exact absurd h hn1
        · exact absurd h hn2
        · exact absurd ((replay_allow_scan_iff src replay_allow).mpr h) hs

/-- Witness for C19: 9.9.9.9 is the second entry, after a non-zero first entry. -/
theorem p_allow_iff_witness :
    p_allow master_addr rallow_ok (ipv4 9 9 9 9) = 1 ∧
    p_datagram node1 100 master_addr rallow_ok (ipv4 9 9 9 9) rec6
      = (aQue node1 100 rec6 0 0 0).2 :=
  ⟨(p_allow_iff node1 100 master_addr rallow_ok (ipv4 9 9 9 9) rec6).1.mpr
      (Or.inr (Or.inr ⟨1, by simp [rallow_ok], fun j e hj he => by
        have : j = 0 ∨ j = 1 := by omega
        rcases this with h | h <;> subst h <;> simp [rallow_ok] at he <;> rw [← he] <;> decide⟩)),
   (p_allow_iff node1 100 master_addr rallow_ok (ipv4 9 9 9 9) rec6).2.1 (by decide)⟩

/-! ## Replay of the ledger head -/

/-- On a non-empty ledger of any realistic size the loop of `replayHead` does not run:
the stream is the `'h'` packet alone, whatever `len` is. -/
theorem replayHead_header_only (chain : List trans) (len : Nat) (hne : chain ≠ [])
    (hsz : st_size chain * sizeof_trans < 2 ^ 64) :
    replayHead chain len = [Packet.h (st_size chain % 2 ^ 32)] := by
  have hlen : 0 < chain.length := List.length_pos.mpr hne
  have hs : sizeof_trans = 112 := rfl
  have hst : st_size chain = chain.length * 112 := by simp [st_size, hs]
  unfold replayHead
  simp only [hst, hs] at hsz ⊢
  have hpos : chain.length * 112 > 0 := by omega
  rw [if_pos hpos]
  unfold replayHead_loop
  have hB : (chain.length * 112 * 112) % 2 ^ 64 = chain.length * 112 * 112 :=
    Nat.mod_eq_of_lt hsz
  have hC : (chain.length * 112 + 2 ^ 64 - chain.length * 112 * 112) % 2 ^ 64
      = chain.length * 112 + 2 ^ 64 - chain.length * 112 * 112 :=
    Nat.mod_eq_of_lt (by omega)
  have hA : (chain.length * 112 + 2 ^ 64 - 112) % 2 ^ 64 = chain.length * 112 - 112 := by
    have : chain.length * 112 + 2 ^ 64 - 112 = (chain.length * 112 - 112) + 2 ^ 64 := by omega
    rw [this, Nat.add_mod_right]
    exact Nat.mod_eq_of_lt (by omega)
  have hstop : ¬ ((chain.length * 112 + 2 ^ 64 - 112) % 2 ^ 64 >
      (chain.length * 112 + 2 ^ 64 - (chain.length * 112 * 112) % 2 ^ 64) % 2 ^ 64) := by
    rw [hB, hC, hA]
    omega
  rw [if_neg hstop]
  rfl

/-- C20 (fails on the code): the ledger `chain3` has three records; `replayHead(ip, 2)`
should send the `'h'` packet and then `rec6` and `rec7`, the two most recent records;
it sends the `'h'` packet only. -/
theorem replayHead_sends_no_record :
    chain3.length > 2 ∧
    replayHead chain3 2 = [Packet.h 336] ∧
    replayHead_spec chain3 2 = [Packet.h 336, Packet.p rec6, Packet.p rec7] ∧
    replayHead chain3 2 ≠ replayHead_spec chain3 2 := by
  have h := replayHead_header_only chain3 2 (by decide) (by decide)
  have hs : replayHead_spec chain3 2 = [Packet.h 336, Packet.p rec6, Packet.p rec7] := by
    decide
  refine ⟨by decide, ?_, hs, ?_⟩
  · rw [h]; decide
  · rw [h, hs]; decide

/-! ## Ledger repair -/

theorem first_bad_ge (env : Env) :
    ∀ (l : List trans) (k j : Nat), first_bad env l k = some j → k ≤ j := by
  intro l
  induction l with
  | nil => intro k j h; simp [first_bad] at h
  | cons t rest ih =>
    intro k j h
    unfold first_bad at h
    split at h
    · have : k = j := by simpa using h
      omega
    · have := ih (k + 1) j h
      omega

/-- From a record boundary on, the loop of `truncate_at_error` finds the first record
whose signature fails, given rounds for every record left. -/
theorem truncate_loop_eq (env : Env) (chain : List trans)
    (hsz : st_size chain < 2 ^ 64) :
    ∀ (n j f : Nat), j + n = chain.length → n < f →
      truncate_loop env chain f (sizeof_trans * j)
        = (first_bad env (chain.drop j) j).map (fun k => sizeof_trans * k) := by
  have hs : sizeof_trans = 112 := rfl
  have hst : st_size chain = chain.length * 112 := by simp [st_size, hs]
  intro n
  induction n with
  | zero =>
    intro j f hj hf
    have hj1 : j = chain.length := by omega
    obtain ⟨g, rfl⟩ : ∃ g, f = g + 1 := ⟨f - 1, by omega⟩
    unfold truncate_loop
    have : ¬ sizeof_trans * j < st_size chain := by rw [hst, hs, hj1]; omega
    rw [if_neg this, hj1, List.drop_length]
    rfl
  | succ n ih =>
    intro j f hj hf
    have hjlt : j < chain.length := by omega
    obtain ⟨g, rfl⟩ : ∃ g, f = g + 1 := ⟨f - 1, by omega⟩
    unfold truncate_loop
    have h1 : sizeof_trans * j < st_size chain := by rw [hst, hs]; omega
    have h2 : sizeof_trans * j / sizeof_trans = j := Nat.mul_div_cancel_left j (by decide)
    rw [if_pos h1, h2, List.getElem?_eq_getElem hjlt, List.drop_eq_getElem_cons hjlt]
    simp only [first_bad]
    by_cases hb : sig_ok env chain[j] = false
    · rw [if_pos hb, if_pos hb]
      rfl
    · rw [if_neg hb, if_neg hb]
      have h3 : (sizeof_trans * j + sizeof_trans) % 2 ^ 64 = sizeof_trans * (j + 1) := by
        rw [Nat.mod_eq_of_lt]
        · rw [Nat.mul_succ]
        · rw [hst] at hsz
          rw [hs]
          omega
      rw [h3]
      exact ih (j + 1) g (by omega) (by omega)

/-- With a limit of at most the height the ledger left is that of the specification. -/
theorem truncate_at_error_le (env : Env) (chain : List trans) (num : Nat)
    (hsz : st_size chain < 2 ^ 64) (hnum : num ≤ chain.length) :
    truncate_at_error env chain num = truncate_spec env chain num := by
  have hs : sizeof_trans = 112 := rfl
  have hst : st_size chain = chain.length * 112 := by simp [st_size, hs]
  have hlen : st_size chain / sizeof_trans = chain.length := by
    rw [hst, hs]; exact Nat.mul_div_cancel _ (by decide)
  have hk : (chain.length + 2 ^ 64 - num) % 2 ^ 64 = chain.length - num := by
    have : chain.length + 2 ^ 64 - num = (chain.length - num) + 2 ^ 64 := by omega
    rw [this, Nat.add_mod_right]
    exact Nat.mod_eq_of_lt (by rw [hst] at hsz; omega)
  have hi0 : (sizeof_trans * (chain.length - num)) % 2 ^ 64
      = sizeof_trans * (chain.length - num) := by
    apply Nat.mod_eq_of_lt
    rw [hst] at hsz
    rw [hs]
    omega
  have hmin : min num chain.length = num := Nat.min_eq_left hnum
  have hloop := truncate_loop_eq env chain hsz num (chain.length - num) (chain.length + 1)
    (by omega) (by omega)
  unfold truncate_at_error truncate_spec
  simp only [hlen, hk, hi0, hmin, hloop]
  cases first_bad env (chain.drop (chain.length - num)) (chain.length - num) with
  | none => rfl
  | some j =>
    simp only [Option.map_some']
    rw [Nat.mul_div_cancel_left j (by decide)]

/-- With a limit above the height the start offset wraps past the end of the file and
no record is examined. -/
theorem truncate_at_error_gt (env : Env) (chain : List trans) (num : Nat)
    (hsz : st_size chain + 2 ^ 39 ≤ 2 ^ 64) (hnum : num < 2 ^ 32)
    (hgt : chain.length < num) :
    truncate_at_error env chain num = chain := by
  have hs : sizeof_trans = 112 := rfl
  have hst : st_size chain = chain.length * 112 := by simp [st_size, hs]
  have hlen : st_size chain / sizeof_trans = chain.length := by
    rw [hst, hs]; exact Nat.mul_div_cancel _ (by decide)
  have hk : (chain.length + 2 ^ 64 - num) % 2 ^ 64 = 2 ^ 64 - (num - chain.length) := by
    have : chain.length + 2 ^ 64 - num = 2 ^ 64 - (num - chain.length) := by omega
    rw [this]
    exact Nat.mod_eq_of_lt (by omega)
  have hi0 : (sizeof_trans * (2 ^ 64 - (num - chain.length))) % 2 ^ 64
      = 2 ^ 64 - 112 * (num - chain.length) := by
    have h1 : sizeof_trans * (2 ^ 64 - (num - chain.length))
        = (2 ^ 64 - 112 * (num - chain.length)) + 111 * 2 ^ 64 := by
      rw [hs]; omega
    rw [h1, Nat.add_mul_mod_self_right]
    exact Nat.mod_eq_of_lt (by omega)
  have hno : ¬ 2 ^ 64 - 112 * (num - chain.length) < st_size chain := by omega
  unfold truncate_at_error
  simp only [hlen, hk, hi0]
  unfold truncate_loop
  rw [if_neg hno]

/-- For a ledger of `h` records below 2^64 - 2^39 bytes and a limit below 2^32:
`truncate_at_error` with a limit of at most `h` examines the last `limit` records and
cuts the file at the first one whose signature fails, or leaves it unchanged when none
fails; with a limit above `h` it examines no record and leaves the file unchanged; in
both cases the records before the last `limit` ones are kept. -/
theorem truncate_at_error_cases (env : Env) (chain : List trans) (num : Nat)
    (hsz : st_size chain + 2 ^ 39 ≤ 2 ^ 64) (hnum : num < 2 ^ 32) :
    (num ≤ chain.length →
      truncate_at_error env chain num = truncate_spec env chain num) ∧
    (chain.length < num → truncate_at_error env chain num = chain) ∧
    (truncate_at_error env chain num).take (chain.length - num)
      = chain.take (chain.length - num) := by
  refine ⟨fun h => truncate_at_error_le env chain num (by omega) h,
    fun h => truncate_at_error_gt env chain num hsz hnum h, ?_⟩
  by_cases h : num ≤ chain.length
  · rw [truncate_at_error_le env chain num (by omega) h]
    unfold truncate_spec
    simp only [Nat.min_eq_left h]
    cases hb : first_bad env (chain.drop (chain.length - num)) (chain.length - num) with
    | none => rfl
    | some j =>
      have := first_bad_ge env _ _ _ hb
      simp only [List.take_take]
      rw [Nat.min_eq_left this]
  · rw [truncate_at_error_gt env chain num hsz hnum (by omega)]

/-- On `chain3` with limit 1 the last record, sent by `key 4`, fails the signature
check of `env2` and is cut off. -/
theorem truncate_at_error_last :
    truncate_at_error env2 chain3 1 = makGenesis env1 ++ [rec7] := by
  rw [(truncate_at_error_cases env2 chain3 1 (by decide) (by decide)).1 (by decide)]
  decide

/-- C21: on the ledger of three records `chain3` with limit 5, where the signature of
the last record fails, `truncate_at_error` leaves all three records in the file, while
examining the last `min(5, 3)` records cuts the file at the last record. -/
theorem truncate_at_error_short_ledger :
    chain3.length = 3 ∧ sig_ok env2 rec6 = false ∧
    truncate_at_error env2 chain3 5 = chain3 ∧
    truncate_spec env2 chain3 5 = makGenesis env1 ++ [rec7] := by
  refine ⟨rfl, by decide, ?_, by decide⟩
  exact truncate_at_error_gt env2 chain3 5 (by decide) (by decide) (by decide)

/-! ## Colliding uids in the filter -/

/-- C23: the projection `idfar` of every uid is 1; hence for two uids with the same
remainder modulo 11111101, `has_uid` of the second returns 1 at every time before
the expiry of the bucket written by `add_uid` of the first, and that expiry is
`t0 + w` (modulo 2^32) when the bucket had expired at `t0`. -/
theorem uid_projection_collides (sites : Nat → site) (u1 u2 t0 w now1 : Nat)
    (hcol : u1 % 11111101 = u2 % 11111101)
    (hwin : now1 < (add_uid t0 u1 w sites (u1 % 11111101)).expire_epoch) :
    idfar u1 = 1 ∧ idfar u2 = 1 ∧
    (has_uid now1 u2 (add_uid t0 u1 w sites)).1 = 1 ∧
    (t0 ≥ (sites (u1 % 11111101)).expire_epoch →
      (add_uid t0 u1 w sites (u1 % 11111101)).expire_epoch = (t0 + w) % 2 ^ 32) := by
  have hM : MAX_SITES = 11111101 := rfl
  obtain ⟨h1, h2, h3, _⟩ := add_uid_bucket t0 u1 w sites
  rw [hM] at h1 h2 h3
  refine ⟨idfar_eq u1, idfar_eq u2, ?_, ?_⟩
  · rw [has_uid_eq_one_iff, hM, ← hcol]
    exact ⟨hwin, by omega, h2⟩
  · intro hexp
    rw [h3, if_pos hexp]

/-- Witness for C23: uids 5 and 11111106 share bucket 5 of the fresh filter; after
`add_uid` of the first at time 100 the second is reported at time 200. -/
theorem uid_projection_collides_witness :
    idfar 5 = 1 ∧ idfar 11111106 = 1 ∧
    (has_uid 200 11111106 (add_uid 100 5 32400 init_sites)).1 = 1 ∧
    (100 ≥ (init_sites (5 % 11111101)).expire_epoch →
      (add_uid 100 5 32400 init_sites (5 % 11111101)).expire_epoch
        = (100 + 32400) % 2 ^ 32) :=
  uid_projection_collides init_sites 5 11111106 100 32400 200 (by decide) (by decide)

/-! ## The two read paths of `hasbalance` -/

theorem hasbalance_fread_loop_hit (uid : Nat) (frm : addr) (x : trans) (hx : x.uid = uid) :
    ∀ (pre post : List trans) (rv : Int),
      hasbalance_fread_loop uid frm rv (pre ++ x :: post) = none := by
  intro pre
  induction pre with
  | nil =>
    intro post rv
    simp [hasbalance_fread_loop, hx]
  | cons r rest ih =>
    intro post rv
    simp only [List.cons_append, hasbalance_fread_loop]
    split
    · rfl
    · exact ih post _

theorem hasbalance_fread_loop_clean (uid : Nat) (frm : addr) :
    ∀ (chain : List trans) (rv : Int), (∀ r ∈ chain, r.uid ≠ uid) →
      hasbalance_fread_loop uid frm rv chain = some (chain.foldl (bal_step_fread frm) rv) := by
  intro chain
  induction chain with
  | nil => intro rv _; rfl
  | cons r rest ih =>
    intro rv hc
    simp only [hasbalance_fread_loop, List.foldl_cons]
    rw [if_neg (hc r (by simp))]
    exact ih _ (fun q hq => hc q (by simp [hq]))

/-- Without records that credit and debit the same key the two balance updates fold
to the same value. -/
theorem foldl_bal_step_fread (frm : addr) :
    ∀ (chain : List trans) (rv : Int),
      (∀ r ∈ chain, ¬ (r.from_ = frm ∧ r.to_ = frm)) →
      chain.foldl (bal_step_fread frm) rv = chain.foldl (bal_step frm) rv := by
  intro chain
  induction chain with
  | nil => intro rv _; rfl
  | cons r rest ih =>
    intro rv hself
    have hr := hself r (by simp)
    have hstep : bal_step_fread frm rv r = bal_step frm rv r := by
      unfold bal_step_fread bal_step
      by_cases h1 : r.to_ = frm
      · have h2 : ¬ r.from_ = frm := fun h => hr ⟨h, h1⟩
        simp [h1, h2]
      · simp [h1]
    simp only [List.foldl_cons, hstep]
    exact ih _ (fun q hq => hself q (by simp [hq]))

/-- Away from the uid test, the two read paths agree: when no ledger record has the
sender as both `from` and `to`, the candidate uid is not the uid of the last ledger
record and the local record of the memory-mapped branch does not hold the candidate
uid on entry, both branches return the same value. -/
theorem hasbalance_paths_agree (env : Env) (chain : List trans) (stale : trans)
    (uid : Nat) (frm : addr) (amount : Nat)
    (hstale : stale.uid ≠ uid)
    (hlast : ∀ r, chain.getLast? = some r → r.uid ≠ uid)
    (hself : ∀ r ∈ chain, ¬ (r.from_ = frm ∧ r.to_ = frm)) :
    hasbalance env chain stale uid frm amount = hasbalance_fread env chain uid frm amount := by
  by_cases hc : ∀ r ∈ chain, r.uid ≠ uid
  · unfold hasbalance hasbalance_fread
    rw [hasbalance_loop_clean uid frm chain stale _ hstale hc,
      hasbalance_fread_loop_clean uid frm chain _ hc,
      foldl_bal_step_fread frm chain _ hself]
  · have hex : ∃ r ∈ chain, r.uid = uid := by
      by_contra hne
      exact hc (fun r hr hu => hne ⟨r, hr, hu⟩)
    obtain ⟨x, hx, hxu⟩ := hex
    obtain ⟨pre, suf, hsplit⟩ := List.append_of_mem hx
    cases suf with
    | nil =>
      exfalso
      exact hlast x (by rw [hsplit]; simp) hxu
    | cons y post =>
      unfold hasbalance hasbalance_fread
      rw [hsplit, hasbalance_loop_hit uid frm x y hxu pre post,
        hasbalance_fread_loop_hit uid frm x hxu pre (y :: post)]

/-- C24 (fails on the code): on the ledger `genesis, rec7`, which the program writes,
for the candidate uid 7 (the uid of the last record) spending 1000 from `key 2`, the
memory-mapped branch of `hasbalance` returns 1 and the positioned-read branch returns
`ERROR_UIDEXIST`. -/
theorem hasbalance_paths_differ :
    ledger_reachable env1 node1.chain ∧ rec7 ∈ node1.chain ∧ rec7.uid = 7 ∧
    hasbalance env1 node1.chain stale0 7 (key 2) 1000 = 1 ∧
    hasbalance_fread env1 node1.chain 7 (key 2) 1000 = ERROR_UIDEXIST := by
  exact ⟨node1_chain_reachable, by decide, rfl, hasbalance_node1, by decide⟩

/-! ## A full queue -/

/-- C25: when every queue slot is occupied and a record with amount > 0, not reported
by the filter, meets no double-spend and no repeat match, `aQue` returns 1, leaves the
queue as it was (no slot holds the uid), and the filter reports the uid right after the
call; when the bucket of the uid had expired, the filter reports the uid at every time
before `now + 32400`. -/
theorem aQue_full_queue (s : Node) (now : Nat) (t : trans) (iip iipo ir : Nat)
    (hamt : t.amount > 0) (hfil : (has_uid now t.uid s.sites).1 ≠ 1)
    (hquiet : ∀ q ∈ s.queue, ¬ is_dspend t ir q ∧ ¬ is_repeat t q)
    (hfull : ∀ q ∈ s.queue, q.tq.amount ≠ 0)
    (hnow : now + 32400 < 2 ^ 32) :
    (aQue s now t iip iipo ir).1 = 1 ∧
    (aQue s now t iip iipo ir).2.queue = s.queue ∧
    (∀ q ∈ (aQue s now t iip iipo ir).2.queue, q.tq.uid ≠ t.uid) ∧
    (aQue s now t iip iipo ir).2.sites
      = add_uid now t.uid 32400 (has_uid now t.uid s.sites).2 ∧
    (has_uid now t.uid (aQue s now t iip iipo ir).2.sites).1 = 1 ∧
    (now ≥ (s.sites (t.uid % MAX_SITES)).expire_epoch →
      ∀ now1, now1 < now + 32400 →
        (has_uid now1 t.uid (aQue s now t iip iipo ir).2.sites).1 = 1) := by
  have hres : aQue s now t iip iipo ir
      = (1, { s with sites := add_uid now t.uid 32400 (has_uid now t.uid s.sites).2 }) := by
    rw [aQue_past_filter s now t iip iipo ir (by omega) hfil,
      aQue_scan_done_full t ir s.queue 0 hquiet hfull]
    simp
  rw [hres]
  refine ⟨rfl, rfl, ?_, rfl, ?_, ?_⟩
  · intro q hq hu
    exact (hquiet q hq).2 ⟨hfull q hq, hu⟩
  · exact has_uid_after_add_uid now t.uid 32400 _ (by decide) hnow
  · intro hexp now1 h1
    apply has_uid_window now t.uid 32400 now1 _ _ hnow h1
    rw [has_uid_snd_self]
    unfold has_uid_reset
    rw [if_pos hexp]
    exact Nat.zero_le _

/-- Witness for C25: every slot of the queue of `node_full` holds `slotA`; a record
with uid 6 from `key 4` arrives at time 101. -/
theorem aQue_full_queue_witness :
    (aQue node_full 101 rec6 8 3 1).1 = 1 ∧
    (aQue node_full 101 rec6 8 3 1).2.queue = node_full.queue ∧
    (∀ q ∈ (aQue node_full 101 rec6 8 3 1).2.queue, q.tq.uid ≠ rec6.uid) ∧
    (aQue node_full 101 rec6 8 3 1).2.sites
      = add_uid 101 rec6.uid 32400 (has_uid 101 rec6.uid node_full.sites).2 ∧
    (has_uid 101 rec6.uid (aQue node_full 101 rec6 8 3 1).2.sites).1 = 1 ∧
    (101 ≥ (node_full.sites (rec6.uid % MAX_SITES)).expire_epoch →
      ∀ now1, now1 < 101 + 32400 →
        (has_uid now1 rec6.uid (aQue node_full 101 rec6 8 3 1).2.sites).1 = 1) :=
  aQue_full_queue node_full 101 rec6 8 3 1 (by decide) (by decide)
    (fun q hq => by
      simp only [node_full, List.mem_replicate] at hq
      rw [hq.2]
      decide)
    (fun q hq => by
      simp only [node_full, List.mem_replicate] at hq
      rw [hq.2]
      decide)
    (by decide)

/-! ## Mining geometry -/

/-- The dot product of vectors of 16-bit components is below 2^34, hence exact in
double precision. -/
theorem vdot_lt (a b : vec3) (hax : a.x < 2 ^ 16) (hay : a.y < 2 ^ 16) (haz : a.z < 2 ^ 16)
    (hbx : b.x < 2 ^ 16) (hby : b.y < 2 ^ 16) (hbz : b.z < 2 ^ 16) :
    vdot a b < 2 ^ 34 := by
  have h1 : a.x * b.x < 2 ^ 16 * 2 ^ 16 := Nat.mul_lt_mul'' hax hbx
  have h2 : a.y * b.y < 2 ^ 16 * 2 ^ 16 := Nat.mul_lt_mul'' hay hby
  have h3 : a.z * b.z < 2 ^ 16 * 2 ^ 16 := Nat.mul_lt_mul'' haz hbz
  unfold vdot
  omega

/-- The vectors read from memory have 16-bit components. -/
theorem vec_at_lt (m : List Nat) (k : Nat) :
    (vec_at m k).x < 2 ^ 16 ∧ (vec_at m k).y < 2 ^ 16 ∧ (vec_at m k).z < 2 ^ 16 := by
  simp only [vec_at, u16_at]
  omega

theorem vdot_self_eq_zero (a : vec3) (h : vdot a a = 0) : a.x = 0 ∧ a.y = 0 ∧ a.z = 0 := by
  unfold vdot at h
  have h1 : a.x * a.x = 0 := by omega
  have h2 : a.y * a.y = 0 := by omega
  have h3 : a.z * a.z = 0 := by omega
  exact ⟨by simpa using h1, by simpa using h2, by simpa using h3⟩

/-- Function `gNa` returns 1 whenever one of the vectors is the zero vector or the dot
product is zero. -/
theorem gNa_one (fe : FloatEnv) (a b : vec3)
    (h : vdot a a = 0 ∨ vdot b b = 0 ∨ vdot a b = 0) : gNa fe a b = 1 := by
  have hdot : vdot a b = 0 := by
    rcases h with h | h | h
    · obtain ⟨h1, h2, h3⟩ := vdot_self_eq_zero a h
      simp [vdot, h1, h2, h3]
    · obtain ⟨h1, h2, h3⟩ := vdot_self_eq_zero b h
      simp [vdot, h1, h2, h3]
    · exact h
  unfold gNa
  rw [if_pos (Or.inr hdot)]

/-- Otherwise `gNa` returns the quotient, and neither magnitude is zero. -/
theorem gNa_quot (fe : FloatEnv) (a b : vec3) (h : vdot a b ≠ 0) :
    gNa fe a b = fe.quot (vdot a b) (vdot a a) (vdot b b) ∧ vdot a a ≠ 0 ∧ vdot b b ≠ 0 := by
  have ha : vdot a a ≠ 0 := by
    intro h0
    obtain ⟨h1, h2, h3⟩ := vdot_self_eq_zero a h0
    exact h (by simp [vdot, h1, h2, h3])
  have hb : vdot b b ≠ 0 := by
    intro h0
    obtain ⟨h1, h2, h3⟩ := vdot_self_eq_zero b h0
    exact h (by simp [vdot, h1, h2, h3])
  refine ⟨?_, ha, hb⟩
  unfold gNa
  rw [if_neg]
  rintro (⟨h1, _⟩ | h1)
  · exact ha h1
  · exact h h1

/-- C27: for memory at `a` whose first 25 bytes are not the genesis key,
`isSubGenesisAddress(a, 1)` equals `isSubGenesisAddressMine(a)`; and when
`network_difficulty` is at most the constant 0.24, `isSubGenesisAddress(a, 0)` is 0 or
equal to `isSubGenesisAddress(a, 1)`. -/
theorem isSubGenesisAddress_modes (fe : FloatEnv) (genesis_pub : addr) (chain : List trans)
    (a : List Nat) :
    (a.take 25 ≠ genesis_pub.key →
      isSubGenesisAddress_fr fe genesis_pub chain a 1 = isSubGenesisAddressMine fe a) ∧
    (fe.network_difficulty ≤ min_024 →
      isSubGenesisAddress_fr fe genesis_pub chain a 0 = 0 ∨
      isSubGenesisAddress_fr fe genesis_pub chain a 0
        = isSubGenesisAddress_fr fe genesis_pub chain a 1) := by
  have hE : ECC_CURVE + 1 = 25 := rfl
  constructor
  · intro hne
    unfold isSubGenesisAddress_fr isSubGenesisAddressMine
    rw [hE, if_neg hne]
    simp
  · intro hd
    unfold isSubGenesisAddress_fr
    by_cases hg : a.take (ECC_CURVE + 1) = genesis_pub.key
    · right
      rw [if_pos hg, if_pos hg]
    · rw [if_neg hg, if_neg hg]
      simp only [if_true, one_ne_zero, if_false]
      unfold subG_value
      simp only
      by_cases hlt : gNa fe (vec_at a 0) (vec_at a 3) < fe.network_difficulty ∧
          gNa fe (vec_at a 3) (vec_at a 2) < fe.network_difficulty ∧
          gNa fe (vec_at a 2) (vec_at a 1) < fe.network_difficulty ∧
          gNa fe (vec_at a 1) (vec_at a 4) < fe.network_difficulty
      · right
        have hlt2 : gNa fe (vec_at a 0) (vec_at a 3) < min_024 ∧
            gNa fe (vec_at a 3) (vec_at a 2) < min_024 ∧
            gNa fe (vec_at a 2) (vec_at a 1) < min_024 ∧
            gNa fe (vec_at a 1) (vec_at a 4) < min_024 :=
          ⟨lt_of_lt_of_le hlt.1 hd, lt_of_lt_of_le hlt.2.1 hd,
           lt_of_lt_of_le hlt.2.2.1 hd, lt_of_lt_of_le hlt.2.2.2 hd⟩
        rw [if_pos hlt, if_pos hlt2]
      · left
        rw [if_neg hlt]

/-- Witness for C27: memory of thirty bytes 3, genesis key `key 1`, every quotient
1/10 and network difficulty 1/5. -/
theorem isSubGenesisAddress_modes_witness :
    (List.replicate 30 3).take 25 ≠ (key 1).key ∧ fe1.network_difficulty ≤ min_024 ∧
    ((List.replicate 30 3).take 25 ≠ (key 1).key →
      isSubGenesisAddress_fr fe1 (key 1) chain3 (List.replicate 30 3) 1
        = isSubGenesisAddressMine fe1 (List.replicate 30 3)) ∧
    (fe1.network_difficulty ≤ min_024 →
      isSubGenesisAddress_fr fe1 (key 1) chain3 (List.replicate 30 3) 0 = 0 ∨
      isSubGenesisAddress_fr fe1 (key 1) chain3 (List.replicate 30 3) 0
        = isSubGenesisAddress_fr fe1 (key 1) chain3 (List.replicate 30 3) 1) :=
  ⟨by decide, by norm_num [fe1, min_024],
   isSubGenesisAddress_modes fe1 (key 1) chain3 (List.replicate 30 3)⟩

/-! ## Peer height -/

theorem takeWhile_token (p : Nat → Bool) (tok rest : List Nat) (d : Nat)
    (htok : ∀ c ∈ tok, p c = true) (hd : p d = false) :
    (tok ++ d :: rest).takeWhile p = tok := by
  induction tok with
  | nil => simp [List.takeWhile, hd]
  | cons c cs ih =>
    have hc : p c = true := htok c (by simp)
    simp only [List.cons_append, List.takeWhile_cons, hc, if_true]
    rw [ih (fun x hx => htok x (by simp [hx]))]

/-- On a buffer that starts with a non-empty token followed by a comma, `strtok`
returns the start of the buffer and overwrites that comma with NUL. -/
theorem strtok_comma_token (tok rest : List Nat) (hne : tok ≠ [])
    (htok : ∀ c ∈ tok, c ≠ 0 ∧ c ≠ 44) :
    strtok_comma (tok ++ 44 :: rest) = (some 0, tok ++ 0 :: rest) := by
  obtain ⟨c, cs, rfl⟩ := List.exists_cons_of_ne_nil hne
  have hc := htok c (by simp)
  have h1 : ((c :: cs ++ 44 :: rest).takeWhile (fun b => decide (b = 44))).length = 0 := by
    simp [List.takeWhile, hc.2]
  have h2 : ((c :: cs ++ 44 :: rest).takeWhile (fun x => decide (x ≠ 0 ∧ x ≠ 44)))
      = c :: cs :=
    takeWhile_token _ (c :: cs) rest 44 (fun x hx => by simpa using htok x hx) (by simp)
  have h3 : (c :: cs ++ 44 :: rest)[(c :: cs).length]? = some 44 := by
    rw [List.getElem?_append_right (le_refl _)]
    simp
  have h4 : (c :: cs ++ 44 :: rest).set (c :: cs).length 0 = c :: cs ++ 0 :: rest := by
    rw [List.set_append_right _ _ (le_refl _)]
    simp
  unfold strtok_comma
  simp only [h1, List.drop_zero, h2, Nat.zero_add]
  rw [h3, if_pos rfl, h4]
  simp [hc.1]

/-- Whenever the user agent of a peer starts with a non-empty token followed by a
comma, `getPeerHeigh` converts the token and leaves the buffer with a NUL in the
place of the comma. -/
theorem getPeerHeigh_token (p : Peers) (id : Nat) (tok rest : List Nat) (hne : tok ≠ [])
    (htok : ∀ c ∈ tok, c ≠ 0 ∧ c ≠ 44) (hua : p.peer_ua id = tok ++ 44 :: rest) :
    (getPeerHeigh p id).1 = strtoul tok ∧
    (getPeerHeigh p id).2.peer_ua id = tok ++ 0 :: rest ∧
    (getPeerHeigh p id).2.peer_ua id ≠ p.peer_ua id := by
  have hc : cstr (tok ++ 0 :: rest) = tok :=
    takeWhile_token _ tok rest 0 (fun x hx => by simpa using (htok x hx).1) (by simp)
  unfold getPeerHeigh
  rw [hua, strtok_comma_token tok rest hne htok]
  simp only [List.drop_zero, hc, Function.update_same, true_and]
  intro h
  have := List.append_cancel_left h
  simp at this

/-- C28: on the peer table `peers_ua`, whose peer 1 advertises
`"12, a0.55, n, m, 0.240"`, `getPeerHeigh(1)` returns 12 and overwrites the first comma
of `peer_ua[1]` with NUL; before the call `networkDifficulty` finds the field `0.240`
at the end of the string, after the call it finds none. -/
theorem getPeerHeigh_writes_ua :
    (getPeerHeigh peers_ua 1).1 = 12 ∧
    (getPeerHeigh peers_ua 1).2.peer_ua 1 = ua12.set 2 0 ∧
    (getPeerHeigh peers_ua 1).2.peer_ua 1 ≠ peers_ua.peer_ua 1 ∧
    networkDifficulty_cf (peers_ua.peer_ua 1) = some [48, 46, 50, 52, 48] ∧
    networkDifficulty_cf ((getPeerHeigh peers_ua 1).2.peer_ua 1) = none := by
  decide

/-! ## Discovery datagrams -/

/-- C29 (counterexample): an 8-byte datagram that starts with the tab character and
carries seven zero bytes, sent from the public address 8.8.8.8 to a node whose code is
`mid1`, makes the listener call `addPeer` for the source, which enters the peer table,
although bytes 1 to 7 differ from those of the node code. -/
theorem discovery_counterexample :
    (discovery_datagram peers0 mid1 100 (ipv4 8 8 8 8) [9, 0, 0, 0, 0, 0, 0, 0]).added
      = some (ipv4 8 8 8 8) ∧
    getPeer (discovery_datagram peers0 mid1 100 (ipv4 8 8 8 8) [9, 0, 0, 0, 0, 0, 0, 0]).peers
      (ipv4 8 8 8 8) = 1 ∧
    getPeer peers0 (ipv4 8 8 8 8) = -1 ∧
    isPrivateAddress (ipv4 8 8 8 8) = 0 ∧
    ([9, 0, 0, 0, 0, 0, 0, 0] : List Nat).drop 1 ≠ mid1.drop 1 := by
  decide

/-- C29 (amended): for an 8-byte datagram that starts with the carriage return the
listener calls `addPeer` for the source exactly when bytes 1 to 7 equal those of the
node code, and otherwise leaves the peer table as it was; for an 8-byte datagram that
starts with the tab character it answers with the datagram whose first byte is the
carriage return and calls `addPeer` for the source whatever the other bytes are. -/
theorem discovery_mid_check (p : Peers) (mid : List Nat) (now src : Nat) (rb : List Nat)
    (hlen : rb.length = 8) :
    (rb.getD 0 0 = 13 →
      ((discovery_datagram p mid now src rb).added = some src ↔
        ∀ i, 1 ≤ i → i ≤ 7 → rb.getD i 0 = mid.getD i 0) ∧
      ((discovery_datagram p mid now src rb).added = none →
        (discovery_datagram p mid now src rb).peers = p) ∧
      (discovery_datagram p mid now src rb).reply = none) ∧
    (rb.getD 0 0 = 9 →
      (discovery_datagram p mid now src rb).added = some src ∧
      (discovery_datagram p mid now src rb).peers = (addPeer p now src).2 ∧
      (discovery_datagram p mid now src rb).reply = some (rb.set 0 13)) := by
  constructor
  · intro h13
    have h9 : ¬ (rb.getD 0 0 = 9 ∧ rb.length = 8) := by rw [h13]; simp
    unfold discovery_datagram
    rw [if_neg h9, if_pos ⟨h13, hlen⟩]
    by_cases hm : rb.getD 1 0 = mid.getD 1 0 ∧ rb.getD 2 0 = mid.getD 2 0 ∧
        rb.getD 3 0 = mid.getD 3 0 ∧ rb.getD 4 0 = mid.getD 4 0 ∧
        rb.getD 5 0 = mid.getD 5 0 ∧ rb.getD 6 0 = mid.getD 6 0 ∧
        rb.getD 7 0 = mid.getD 7 0
    · rw [if_pos hm]
      refine ⟨⟨fun _ i h1 h7 => ?_, fun _ => rfl⟩, fun h => by simp at h, rfl⟩
      obtain ⟨m1, m2, m3, m4, m5, m6, m7⟩ := hm
      have : i = 1 ∨ i = 2 ∨ i = 3 ∨ i = 4 ∨ i = 5 ∨ i = 6 ∨ i = 7 := by omega
      rcases this with h | h | h | h | h | h | h <;> subst h <;> assumption
    · rw [if_neg hm]
      refine ⟨⟨fun h => by simp at h, fun h => ?_⟩, fun _ => rfl, rfl⟩
      exact absurd ⟨h 1 (by omega) (by omega), h 2 (by omega) (by omega),
        h 3 (by omega) (by omega), h 4 (by omega) (by omega), h 5 (by omega) (by omega),
        h 6 (by omega) (by omega), h 7 (by omega) (by omega)⟩ hm
  · intro h9
    unfold discovery_datagram
    rw [if_pos ⟨h9, hlen⟩]
    exact ⟨rfl, rfl, rfl⟩

/-- Witness for C29: a carriage-return datagram carrying the bytes of `mid1`, from
8.8.8.8. -/
theorem discovery_mid_check_witness :
    ([13, 1, 2, 3, 4, 5, 6, 7] : List Nat).length = 8 ∧
    ((([13, 1, 2, 3, 4, 5, 6, 7] : List Nat).getD 0 0 = 13 →
      ((discovery_datagram peers0 mid1 100 (ipv4 8 8 8 8) [13, 1, 2, 3, 4, 5, 6, 7]).added
          = some (ipv4 8 8 8 8) ↔
        ∀ i, 1 ≤ i → i ≤ 7 →
          ([13, 1, 2, 3, 4, 5, 6, 7] : List Nat).getD i 0 = mid1.getD i 0) ∧
      ((discovery_datagram peers0 mid1 100 (ipv4 8 8 8 8) [13, 1, 2, 3, 4, 5, 6, 7]).added
          = none →
        (discovery_datagram peers0 mid1 100 (ipv4 8 8 8 8) [13, 1, 2, 3, 4, 5, 6, 7]).peers
          = peers0) ∧
      (discovery_datagram peers0 mid1 100 (ipv4 8 8 8 8) [13, 1, 2, 3, 4, 5, 6, 7]).reply
        = none) ∧
    (([13, 1, 2, 3, 4, 5, 6, 7] : List Nat).getD 0 0 = 9 →
      (discovery_datagram peers0 mid1 100 (ipv4 8 8 8 8) [13, 1, 2, 3, 4, 5, 6, 7]).added
        = some (ipv4 8 8 8 8) ∧
      (discovery_datagram peers0 mid1 100 (ipv4 8 8 8 8) [13, 1, 2, 3, 4, 5, 6, 7]).peers
        = (addPeer peers0 100 (ipv4 8 8 8 8)).2 ∧
      (discovery_datagram peers0 mid1 100 (ipv4 8 8 8 8) [13, 1, 2, 3, 4, 5, 6, 7]).reply
        = some (([13, 1, 2, 3, 4, 5, 6, 7] : List Nat).set 0 13))) :=
  ⟨rfl, discovery_mid_check peers0 mid1 100 (ipv4 8 8 8 8) [13, 1, 2, 3, 4, 5, 6, 7] rfl⟩

/-! ## Wire format -/

theorem le_bytes_length : ∀ (k n : Nat), (le_bytes k n).length = k := by
  intro k
  induction k with
  | zero => intro n; rfl
  | succ k ih => intro n; simp [le_bytes, ih]

theorem le_val_le_bytes : ∀ (k n : Nat), n < 256 ^ k → le_val (le_bytes k n) = n := by
  intro k
  induction k with
  | zero =>
    intro n h
    simp at h
    simp [le_bytes, le_val, h]
  | succ k ih =>
    intro n h
    have h1 : n / 256 < 256 ^ k := by
      rw [Nat.div_lt_iff_lt_mul (by decide)]
      rw [pow_succ] at h
      exact h
    simp only [le_bytes, le_val, ih (n / 256) h1]
    omega

/-- The transaction packet has `trans_size` bytes. -/
theorem encode_t_length (origin : Nat) (t : trans)
    (hf : t.from_.key.length = ECC_CURVE + 1) (hd : t.to_.key.length = ECC_CURVE + 1)
    (ho : t.owner.key.length = ECC_CURVE * 2) :
    (encode_t origin t).length = 115 := by
  simp only [encode_t, List.length_cons, List.length_append, le_bytes_length, hf, hd, ho]
  rfl

/-- The replay packet has `replay_size` bytes. -/
theorem encode_p_length (t : trans)
    (hf : t.from_.key.length = ECC_CURVE + 1) (hd : t.to_.key.length = ECC_CURVE + 1)
    (ho : t.owner.key.length = ECC_CURVE * 2) :
    (encode_p t).length = 111 := by
  simp only [encode_p, List.length_cons, List.length_append, le_bytes_length, hf, hd, ho]
  rfl

/-- C30: for an origin below 2^32 and a record with uid below 2^64, amount below 2^32,
keys of 25 bytes and a signature of 48 bytes, decoding the packet built by
`processThread` gives the origin and the record, decoding the packet built by
`replayBlocks` gives the record, and the packets have 1+4+110 and 1+110 bytes. -/
theorem wire_round_trip (origin : Nat) (t : trans)
    (horigin : origin < 2 ^ 32) (huid : t.uid < 2 ^ 64) (hamount : t.amount < 2 ^ 32)
    (hf : t.from_.key.length = 25) (hd : t.to_.key.length = 25)
    (ho : t.owner.key.length = 48) :
    decode_t (encode_t origin t) = some (origin, t) ∧
    decode_p (encode_p t) = some t ∧
    (encode_t origin t).length = 1 + 4 + 110 ∧
    (encode_p t).length = 1 + 110 := by
  have hlt : (encode_t origin t).length = 115 := encode_t_length origin t hf hd ho
  have hlp : (encode_p t).length = 111 := encode_p_length t hf hd ho
  have h4 : ∀ n, (le_bytes 4 n).length = 4 := le_bytes_length 4
  have h8 : ∀ n, (le_bytes 8 n).length = 8 := le_bytes_length 8
  have hE1 : ECC_CURVE + 1 = 25 := rfl
  have hE2 : ECC_CURVE * 2 = 48 := rfl
  have v1 : le_val (le_bytes 4 origin) = origin := le_val_le_bytes 4 origin (by omega)
  have v2 : le_val (le_bytes 8 t.uid) = t.uid := le_val_le_bytes 8 t.uid (by omega)
  have v3 : le_val (le_bytes 4 t.amount) = t.amount := le_val_le_bytes 4 t.amount (by omega)
  refine ⟨?_, ?_, hlt, hlp⟩
  · have hts : trans_size = 115 := rfl
    unfold decode_t
    rw [if_pos ⟨Or.inl (by simp [encode_t]), by rw [hlt, hts]⟩]
    simp only [encode_t, hE1, hE2, List.drop_one, List.tail_cons,
      List.take_left' (h4 _), List.drop_left' (h4 _),
      List.take_left' (h8 _), List.drop_left' (h8 _),
      List.take_left' hf, List.drop_left' hf, List.take_left' hd, List.drop_left' hd,
      List.take_of_length_le (le_of_eq ho), v1, v2, v3]
  · have hrs : replay_size = 111 := rfl
    unfold decode_p
    rw [if_pos ⟨by simp [encode_p], by rw [hlp, hrs]⟩]
    simp only [encode_p, hE1, hE2, List.drop_one, List.tail_cons,
      List.take_left' (h4 _), List.drop_left' (h4 _),
      List.take_left' (h8 _), List.drop_left' (h8 _),
      List.take_left' hf, List.drop_left' hf, List.take_left' hd, List.drop_left' hd,
      List.take_of_length_le (le_of_eq ho), v2, v3]

/-- Witness for C30: the record `rec7` relayed with origin 8.8.8.8. -/
theorem wire_round_trip_witness :
    decode_t (encode_t (ipv4 8 8 8 8) rec7) = some (ipv4 8 8 8 8, rec7) ∧
    decode_p (encode_p rec7) = some rec7 ∧
    (encode_t (ipv4 8 8 8 8) rec7).length = 1 + 4 + 110 ∧
    (encode_p rec7).length = 1 + 110 :=
  wire_round_trip (ipv4 8 8 8 8) rec7 (by decide) (by decide) (by decide)
    (by decide) (by decide) (by decide)

end VFC
